import Mathlib

/-!
Verification of the hallway-first floor plan generator
(`src/floorPlan/generator.js`).

The generator is shallowly embedded below, function by function, keeping the
source's names and call structure.  Modelling conventions:

* JavaScript numbers are modelled as exact rationals (`ℚ`); grid coordinates,
  which the source keeps integral throughout, as `ℤ`; counts as `ℕ`.
* A JavaScript `Set` of formatted coordinate strings is modelled as a `List`
  with membership-checked insertion (string keys are injective formattings of
  the underlying data, so the key type is the data itself: a cell key is the
  cell, an edge key is the edge).  A `Map` is an association list whose
  `set` updates an existing key in place, matching JS insertion-order
  iteration.
* The xorshift RNG is bit-exact: its 32-bit state is a `ℕ` below `2^32` and
  every produced float is the dyadic rational `state / 2^32`.
* `pickGrowthCandidate` scores growth candidates with `Math.hypot`, an
  irrational floating-point quantity; it is the one function kept as a
  PARAMETER (`Picker`) of the embedding.  All theorems below are proved for
  every picker, so they hold in particular for the source's picker.
* The two rejection-sampling `while` loops (door filling, the dead exit
  fallback) are given an explicit fuel argument; every other loop of the
  source has a static bound and is embedded as is.
-/

namespace FloorPlan

/-- JS `Math.max(min, Math.min(max, value))` — `clampNumber` of the source. -/
def clampNumber (value min max : ℚ) : ℚ := Max.max min (Min.min max value)

/-- JS `Math.round`: round half toward positive infinity. -/
def jsRound (q : ℚ) : ℤ := Int.floor (q + 1/2)

/-- JS `Math.floor`. -/
def jsFloor (q : ℚ) : ℤ := Int.floor q

/-- JS `Math.ceil`. -/
def jsCeil (q : ℚ) : ℤ := Int.ceil q

/-- One update of the xorshift32 state used by `createRng`:
`s ^= s << 13; s ^= s >>> 17; s ^= s << 5`, on 32-bit patterns. -/
def xorshiftStep (s : ℕ) : ℕ :=
  let s0 := s % 4294967296
  let s1 := s0 ^^^ ((s0 <<< 13) % 4294967296)
  let s2 := s1 ^^^ (s1 >>> 17)
  s2 ^^^ ((s2 <<< 5) % 4294967296)

/-- Initial RNG state: `(Number(seed) >>> 0) || 1`. -/
def createRngInit (seed : ℤ) : ℕ :=
  let s := (seed % 4294967296).toNat
  if s = 0 then 1 else s

/-- One call of the closure returned by `createRng`: the state advances and
the produced float is `(state >>> 0) / 4294967296`. -/
def rngFloat (s : ℕ) : ℚ × ℕ :=
  let s' := xorshiftStep s
  ((s' : ℚ) / 4294967296, s')

/-- `randomInt(rng, minInclusive, maxInclusive)` of the source. -/
def randomInt (s : ℕ) (minInclusive maxInclusive : ℤ) : ℤ × ℕ :=
  let (u, s') := rngFloat s
  (jsFloor (u * ((maxInclusive : ℚ) - (minInclusive : ℚ) + 1)) + minInclusive, s')

/-- `randomChoice(rng, values)`: `values[randomInt(rng, 0, values.length - 1)]`. -/
def randomChoice [Inhabited α] (s : ℕ) (values : List α) : α × ℕ :=
  let r := randomInt s 0 ((values.length : ℤ) - 1)
  (values.getD r.1.toNat default, r.2)

/-- A grid cell, one unit by one unit; the source's string key `"x,y"` is an
injective formatting of this pair, so the pair itself is the key. -/
abbrev Cell := ℤ × ℤ

/-- Membership-checked insertion at the back: JS `Set.prototype.add` with
insertion-order iteration. -/
def insertUniq [DecidableEq α] (l : List α) (a : α) : List α :=
  if a ∈ l then l else l ++ [a]

/-- Association-list update with JS `Map.prototype.set` semantics: an existing
key keeps its position, a new key is appended. -/
def mapSet [DecidableEq κ] : List (κ × ν) → κ → ν → List (κ × ν)
  | [], k, v => [(k, v)]
  | (k', v') :: rest, k, v =>
    if k' = k then (k', v) :: rest else (k', v') :: mapSet rest k v

/-- Push one value onto the list stored at a key, creating the entry when the
key is new (the `if (!m.has(k)) m.set(k, []); m.get(k).push(v)` pattern). -/
def mapPush [DecidableEq κ] : List (κ × List ν) → κ → ν → List (κ × List ν)
  | [], k, v => [(k, [v])]
  | (k', vs) :: rest, k, v =>
    if k' = k then (k', vs ++ [v]) :: rest else (k', vs) :: mapPush rest k v

/-- An axis-aligned wall edge between two grid points. -/
structure Edge where
  x1 : ℤ
  y1 : ℤ
  x2 : ℤ
  y2 : ℤ
deriving DecidableEq, Repr, Inhabited

/-- `normalizeEdge` of the source: canonical endpoint order. -/
def normalizeEdge (x1 y1 x2 y2 : ℤ) : Edge :=
  if x1 < x2 ∨ (x1 = x2 ∧ y1 ≤ y2) then ⟨x1, y1, x2, y2⟩ else ⟨x2, y2, x1, y1⟩

/-- `edgeLength`: the source computes `Math.hypot(x2-x1, y2-y1)`.  Every edge
this program measures is axis-aligned (unit grid edges and their collinear
merges), where the hypotenuse is the absolute coordinate difference; the
never-occurring oblique case is mapped to 0 to keep the function rational. -/
def edgeLength (e : Edge) : ℚ :=
  if e.x1 = e.x2 then ((e.y2 - e.y1).natAbs : ℚ)
  else if e.y1 = e.y2 then ((e.x2 - e.x1).natAbs : ℚ)
  else 0

/-- The cells strictly between `start` and `target` plus the target itself,
walking one step at a time (one `while` loop of `collectPolylinePath`). -/
def marchSteps (start target : ℤ) : List ℤ :=
  let dir : ℤ := if target > start then 1 else -1
  (List.range (target - start).natAbs).map (fun i => start + dir * ((i : ℤ) + 1))

/-- `collectPolylinePath`: connect waypoints into an axis-stepped polyline,
x leg first, then y leg. -/
def collectPolylinePath : List Cell → List Cell
  | [] => []
  | p :: rest =>
    let step := fun (acc : List Cell × Cell) (next : Cell) =>
      let (cells, cur) := acc
      let xs := (marchSteps cur.1 next.1).map (fun x => (x, cur.2))
      let ys := (marchSteps cur.2 next.2).map (fun y => (next.1, y))
      (cells ++ xs ++ ys, next)
    (rest.foldl step ([p], p)).1

/-- Grid bounds in cells. -/
structure Bounds where
  cols : ℕ
  rows : ℕ
deriving DecidableEq, Repr, Inhabited

/-- `stampHallwayCell`: add the square brush neighborhood of a path cell,
clipped to the bounds (dy outer, dx inner, matching the source's loops). -/
def stampHallwayCell (hallwayCells : List Cell) (bounds : Bounds) (x y : ℤ)
    (brushRadius : ℕ) : List Cell :=
  (List.range (2 * brushRadius + 1)).foldl
    (fun acc dy =>
      (List.range (2 * brushRadius + 1)).foldl
        (fun acc dx =>
          let nx := x + (dx : ℤ) - (brushRadius : ℤ)
          let ny := y + (dy : ℤ) - (brushRadius : ℤ)
          if nx < 0 ∨ nx ≥ (bounds.cols : ℤ) ∨ ny < 0 ∨ ny ≥ (bounds.rows : ℤ) then acc
          else insertUniq acc (nx, ny))
        acc)
    hallwayCells

/-- The four hallway shapes. -/
inductive HallShape | L | U | S | T
deriving DecidableEq, Repr, Inhabited

/-- `makeCenterlinePoints`: six coordinate draws (all consumed whatever the
shape), then shape-specific waypoints; the `T` shape draws one extra branch
coordinate. -/
def makeCenterlinePoints (shape : HallShape) (bounds : Bounds) (s : ℕ) :
    List Cell × ℕ :=
  let margin : ℤ := 3
  let minX := margin
  let maxX := Max.max (minX + 1) ((bounds.cols : ℤ) - margin - 1)
  let minY := margin
  let maxY := Max.max (minY + 1) ((bounds.rows : ℤ) - margin - 1)
  let (xA, s) := randomInt s minX maxX
  let (xB, s) := randomInt s minX maxX
  let (xC, s) := randomInt s minX maxX
  let (yA, s) := randomInt s minY maxY
  let (yB, s) := randomInt s minY maxY
  let (yC, s) := randomInt s minY maxY
  match shape with
  | .U =>
    let leftX := Min.min xA xB
    let rightX := Max.max xA xB
    let topY := Min.min yA yB
    let bottomY := Max.max yA yC
    ([(leftX, topY), (leftX, bottomY), (rightX, bottomY), (rightX, topY)], s)
  | .T =>
    let stemX := xA
    let topY := Min.min yA yB
    let bottomY := Max.max yA yB
    let leftX := Min.min xB xC
    let rightX := Max.max xB xC
    let (branchY, s) := randomInt s topY bottomY
    ([(stemX, topY), (stemX, bottomY), (leftX, branchY), (rightX, branchY)], s)
  | .S =>
    ([(xA, yA), (xB, yA), (xB, yC), (xC, yC), (xC, yB)], s)
  | .L =>
    ([(xA, yA), (xB, yA), (xB, yB)], s)

/-- `generateHallwayCells`: stamp the brush along the centerline polyline. -/
def generateHallwayCells (bounds : Bounds) (shape : HallShape)
    (corridorWidthCells : ℕ) (s : ℕ) : List Cell × ℕ :=
  let (centerline, s) := makeCenterlinePoints shape bounds s
  let brushRadius := (corridorWidthCells - 1) / 2
  let pathCells := collectPolylinePath centerline
  (pathCells.foldl (fun acc c => stampHallwayCell acc bounds c.1 c.2 brushRadius) [], s)

/-- One hallway group: id (the source's `hall-N`), shape tag, stamped cells. -/
structure HallGroup where
  id : ℕ
  shape : HallShape
  cells : List Cell
deriving DecidableEq, Repr, Inhabited

/-- State of `buildHallwayGroups`' accumulation. -/
structure HallBuild where
  combined : List Cell
  groups : List HallGroup
  rng : ℕ
deriving Repr, Inhabited

/-- The retry loop of `buildHallwayGroups` for one hallway: up to
`maxAttemptsPerHallway` carves, accepting the first with at least
`minUniqueCellsPerHallway` cells. -/
def hallwayAttemptLoop (bounds : Bounds) (corridorWidthCells : ℕ) :
    ℕ → HallBuild → Bool × HallBuild
  | 0, st => (false, st)
  | n + 1, st =>
    let rc := randomChoice st.rng [HallShape.L, .U, .S, .T]
    let gc := generateHallwayCells bounds rc.1 corridorWidthCells rc.2
    if gc.1.length < 10 then
      hallwayAttemptLoop bounds corridorWidthCells n { st with rng := gc.2 }
    else
      (true,
       { combined := gc.1.foldl insertUniq st.combined
         groups := st.groups ++
           [{ id := st.groups.length + 1, shape := rc.1, cells := gc.1 }]
         rng := gc.2 })

/-- `buildHallwayGroups`: carve `hallwayCount` hallways, 12 attempts each; if
every attempt of the very first hallway fails, accept a fallback carve. -/
def buildHallwayGroups (bounds : Bounds) (hallwayCount : ℕ)
    (corridorWidthCells : ℕ) (s : ℕ) : HallBuild :=
  (List.range hallwayCount).foldl
    (fun st _ =>
      let pr := hallwayAttemptLoop bounds corridorWidthCells 12 st
      if ¬ pr.1 ∧ pr.2.groups.length = 0 then
        let fs := randomChoice pr.2.rng [HallShape.L, .U, .S, .T]
        let fb := generateHallwayCells bounds fs.1 corridorWidthCells fs.2
        { combined := fb.1.foldl insertUniq pr.2.combined
          groups := [{ id := 1, shape := fs.1, cells := fb.1 }]
          rng := fb.2 }
      else pr.2)
    { combined := [], groups := [], rng := s }

/-- An occupancy grid of booleans (`HALLWAY_MARKER` or `null`), row-major. -/
abbrev HallGrid := List (List Bool)

/-- Read `grid[y][x]`, false outside (the source's optional chaining makes an
out-of-bounds read `undefined`, which compares unequal to the marker). -/
def gridGet (grid : HallGrid) (x y : ℤ) : Bool :=
  if 0 ≤ y ∧ y.toNat < grid.length then
    let row := grid.getD y.toNat []
    if 0 ≤ x ∧ x.toNat < row.length then row.getD x.toNat false else false
  else false

/-- Write `grid[y][x] := true` when in bounds. -/
def gridSet (grid : HallGrid) (x y : ℤ) : HallGrid :=
  if 0 ≤ x ∧ 0 ≤ y then
    grid.set y.toNat ((grid.getD y.toNat []).set x.toNat true)
  else grid

/-- `buildHallwayGrid`: an all-`null` grid with the hallway cells marked. -/
def buildHallwayGrid (bounds : Bounds) (hallwayCells : List Cell) : HallGrid :=
  hallwayCells.foldl
    (fun grid c =>
      if 0 ≤ c.1 ∧ c.1 < (bounds.cols : ℤ) ∧ 0 ≤ c.2 ∧ c.2 < (bounds.rows : ℤ) then
        gridSet grid c.1 c.2
      else grid)
    (List.replicate bounds.rows (List.replicate bounds.cols false))

/-- Ownership grid: which hallway group id owns each cell. -/
abbrev OwnGrid := List (List (Option ℕ))

/-- Read `grid[y][x] ?? null`. -/
def ownGet (grid : OwnGrid) (x y : ℤ) : Option ℕ :=
  if 0 ≤ y ∧ y.toNat < grid.length then
    let row := grid.getD y.toNat []
    if 0 ≤ x ∧ x.toNat < row.length then row.getD x.toNat none else none
  else none

/-- `buildHallwayOwnershipGrid`. -/
def buildHallwayOwnershipGrid (bounds : Bounds) (hallwayGroups : List HallGroup) :
    OwnGrid :=
  hallwayGroups.foldl
    (fun grid group =>
      group.cells.foldl
        (fun grid c =>
          if 0 ≤ c.1 ∧ c.1 < (bounds.cols : ℤ) ∧ 0 ≤ c.2 ∧ c.2 < (bounds.rows : ℤ) then
            grid.set c.2.toNat ((grid.getD c.2.toNat []).set c.1.toNat (some group.id))
          else grid)
        grid)
    (List.replicate bounds.rows (List.replicate bounds.cols none))

/-- A wall: a merged edge plus optional hallway or room ownership. -/
structure Wall where
  edge : Edge
  hallwayId : Option ℕ := none
  roomId : Option ℕ := none
deriving DecidableEq, Repr, Inhabited

/-- Insert after every element at most as large: the stable insertion step.
(JS `Array.prototype.sort` is stable; the merged output is in any case
independent of the order of equal keys here.) -/
def stableInsertBy (le : α → α → Bool) (a : α) : List α → List α
  | [] => [a]
  | b :: l => if le b a then b :: stableInsertBy le a l else a :: b :: l

/-- A stable structural sort standing in for the source's comparator sorts. -/
def stableSortBy (le : α → α → Bool) : List α → List α
  | [] => []
  | a :: l => stableInsertBy le a (stableSortBy le l)

/-- One run inside a merge bucket: `{start, end, axis, coord}`. -/
structure MergeRun where
  startP : ℤ
  endP : ℤ
  horizontal : Bool
  coord : ℤ
deriving DecidableEq, Repr, Inhabited

/-- The coalescing scan of one sorted bucket of `mergeCollinearWalls`:
a run starting within `1e-6` of the current run's end extends it. -/
def mergeRunScan (list : List MergeRun) : List MergeRun :=
  let step := fun (acc : List MergeRun × Option MergeRun) (item : MergeRun) =>
    match acc with
    | (merged, none) => (merged, some item)
    | (merged, some current) =>
      if (item.startP : ℚ) ≤ (current.endP : ℚ) + 1/1000000 then
        (merged, some { current with endP := Max.max current.endP item.endP })
      else
        (merged ++ [current], some item)
  match list.foldl step ([], none) with
  | (merged, none) => merged
  | (merged, some current) => merged ++ [current]

/-- `mergeCollinearWalls`: bucket edges by (axis, fixed coordinate), sort each
bucket by position, coalesce touching runs, and re-emit normalized edges. -/
def mergeCollinearWalls (rawWalls : List Wall) : List Wall :=
  let buckets : List ((Bool × ℤ) × List MergeRun) :=
    rawWalls.foldl
      (fun buckets wall =>
        let isHorizontal := wall.edge.y1 = wall.edge.y2
        let coord := if isHorizontal then wall.edge.y1 else wall.edge.x1
        let start := if isHorizontal then wall.edge.x1 else wall.edge.y1
        let endP := if isHorizontal then wall.edge.x2 else wall.edge.y2
        mapPush buckets (isHorizontal, coord)
          { startP := Min.min start endP, endP := Max.max start endP,
            horizontal := isHorizontal, coord := coord })
      []
  let merged :=
    buckets.foldl
      (fun merged bucket =>
        merged ++ mergeRunScan (stableSortBy (fun a b => a.startP ≤ b.startP) bucket.2))
      []
  merged.map (fun entry =>
    { edge :=
        if entry.horizontal then normalizeEdge entry.startP entry.coord entry.endP entry.coord
        else normalizeEdge entry.coord entry.startP entry.coord entry.endP })

/-- `buildHallwayWalls`: boundary edges of the hallway footprint, merged. -/
def buildHallwayWalls (bounds : Bounds) (hallwayCells : List Cell) : List Wall :=
  let hallwayGrid := buildHallwayGrid bounds hallwayCells
  let rawWalls :=
    (List.range bounds.rows).foldl
      (fun raw yn =>
        (List.range bounds.cols).foldl
          (fun raw xn =>
            let x := (xn : ℤ)
            let y := (yn : ℤ)
            if gridGet hallwayGrid x y then
              let raw := if ¬ gridGet hallwayGrid x (y - 1) then
                raw ++ [Wall.mk (normalizeEdge x y (x+1) y) none none] else raw
              let raw := if ¬ gridGet hallwayGrid x (y + 1) then
                raw ++ [Wall.mk (normalizeEdge x (y+1) (x+1) (y+1)) none none] else raw
              let raw := if ¬ gridGet hallwayGrid (x - 1) y then
                raw ++ [Wall.mk (normalizeEdge x y x (y+1)) none none] else raw
              let raw := if ¬ gridGet hallwayGrid (x + 1) y then
                raw ++ [Wall.mk (normalizeEdge (x+1) y (x+1) (y+1)) none none] else raw
              raw
            else raw)
          raw)
      []
  mergeCollinearWalls rawWalls

/-- `getHallwayIdForWall`: sample the midpoint and look up which hallway group
owns the hallway side of the wall. -/
def getHallwayIdForWall (edge : Edge) (hallwayGrid : HallGrid)
    (hallwayOwnershipGrid : OwnGrid) : Option ℕ :=
  if edge.y1 = edge.y2 then
    let y := edge.y1
    let sampleX := Max.max 0 (jsFloor (((edge.x1 : ℚ) + (edge.x2 : ℚ)) / 2))
    let hallwayAbove := y - 1 ≥ 0 ∧ gridGet hallwayGrid sampleX (y - 1)
    let hallwayBelow := y < (hallwayGrid.length : ℤ) ∧ gridGet hallwayGrid sampleX y
    if hallwayBelow ∧ ¬ hallwayAbove then ownGet hallwayOwnershipGrid sampleX y
    else if hallwayAbove ∧ ¬ hallwayBelow then ownGet hallwayOwnershipGrid sampleX (y - 1)
    else none
  else
    let x := edge.x1
    let sampleY := Max.max 0 (jsFloor (((edge.y1 : ℚ) + (edge.y2 : ℚ)) / 2))
    let hallwayLeft := x - 1 ≥ 0 ∧ gridGet hallwayGrid (x - 1) sampleY
    let hallwayRight := x < ((hallwayGrid.getD 0 []).length : ℤ) ∧ gridGet hallwayGrid x sampleY
    if hallwayRight ∧ ¬ hallwayLeft then ownGet hallwayOwnershipGrid x sampleY
    else if hallwayLeft ∧ ¬ hallwayRight then ownGet hallwayOwnershipGrid (x - 1) sampleY
    else none

/-- The side of a hallway wall that is open toward the hallway. -/
inductive HallSide | north | south | east | west
deriving DecidableEq, Repr, Inhabited

/-- `classifyHallwayWallSide`. -/
def classifyHallwayWallSide (edge : Edge) (hallwayGrid : HallGrid) :
    Option HallSide :=
  if edge.y1 = edge.y2 then
    let y := edge.y1
    let sampleX := Max.max 0 (jsFloor (((edge.x1 : ℚ) + (edge.x2 : ℚ)) / 2))
    let hallwayAbove := y - 1 ≥ 0 ∧ gridGet hallwayGrid sampleX (y - 1)
    let hallwayBelow := y < (hallwayGrid.length : ℤ) ∧ gridGet hallwayGrid sampleX y
    if hallwayBelow ∧ ¬ hallwayAbove then some .north
    else if hallwayAbove ∧ ¬ hallwayBelow then some .south
    else none
  else
    let x := edge.x1
    let sampleY := Max.max 0 (jsFloor (((edge.y1 : ℚ) + (edge.y2 : ℚ)) / 2))
    let hallwayLeft := x - 1 ≥ 0 ∧ gridGet hallwayGrid (x - 1) sampleY
    let hallwayRight := x < ((hallwayGrid.getD 0 []).length : ℤ) ∧ gridGet hallwayGrid x sampleY
    if hallwayRight ∧ ¬ hallwayLeft then some .west
    else if hallwayLeft ∧ ¬ hallwayRight then some .east
    else none

/-- Opening and room-size-mode tags. -/
inductive OpeningType | door | window
deriving DecidableEq, Repr, Inhabited

/-- The three rectangle size modes of `buildRoomFromDoor`. -/
inductive SizeMode | large | normal | compact
deriving DecidableEq, Repr, Inhabited

/-- An opening record as the selectors produce it: the owning wall's key (the
key string encodes the edge itself), type, offset window, and the optional
hallway/room ownership and size-mode tags carried by some producers. -/
structure Opening where
  wallKey : Edge
  hallwayId : Option ℕ := none
  type : OpeningType
  startO : ℚ
  endO : ℚ
  roomId : Option ℕ := none
  roomSizeMode : Option SizeMode := none
deriving DecidableEq, Repr, Inhabited

/-- A candidate room rectangle. -/
structure RoomRect where
  x : ℤ
  y : ℤ
  width : ℤ
  height : ℤ
  side : HallSide
deriving DecidableEq, Repr, Inhabited

/-- The cells of a rectangle, row-major (`y` outer, `x` inner). -/
def rectCellList (roomRect : RoomRect) : List Cell :=
  (List.range roomRect.height.toNat).foldl
    (fun acc (dy : ℕ) =>
      (List.range roomRect.width.toNat).foldl
        (fun acc (dx : ℕ) => acc ++ [(roomRect.x + (dx : ℤ), roomRect.y + (dy : ℤ))])
        acc)
    []

/-- `roomCellsOverlap`: does the rectangle meet any occupied cell? -/
def roomCellsOverlap (occupiedCells : List Cell) (roomRect : RoomRect) : Bool :=
  (rectCellList roomRect).any (fun c => c ∈ occupiedCells)

/-- `createRoomCellKeySet`: the rectangle's cells as a fresh key set. -/
def createRoomCellKeySet (roomRect : RoomRect) : List Cell :=
  (rectCellList roomRect).foldl insertUniq []

/-- The scaled room size of `buildRoomFromDoor` (its `largeMode`/`compactMode`
ladder). -/
def roomScaledSize (mode : SizeMode) (roomSizeScale : ℚ) : ℚ :=
  if mode = SizeMode.large then roomSizeScale * 1.55
  else if mode = SizeMode.compact then Max.max 1 (roomSizeScale * 0.75)
  else roomSizeScale * 1.3

/-- `minFrontage` of `buildRoomFromDoor`. -/
def roomMinFrontage (mode : SizeMode) (doorSpan : ℤ) (scaledRoomSize : ℚ) : ℤ :=
  if mode = SizeMode.compact then
    Max.max 4 (jsRound (((doorSpan : ℚ) + 2) * scaledRoomSize))
  else Max.max 6 (jsRound (((doorSpan : ℚ) + 5) * scaledRoomSize))

/-- `maxFrontage` of `buildRoomFromDoor`. -/
def roomMaxFrontage (mode : SizeMode) (minFrontage wallLengthCells : ℤ)
    (scaledRoomSize : ℚ) : ℤ :=
  if mode = SizeMode.compact then
    Max.max minFrontage (Min.min (jsRound (12 * scaledRoomSize)) wallLengthCells)
  else
    Max.max minFrontage (Min.min (jsRound (30 * scaledRoomSize)) wallLengthCells)

/-- `minDepth` of `buildRoomFromDoor`. -/
def roomMinDepth (mode : SizeMode) (scaledRoomSize : ℚ) : ℤ :=
  if mode = SizeMode.compact then 5 else Max.max 9 (jsRound (8 * scaledRoomSize))

/-- `maxDepth` of `buildRoomFromDoor`. -/
def roomMaxDepth (mode : SizeMode) (maxDepthByBounds : ℤ) (scaledRoomSize : ℚ) : ℤ :=
  if mode = SizeMode.compact then Min.min (jsRound (12 * scaledRoomSize)) maxDepthByBounds
  else Min.min (jsRound (30 * scaledRoomSize)) maxDepthByBounds

/-- `buildRoomFromDoor`: size and place one rectangle against a hallway wall,
drawing frontage and depth, centering on the door and clamping to bounds.
`none` is the source's `null` (the rectangle does not fit). -/
def buildRoomFromDoor (doorOpening : Opening) (hallwayWall : Wall)
    (hallwaySide : HallSide) (bounds : Bounds) (s : ℕ) (roomSizeScale : ℚ) :
    Option RoomRect × ℕ :=
  let mode := doorOpening.roomSizeMode.getD .normal
  let wallLengthCells := Max.max 1 (jsFloor (edgeLength hallwayWall.edge))
  let scaledRoomSize := roomScaledSize mode roomSizeScale
  let doorSpan := jsCeil (doorOpening.endO - doorOpening.startO)
  let minFrontage := roomMinFrontage mode doorSpan scaledRoomSize
  let maxFrontage := roomMaxFrontage mode minFrontage wallLengthCells scaledRoomSize
  if maxFrontage < minFrontage then (none, s) else
  let fr := randomInt s minFrontage maxFrontage
  let frontage := fr.1
  let maxDepthByBounds : ℤ :=
    Max.max 10 (jsFloor ((Min.min (bounds.cols : ℚ) (bounds.rows : ℚ)) * 0.8))
  let minDepth := roomMinDepth mode scaledRoomSize
  let maxDepth := roomMaxDepth mode maxDepthByBounds scaledRoomSize
  if maxDepth < minDepth then (none, fr.2) else
  let dp := randomInt fr.2 minDepth maxDepth
  let depth := dp.1
  let s := dp.2
  let doorCenter := (doorOpening.startO + doorOpening.endO) / 2
  if hallwayWall.edge.y1 = hallwayWall.edge.y2 then
    let wallY := hallwayWall.edge.y1
    let doorCenterX := (hallwayWall.edge.x1 : ℚ) + doorCenter
    let wallMin := Min.min hallwayWall.edge.x1 hallwayWall.edge.x2
    let wallMax := Max.max hallwayWall.edge.x1 hallwayWall.edge.x2
    let x := jsRound (doorCenterX - (frontage : ℚ) / 2)
    let minX := Max.max 0 wallMin
    let maxX := Min.min ((bounds.cols : ℤ) - frontage) (wallMax - frontage)
    if maxX < minX then (none, s) else
    let clampedX := Max.max minX (Min.min maxX x)
    if hallwaySide = HallSide.north then
      let y := wallY - depth
      if y < 0 then (none, s)
      else (some ⟨clampedX, y, frontage, depth, .north⟩, s)
    else
      let y := wallY
      if y + depth > (bounds.rows : ℤ) then (none, s)
      else (some ⟨clampedX, y, frontage, depth, .south⟩, s)
  else
    let wallX := hallwayWall.edge.x1
    let doorCenterY := (hallwayWall.edge.y1 : ℚ) + doorCenter
    let wallMin := Min.min hallwayWall.edge.y1 hallwayWall.edge.y2
    let wallMax := Max.max hallwayWall.edge.y1 hallwayWall.edge.y2
    let y := jsRound (doorCenterY - (frontage : ℚ) / 2)
    let minY := Max.max 0 wallMin
    let maxY := Min.min ((bounds.rows : ℤ) - frontage) (wallMax - frontage)
    if maxY < minY then (none, s) else
    let clampedY := Max.max minY (Min.min maxY y)
    if hallwaySide = HallSide.west then
      let x := wallX - depth
      if x < 0 then (none, s)
      else (some ⟨x, clampedY, depth, frontage, .west⟩, s)
    else
      let x := wallX
      if x + depth > (bounds.cols : ℤ) then (none, s)
      else (some ⟨x, clampedY, depth, frontage, .east⟩, s)

/-- A room's output record (`buildRoomDataFromCells`): bounding box, cell
list, label position. -/
structure RoomOut where
  id : ℕ
  x : ℤ
  y : ℤ
  width : ℤ
  height : ℤ
  cells : List Cell
  labelX : ℚ
  labelY : ℚ
deriving DecidableEq, Repr, Inhabited

/-- `buildRoomDataFromCells` (the source folds with `±Infinity` starters; an
empty cell set never occurs and is given a zero box here). -/
def buildRoomDataFromCells (roomId : ℕ) (roomCells : List Cell) : RoomOut :=
  match roomCells with
  | [] => { id := roomId, x := 0, y := 0, width := 0, height := 0,
            cells := [], labelX := 0, labelY := 0 }
  | c :: rest =>
    let minX := rest.foldl (fun acc d => Min.min acc d.1) c.1
    let minY := rest.foldl (fun acc d => Min.min acc d.2) c.2
    let maxX := rest.foldl (fun acc d => Max.max acc d.1) c.1
    let maxY := rest.foldl (fun acc d => Max.max acc d.2) c.2
    let sumX := roomCells.foldl (fun acc d => acc + (d.1 : ℚ) + 0.5) 0
    let sumY := roomCells.foldl (fun acc d => acc + (d.2 : ℚ) + 0.5) 0
    let count : ℚ := (Max.max 1 roomCells.length : ℕ)
    { id := roomId, x := minX, y := minY,
      width := maxX - minX + 1, height := maxY - minY + 1,
      cells := roomCells, labelX := sumX / count, labelY := sumY / count }

/-- `mergeCollinearWallsWithRoomId`: merge per room id, never across rooms. -/
def mergeCollinearWallsWithRoomId (rawWalls : List Wall) : List Wall :=
  let byRoom : List (Option ℕ × List Wall) :=
    rawWalls.foldl (fun acc wall => mapPush acc wall.roomId { edge := wall.edge }) []
  byRoom.foldl
    (fun merged entry =>
      merged ++ (mergeCollinearWalls entry.2).map
        (fun wall => { edge := wall.edge, roomId := entry.1 }))
    []

/-- A live room record during placement and growth. -/
structure RoomRec where
  id : ℕ
  cells : List Cell
  centroidX : ℚ
  centroidY : ℚ
  cellCount : ℕ
  perimeter : ℤ
deriving DecidableEq, Repr, Inhabited

/-- `buildRoomPerimeterWallsFromCells`: boundary edges of each room that do
not face the room itself or a hallway cell, merged per room. -/
def buildRoomPerimeterWallsFromCells (roomRecords : List RoomRec)
    (hallwayCells : List Cell) : List Wall :=
  let rawWalls :=
    roomRecords.foldl
      (fun raw room =>
        room.cells.foldl
          (fun raw c =>
            let x := c.1
            let y := c.2
            let raw := if (x, y - 1) ∉ room.cells ∧ (x, y - 1) ∉ hallwayCells then
              raw ++ [Wall.mk (normalizeEdge x y (x+1) y) none (some room.id)] else raw
            let raw := if (x, y + 1) ∉ room.cells ∧ (x, y + 1) ∉ hallwayCells then
              raw ++ [Wall.mk (normalizeEdge x (y+1) (x+1) (y+1)) none (some room.id)] else raw
            let raw := if (x - 1, y) ∉ room.cells ∧ (x - 1, y) ∉ hallwayCells then
              raw ++ [Wall.mk (normalizeEdge x y x (y+1)) none (some room.id)] else raw
            let raw := if (x + 1, y) ∉ room.cells ∧ (x + 1, y) ∉ hallwayCells then
              raw ++ [Wall.mk (normalizeEdge (x+1) y (x+1) (y+1)) none (some room.id)] else raw
            raw)
          raw)
      []
  mergeCollinearWallsWithRoomId rawWalls

/-- `countOrthogonalRoomNeighbors`. -/
def countOrthogonalRoomNeighbors (roomCells : List Cell) (x y : ℤ) : ℕ :=
  (if (x, y - 1) ∈ roomCells then 1 else 0) +
  (if (x + 1, y) ∈ roomCells then 1 else 0) +
  (if (x, y + 1) ∈ roomCells then 1 else 0) +
  (if (x - 1, y) ∈ roomCells then 1 else 0)

/-- `countDiagonalRoomNeighbors`. -/
def countDiagonalRoomNeighbors (roomCells : List Cell) (x y : ℤ) : ℕ :=
  (if (x - 1, y - 1) ∈ roomCells then 1 else 0) +
  (if (x + 1, y - 1) ∈ roomCells then 1 else 0) +
  (if (x + 1, y + 1) ∈ roomCells then 1 else 0) +
  (if (x - 1, y + 1) ∈ roomCells then 1 else 0)

/-- `computeRoomPerimeterFromCells`: each cell contributes one unit per side
not shared with another cell of the room. -/
def computeRoomPerimeterFromCells (roomCells : List Cell) : ℤ :=
  roomCells.foldl
    (fun acc c => acc + (4 - (countOrthogonalRoomNeighbors roomCells c.1 c.2 : ℤ)))
    0

/-- `hasStrongGrowthSupport`: a single-edge attachment needs a diagonal
support and an adjacent anchor with two orthogonal neighbors of its own. -/
def hasStrongGrowthSupport (room : RoomRec) (x y : ℤ) : Bool :=
  let orthCount := countOrthogonalRoomNeighbors room.cells x y
  if orthCount ≥ 2 then true
  else if orthCount = 0 then false
  else if countDiagonalRoomNeighbors room.cells x y < 1 then false
  else
    [(x, y - 1), (x + 1, y), (x, y + 1), (x - 1, y)].any
      (fun anchor =>
        anchor ∈ room.cells ∧
        countOrthogonalRoomNeighbors room.cells anchor.1 anchor.2 ≥ 2)

/-- `maxPerimeterAreaRatioForRoom`: the size-tiered perimeter/area ceiling. -/
def maxPerimeterAreaRatioForRoom (area : ℕ) : ℚ :=
  if area < 20 then 3.2
  else if area < 40 then 2.8
  else if area < 80 then 2.55
  else 2.35

/-- `normalizeShapeStyle`: map the user's 0..100 style to [0,1] (the inputs
our configurations produce are always finite numbers). -/
def normalizeShapeStyle (styleValue : ℚ) : ℚ := clampNumber (styleValue / 100) 0 1

/-- `isCellClaimableByRoom`: inside bounds, not hallway, unowned, and no
4-neighbor owned by a different room. -/
def isCellClaimableByRoom (x y : ℤ) (roomId : ℕ)
    (roomIdByCell : List (Cell × ℕ)) (hallwayCells : List Cell)
    (bounds : Bounds) : Bool :=
  if x < 0 ∨ x ≥ (bounds.cols : ℤ) ∨ y < 0 ∨ y ≥ (bounds.rows : ℤ) then false
  else if (x, y) ∈ hallwayCells then false
  else if (roomIdByCell.lookup (x, y)).isSome then false
  else
    [(x, y - 1), (x + 1, y), (x, y + 1), (x - 1, y)].all
      (fun neighbor =>
        match roomIdByCell.lookup neighbor with
        | none => true
        | some neighborOwner => neighborOwner = roomId)

/-- One Fisher–Yates step at descending indices (the in-place shuffles of the
source). -/
def fyAux [Inhabited α] : ℕ → List α → ℕ → List α × ℕ
  | 0, arr, s => (arr, s)
  | n + 1, arr, s =>
    let jr := randomInt s 0 ((n + 1 : ℕ) : ℤ)
    let jn := jr.1.toNat
    let a := arr.getD (n + 1) default
    let b := arr.getD jn default
    fyAux n ((arr.set (n + 1) b).set jn a) jr.2

/-- The source's Fisher–Yates shuffle (`for (index = len-1; index > 0; ...)`). -/
def fisherYates [Inhabited α] (l : List α) (s : ℕ) : List α × ℕ :=
  fyAux (l.length - 1) l s

/-- The growth-candidate picker: the source's `pickGrowthCandidate` scores a
random sample of candidates with `Math.hypot` distances (floating point); the
embedding keeps it as a parameter `(room, candidates, shapeStyle, rng) ↦
(choice, rng)` and proves every property for all pickers. -/
abbrev Picker := RoomRec → List Cell → ℚ → ℕ → Option Cell × ℕ

/-- Fixed context of one `growRoomCells` run. -/
structure GrowCtx where
  picker : Picker
  hallwayCells : List Cell
  bounds : Bounds
  shapeStyle : ℚ
  targetRoomCellCount : ℕ

/-- The state the inner claim loop reads and writes: the ownership map, the
RNG, the global claim counter, the per-pass progress flag (the loop never
touches the record list itself; it mutates only its own room). -/
structure ClaimState where
  roomIdByCell : List (Cell × ℕ)
  rng : ℕ
  claimedRoomCells : ℕ
  passProgress : Bool
deriving Repr, Inhabited

/-- Mutable state of one `growRoomCells` run: the records plus the claim
state. -/
structure GrowState where
  roomRecords : List RoomRec
  claim : ClaimState
deriving Repr, Inhabited

/-- `minOrthogonalSupport` of the growth claim check. -/
def minOrthogonalSupportFor (shapeStyle : ℚ) : ℕ :=
  if shapeStyle < 0.35 then 2 else 1

/-- `singleEdgePenalty` of the growth claim check. -/
def singleEdgePenaltyFor (orthNeighbors : ℕ) : ℚ :=
  if orthNeighbors = 1 then 0.3 else 0

/-- The inner claim loop of one room's turn: pick, splice, re-check
claimability, support and perimeter/area ratio, then claim. -/
def growClaimLoop (ctx : GrowCtx) :
    ℕ → RoomRec → List Cell → ClaimState → RoomRec × ClaimState
  | 0, room, _, st => (room, st)
  | fuel + 1, room, candidates, st =>
    if candidates.length = 0 ∨ st.claimedRoomCells ≥ ctx.targetRoomCellCount then
      (room, st)
    else
      let pr := ctx.picker room candidates ctx.shapeStyle st.rng
      let st := { st with rng := pr.2 }
      match pr.1 with
      | none => (room, st)
      | some picked =>
        match candidates.findIdx? (fun c => c.1 = picked.1 ∧ c.2 = picked.2) with
        | none => growClaimLoop ctx fuel room candidates st
        | some pickIndex =>
          let candidates := candidates.eraseIdx pickIndex
          if ¬ isCellClaimableByRoom picked.1 picked.2 room.id st.roomIdByCell
              ctx.hallwayCells ctx.bounds then
            growClaimLoop ctx fuel room candidates st
          else
            let orthNeighbors := countOrthogonalRoomNeighbors room.cells picked.1 picked.2
            let diagonalNeighbors := countDiagonalRoomNeighbors room.cells picked.1 picked.2
            if orthNeighbors < minOrthogonalSupportFor ctx.shapeStyle ∨
                (orthNeighbors = 1 ∧ diagonalNeighbors = 0) ∨
                (orthNeighbors = 1 ∧ ¬ hasStrongGrowthSupport room picked.1 picked.2) then
              growClaimLoop ctx fuel room candidates st
            else
              let projectedArea := room.cells.length + 1
              let projectedPerimeter := room.perimeter + (4 - (orthNeighbors : ℤ) * 2)
              let projectedRatio := (projectedPerimeter : ℚ) / (projectedArea : ℚ)
              let ratioAllowance := ctx.shapeStyle * 0.3
              let maxRatio := maxPerimeterAreaRatioForRoom projectedArea + ratioAllowance
              if projectedRatio > maxRatio - singleEdgePenaltyFor orthNeighbors then
                growClaimLoop ctx fuel room candidates st
              else
                let nextCellCount := room.cellCount + 1
                let room :=
                  { room with
                    cells := insertUniq room.cells picked
                    centroidX := (room.centroidX * room.cellCount + (picked.1 : ℚ) + 0.5) /
                      (nextCellCount : ℚ)
                    centroidY := (room.centroidY * room.cellCount + (picked.2 : ℚ) + 0.5) /
                      (nextCellCount : ℚ)
                    cellCount := nextCellCount
                    perimeter := projectedPerimeter }
                growClaimLoop ctx fuel room candidates
                  { st with
                    roomIdByCell := mapSet st.roomIdByCell picked room.id
                    claimedRoomCells := st.claimedRoomCells + 1
                    passProgress := true }

/-- The claimable-frontier collection at the start of one room's turn. -/
def growCandidates (ctx : GrowCtx) (room : RoomRec)
    (roomIdByCell : List (Cell × ℕ)) : List Cell :=
  (room.cells.foldl
    (fun (acc : List Cell × List Cell) c =>
      ([(c.1, c.2 - 1), (c.1 + 1, c.2), (c.1, c.2 + 1), (c.1 - 1, c.2)] : List Cell).foldl
        (fun (acc : List Cell × List Cell) neighbor =>
          let (candidates, candidateKeys) := acc
          if neighbor ∈ candidateKeys then acc
          else if ¬ isCellClaimableByRoom neighbor.1 neighbor.2 room.id roomIdByCell
              ctx.hallwayCells ctx.bounds then acc
          else (candidates ++ [neighbor], candidateKeys ++ [neighbor]))
        acc)
    ([], [])).1

/-- One room's turn in a growth pass; the boolean signals `return` (the global
target was reached and `growRoomCells` exits). -/
def growRoomTurn (ctx : GrowCtx) (roomSizeScale : ℚ) (st : GrowState)
    (idx : ℕ) : GrowState × Bool :=
  if st.claim.claimedRoomCells ≥ ctx.targetRoomCellCount then (st, true)
  else
    let room := st.roomRecords.getD idx default
    let candidates := growCandidates ctx room st.claim.roomIdByCell
    if candidates.length = 0 then (st, false)
    else
      let maxClaimsThisPass : ℕ :=
        Min.min candidates.length
          (Max.max 1 (jsRound (roomSizeScale * (1 + ctx.shapeStyle * 0.9)))).toNat
      let res := growClaimLoop ctx maxClaimsThisPass room candidates st.claim
      ({ roomRecords := st.roomRecords.set idx res.1, claim := res.2 }, false)

/-- One full pass over a freshly shuffled room order. -/
def growPass (ctx : GrowCtx) (roomSizeScale : ℚ) (st : GrowState) :
    GrowState × Bool :=
  let fy := fisherYates (List.range st.roomRecords.length) st.claim.rng
  fy.1.foldl
    (fun (acc : GrowState × Bool) idx =>
      if acc.2 then acc else growRoomTurn ctx roomSizeScale acc.1 idx)
    ({ st with claim := { st.claim with rng := fy.2, passProgress := false } }, false)

/-- The pass loop of `growRoomCells`: bounded passes, stopping on a fruitless
pass or on the global target (the `return`). -/
def growPassLoop (ctx : GrowCtx) (roomSizeScale : ℚ) :
    ℕ → GrowState → GrowState
  | 0, st => st
  | n + 1, st =>
    let pr := growPass ctx roomSizeScale st
    if pr.2 then pr.1
    else if ¬ pr.1.claim.passProgress then pr.1
    else growPassLoop ctx roomSizeScale n pr.1

/-- `growRoomCells`: expand rooms cell by cell toward a global fill target. -/
def growRoomCells (picker : Picker) (roomRecords : List RoomRec)
    (roomIdByCell : List (Cell × ℕ)) (hallwayCells : List Cell)
    (bounds : Bounds) (s : ℕ) (roomSizeScale roomShapeStyle : ℚ) :
    List RoomRec × List (Cell × ℕ) × ℕ :=
  let shapeStyle := normalizeShapeStyle roomShapeStyle
  let planArea : ℤ := (bounds.cols : ℤ) * (bounds.rows : ℤ)
  let nonHallwayArea : ℤ := Max.max 1 (planArea - hallwayCells.length)
  let targetFillRatio :=
    clampNumber (0.58 + (Max.max 0 (roomSizeScale - 1)) * 0.1 + (shapeStyle - 0.5) * 0.16)
      0.5 0.86
  let targetRoomCellCount := (jsFloor ((nonHallwayArea : ℚ) * targetFillRatio)).toNat
  if roomIdByCell.length ≥ targetRoomCellCount then (roomRecords, roomIdByCell, s)
  else
    let maxPasses : ℤ :=
      Min.min 96
        (Max.max 40
          (jsCeil ((targetRoomCellCount : ℚ) /
            (Max.max 1 ((roomRecords.length : ℚ) * 2.2)))))
    let ctx : GrowCtx :=
      { picker := picker, hallwayCells := hallwayCells, bounds := bounds,
        shapeStyle := shapeStyle, targetRoomCellCount := targetRoomCellCount }
    let final :=
      growPassLoop ctx roomSizeScale maxPasses.toNat
        { roomRecords := roomRecords,
          claim := { roomIdByCell := roomIdByCell, rng := s,
                     claimedRoomCells := roomIdByCell.length, passProgress := false } }
    (final.roomRecords, final.claim.roomIdByCell, final.claim.rng)

/-- State threaded through `generateRoomsFromDoors`' placement phase. -/
structure PlaceState where
  occupiedCells : List Cell
  roomIdByCell : List (Cell × ℕ)
  roomRecords : List RoomRec
  connectedDoors : List Opening
  connectedDoorKeys : List Edge
  rng : ℕ
deriving Repr, Inhabited

/-- The size-mode attempt loop inside `tryPlaceRoomForDoor`: first fitting,
non-colliding rectangle wins. -/
def tryRoomModes (hallwayWall : Wall) (hallwaySide : HallSide) (bounds : Bounds)
    (roomSizeScale : ℚ) (occupiedCells : List Cell) :
    List Opening → ℕ → Option RoomRect × ℕ
  | [], s => (none, s)
  | attemptOpening :: rest, s =>
    let br :=
      buildRoomFromDoor attemptOpening hallwayWall hallwaySide bounds s roomSizeScale
    match br.1 with
    | none => tryRoomModes hallwayWall hallwaySide bounds roomSizeScale occupiedCells rest br.2
    | some c =>
      if roomCellsOverlap occupiedCells c then
        tryRoomModes hallwayWall hallwaySide bounds roomSizeScale occupiedCells rest br.2
      else (some c, br.2)

/-- `tryPlaceRoomForDoor`: place one room against one door candidate wall and
record the connection.  The `doorOpeningsLength` argument is the length of the
surrounding call's `doorOpenings` (it selects the size-mode ladder). -/
def tryPlaceRoomForDoor (wallByKey : List (Edge × Wall)) (hallwayGrid : HallGrid)
    (bounds : Bounds) (roomSizeScale : ℚ) (doorOpeningsLength : ℕ)
    (st : PlaceState) (opening : Opening) : Bool × PlaceState :=
  match wallByKey.lookup opening.wallKey with
  | none => (false, st)
  | some hallwayWall =>
    match classifyHallwayWallSide hallwayWall.edge hallwayGrid with
    | none => (false, st)
    | some hallwaySide =>
      let preferLargeRooms := roomSizeScale ≥ 1.2 ∨ doorOpeningsLength ≤ 10
      let attempts :=
        if preferLargeRooms then
          [{ opening with roomSizeMode := some .large },
           { opening with roomSizeMode := some .normal },
           { opening with roomSizeMode := some .compact }]
        else
          [{ opening with roomSizeMode := some .normal },
           { opening with roomSizeMode := some .compact }]
      let tm :=
        tryRoomModes hallwayWall hallwaySide bounds roomSizeScale st.occupiedCells
          attempts st.rng
      match tm.1 with
      | none => (false, { st with rng := tm.2 })
      | some roomRect =>
        let roomId := st.roomRecords.length + 1
        let roomCells := createRoomCellKeySet roomRect
        (true,
         { occupiedCells := roomCells.foldl insertUniq st.occupiedCells
           roomIdByCell := roomCells.foldl (fun m k => mapSet m k roomId) st.roomIdByCell
           roomRecords := st.roomRecords ++
             [{ id := roomId, cells := roomCells,
                centroidX := (roomRect.x : ℚ) + (roomRect.width : ℚ) / 2,
                centroidY := (roomRect.y : ℚ) + (roomRect.height : ℚ) / 2,
                cellCount := roomCells.length,
                perimeter := computeRoomPerimeterFromCells roomCells }]
           connectedDoors := st.connectedDoors ++ [opening]
           connectedDoorKeys := insertUniq st.connectedDoorKeys opening.wallKey
           rng := tm.2 })

/-- The inner backfill loop: try the hallway's shuffled openings until one
places a room. -/
def backfillHallLoop (wallByKey : List (Edge × Wall)) (hallwayGrid : HallGrid)
    (bounds : Bounds) (roomSizeScale : ℚ) (doorOpeningsLength : ℕ) :
    List Opening → PlaceState → Bool × PlaceState
  | [], st => (false, st)
  | opening :: rest, st =>
    if opening.wallKey ∈ st.connectedDoorKeys then
      backfillHallLoop wallByKey hallwayGrid bounds roomSizeScale doorOpeningsLength rest st
    else
      let r :=
        tryPlaceRoomForDoor wallByKey hallwayGrid bounds roomSizeScale
          doorOpeningsLength st opening
      if r.1 then (true, r.2)
      else backfillHallLoop wallByKey hallwayGrid bounds roomSizeScale doorOpeningsLength rest r.2

/-- Result record of `generateRoomsFromDoors`. -/
structure RFDResult where
  rooms : List RoomOut
  roomWalls : List Wall
  connectedDoors : List Opening
deriving Repr, Inhabited

/-- The initial placement fold of `generateRoomsFromDoors`. -/
def placeInitialRooms (wallByKey : List (Edge × Wall)) (hallwayGrid : HallGrid)
    (bounds : Bounds) (roomSizeScale : ℚ) (doorOpenings : List Opening)
    (st0 : PlaceState) : PlaceState :=
  doorOpenings.foldl
    (fun st opening =>
      (tryPlaceRoomForDoor wallByKey hallwayGrid bounds roomSizeScale
        doorOpenings.length st opening).2)
    st0

/-- One hallway entry of the backfill fold. -/
def backfillStep (wallByKey : List (Edge × Wall)) (hallwayGrid : HallGrid)
    (bounds : Bounds) (roomSizeScale : ℚ) (doorOpeningsLength : ℕ)
    (acc : List ℕ × PlaceState) (entry : ℕ × List Opening) :
    List ℕ × PlaceState :=
  if entry.1 ∈ acc.1 then acc
  else
    let fy := fisherYates entry.2 acc.2.rng
    let res :=
      backfillHallLoop wallByKey hallwayGrid bounds roomSizeScale
        doorOpeningsLength fy.1 { acc.2 with rng := fy.2 }
    if res.1 then (insertUniq acc.1 entry.1, res.2) else (acc.1, res.2)

/-- `generateRoomsFromDoors`: place a room per door candidate, backfill
hallways left without one, grow, and emit room data and perimeter walls. -/
def generateRoomsFromDoors (picker : Picker) (doorOpenings : List Opening)
    (hallwayWalls : List Wall) (hallwayGrid : HallGrid) (hallwayCells : List Cell)
    (bounds : Bounds) (s : ℕ) (roomSizeScale roomShapeStyle : ℚ) :
    RFDResult × ℕ :=
  let wallByKey := hallwayWalls.foldl (fun m w => mapSet m w.edge w) []
  let st0 : PlaceState :=
    { occupiedCells := hallwayCells.foldl insertUniq []
      roomIdByCell := [], roomRecords := [], connectedDoors := [],
      connectedDoorKeys := [], rng := s }
  let st1 := placeInitialRooms wallByKey hallwayGrid bounds roomSizeScale doorOpenings st0
  let connectedHallways :=
    st1.connectedDoors.foldl
      (fun acc d => match d.hallwayId with | some hid => insertUniq acc hid | none => acc)
      []
  let openingsByHall :=
    doorOpenings.foldl
      (fun acc o => match o.hallwayId with | none => acc | some hid => mapPush acc hid o)
      []
  let st2 :=
    (openingsByHall.foldl
      (backfillStep wallByKey hallwayGrid bounds roomSizeScale doorOpenings.length)
      (connectedHallways, st1)).2
  let grown :=
    growRoomCells picker st2.roomRecords st2.roomIdByCell hallwayCells bounds
      st2.rng roomSizeScale roomShapeStyle
  let records := grown.1
  let rooms := records.map (fun r => buildRoomDataFromCells r.id r.cells)
  let roomWalls := buildRoomPerimeterWallsFromCells records hallwayCells
  ({ rooms := rooms, roomWalls := roomWalls, connectedDoors := st2.connectedDoors },
    grown.2.2)

/-- The generator's option record after `generateFloorPlan`'s normalization
(`wallStroke` and `corridorWidthCells`, which the generation path never reads,
are left out; `deriveCorridorWidthCells` returns the constant 3). -/
structure Options where
  width : ℚ
  height : ℚ
  hallwayCount : ℕ
  doorCount : ℕ
  roomShapeStyle : ℚ
  doorWidth : ℚ
  windowWidth : ℚ
  maxWindowCount : ℕ
  seed : ℤ
deriving DecidableEq, Repr, Inhabited

/-- `deriveLayoutScale`. -/
def deriveLayoutScale (options : Options) (bounds : Bounds) : ℚ :=
  let area : ℚ := Max.max 1 ((bounds.cols : ℚ) * (bounds.rows : ℚ))
  let hallways : ℚ := Max.max 1 (options.hallwayCount : ℚ)
  let rooms : ℚ := Max.max 1 (options.doorCount : ℚ)
  let sparsity := area / (hallways * rooms)
  clampNumber (sparsity / 60) 1.15 4.2

/-- Thread the RNG through a list (sequential `map` with a stateful body). -/
def mapRng (f : α → ℕ → β × ℕ) : List α → ℕ → List β × ℕ
  | [], s => ([], s)
  | a :: rest, s =>
    let fb := f a s
    let rb := mapRng f rest fb.2
    (fb.1 :: rb.1, rb.2)

/-- The first-round seeding of `chooseDoorOpenings`: one random candidate per
hallway group, stopping at the cap, skipping already-picked walls. -/
def doorSeedLoop (candidatesByHall : List (ℕ × List Wall)) (maxDoors : ℕ) :
    List HallGroup → List Wall × List Edge × ℕ → List Wall × List Edge × ℕ
  | [], acc => acc
  | hallway :: rest, (picked, pickedSet, s) =>
    if picked.length ≥ maxDoors then (picked, pickedSet, s)
    else
      let candidates := (candidatesByHall.lookup hallway.id).getD []
      if candidates.length = 0 then
        doorSeedLoop candidatesByHall maxDoors rest (picked, pickedSet, s)
      else
        let rc := randomChoice s candidates
        if rc.1.edge ∈ pickedSet then
          doorSeedLoop candidatesByHall maxDoors rest (picked, pickedSet, rc.2)
        else
          doorSeedLoop candidatesByHall maxDoors rest
            (picked ++ [rc.1], pickedSet ++ [rc.1.edge], rc.2)

/-- The `while (picked.length < maxDoors)` rejection-sampling loop of
`chooseDoorOpenings`, given explicit fuel. -/
def doorFillLoop (doorCandidates : List Wall) (maxDoors : ℕ) :
    ℕ → List Wall × List Edge × ℕ → List Wall × List Edge × ℕ
  | 0, acc => acc
  | fuel + 1, (picked, pickedSet, s) =>
    if picked.length ≥ maxDoors then (picked, pickedSet, s)
    else
      let rc := randomChoice s doorCandidates
      if rc.1.edge ∈ pickedSet then
        doorFillLoop doorCandidates maxDoors fuel (picked, pickedSet, rc.2)
      else
        doorFillLoop doorCandidates maxDoors fuel
          (picked ++ [rc.1], pickedSet ++ [rc.1.edge], rc.2)

/-- The random offset window shared by the door and exit selectors. -/
def doorOffsetWindow (length doorWidth : ℚ) (s : ℕ) : ℚ × ℚ × ℕ :=
  let remaining := Max.max 0.2 (length - doorWidth)
  let minOffset : ℚ := 0.1
  let maxOffset := Max.max minOffset (remaining - 0.1)
  let fb := rngFloat s
  let offset := minOffset + fb.1 * (maxOffset - minOffset)
  (offset, offset + doorWidth, fb.2)

/-- The door candidate pool: hallway walls long enough for a door plus
margin. -/
def doorCandidatesFor (walls : List Wall) (options : Options) : List Wall :=
  walls.filter (fun w => edgeLength w.edge ≥ options.doorWidth + 0.8)

/-- The pick cap of `chooseDoorOpenings`:
`min(max(doorCount*2, hallwayGroups.length), doorCandidates.length)`. -/
def maxDoorsFor (walls : List Wall) (hallwayGroups : List HallGroup)
    (options : Options) : ℕ :=
  Min.min (Max.max (options.doorCount * 2) hallwayGroups.length)
    (doorCandidatesFor walls options).length

/-- The wall picks of `chooseDoorOpenings`: the per-hallway seeding round
followed by the fueled rejection-sampling fill. -/
def doorPicksFor (fuel : ℕ) (walls : List Wall) (hallwayGroups : List HallGroup)
    (options : Options) (s : ℕ) : List Wall × List Edge × ℕ :=
  let doorCandidates := doorCandidatesFor walls options
  let maxDoors := maxDoorsFor walls hallwayGroups options
  let candidatesByHall :=
    doorCandidates.foldl
      (fun acc c => match c.hallwayId with
        | none => acc
        | some hid => mapPush acc hid c)
      []
  let hallwaysToSeed :=
    if hallwayGroups.length > maxDoors then hallwayGroups.take maxDoors else hallwayGroups
  doorFillLoop doorCandidates maxDoors fuel
    (doorSeedLoop candidatesByHall maxDoors hallwaysToSeed ([], [], s))

/-- `chooseDoorOpenings`: pick distinct hallway walls (one per hallway group
first, then uniform rejection sampling) and put one random door window on
each. -/
def chooseDoorOpenings (fuel : ℕ) (walls : List Wall) (hallwayGroups : List HallGroup)
    (options : Options) (s : ℕ) : List Opening × ℕ :=
  if (doorCandidatesFor walls options).length = 0 ∨ options.doorCount = 0 then ([], s)
  else
    let picks := doorPicksFor fuel walls hallwayGroups options s
    mapRng
      (fun (wall : Wall) s =>
        let ow := doorOffsetWindow (edgeLength wall.edge) options.doorWidth s
        (({ wallKey := wall.edge, hallwayId := wall.hallwayId, type := .door,
            startO := ow.1, endO := ow.2.1 } : Opening), ow.2.2))
      picks.1 picks.2.2

/-- A wall candidate record of the exit and window selectors
(`{wallKey, edge, length, roomId}`). -/
structure WallCand where
  wallKey : Edge
  edge : Edge
  length : ℚ
  roomId : Option ℕ := none
deriving DecidableEq, Repr, Inhabited

/-- The fueled `while (second === first)` fallback draw of
`chooseExteriorExitOpenings` (dead in practice: it needs every room center
lookup to have failed). -/
def exitFallbackSecond (roomIds : List ℕ) (first : ℕ) :
    ℕ → ℕ → ℕ → ℕ × ℕ
  | 0, second, s => (second, s)
  | fuel + 1, second, s =>
    if second = first then
      let (j, s') := randomInt s 0 ((roomIds.length : ℤ) - 1)
      exitFallbackSecond roomIds first fuel (roomIds.getD j.toNat 0) s'
    else (second, s)

/-- `chooseExteriorExitOpenings`: among per-room exterior walls pick the two
rooms with farthest centers and one random door window on a random eligible
wall of each. -/
def chooseExteriorExitOpenings (fuel : ℕ) (roomWalls : List Wall)
    (rooms : List RoomOut) (options : Options) (s : ℕ) : List Opening × ℕ :=
  let candidates : List WallCand :=
    (roomWalls.map (fun w =>
      ({ wallKey := w.edge, edge := w.edge, length := edgeLength w.edge,
         roomId := w.roomId } : WallCand))).filter
      (fun w => w.length ≥ options.doorWidth + 0.5 ∧ w.roomId ≠ none)
  if candidates.length = 0 then ([], s)
  else
    let candidatesByRoom :=
      candidates.foldl
        (fun acc c => match c.roomId with
          | none => acc
          | some rid => mapPush acc rid c)
        []
    let roomIds := candidatesByRoom.map (fun e => e.1)
    if roomIds.length < 2 then ([], s)
    else
      let roomCenterById : List (ℕ × (ℚ × ℚ)) :=
        rooms.map (fun room => (room.id, (room.labelX, room.labelY)))
      let startSel := [roomIds.getD 0 0, roomIds.getD 1 0]
      let scan :=
        (List.range roomIds.length).foldl
          (fun (acc : List ℕ × ℚ) i =>
            (List.range roomIds.length).foldl
              (fun (acc : List ℕ × ℚ) j =>
                if i < j then
                  let firstId := roomIds.getD i 0
                  let secondId := roomIds.getD j 0
                  match roomCenterById.lookup firstId, roomCenterById.lookup secondId with
                  | some firstCenter, some secondCenter =>
                    let dx := firstCenter.1 - secondCenter.1
                    let dy := firstCenter.2 - secondCenter.2
                    let distSq := dx * dx + dy * dy
                    if distSq > acc.2 then ([firstId, secondId], distSq) else acc
                  | _, _ => acc
                else acc)
              acc)
          (startSel, -1)
      let sel :=
        if scan.2 < 0 ∧ roomIds.length > 2 then
          let ir := randomInt s 0 ((roomIds.length : ℤ) - 1)
          let first := roomIds.getD ir.1.toNat 0
          let sec := exitFallbackSecond roomIds first fuel first ir.2
          ([first, sec.1], sec.2)
        else (scan.1, s)
      sel.1.foldl
        (fun (acc : List Opening × ℕ) roomId =>
          let roomCandidates := (candidatesByRoom.lookup roomId).getD []
          if roomCandidates.length = 0 then acc
          else
            let rc := randomChoice acc.2 roomCandidates
            let ow := doorOffsetWindow rc.1.length options.doorWidth rc.2
            (acc.1 ++ [{ wallKey := rc.1.wallKey, type := .door, startO := ow.1,
                         endO := ow.2.1, roomId := some roomId }], ow.2.2))
        ([], sel.2)

/-- `chooseWindowOpenings`: shuffle the door-free walls long enough for a
window and put one random window offset on each of the first `maxWindows`. -/
def chooseWindowOpenings (roomWalls hallwayWalls : List Wall)
    (doorOpenings : List Opening) (options : Options) (s : ℕ) :
    List Opening × ℕ :=
  let maxWindows := options.maxWindowCount
  if maxWindows = 0 then ([], s)
  else
    let doorWallKeys := doorOpenings.map (fun o => o.wallKey)
    let candidates : List WallCand :=
      ((roomWalls ++ hallwayWalls).map (fun w =>
        ({ wallKey := w.edge, edge := w.edge, length := edgeLength w.edge } : WallCand))).filter
        (fun w => w.length ≥ options.windowWidth + 0.8 ∧ w.wallKey ∉ doorWallKeys)
    if candidates.length = 0 then ([], s)
    else
      let fy := fisherYates candidates s
      let count := Min.min maxWindows fy.1.length
      mapRng
        (fun (wall : WallCand) s =>
          let remaining := Max.max 0.2 (wall.length - options.windowWidth)
          let minOffset : ℚ := 0.15
          let maxOffset := Max.max minOffset (remaining - 0.15)
          let fb := rngFloat s
          let offset := minOffset + fb.1 * (maxOffset - minOffset)
          (({ wallKey := wall.wallKey, type := .window, startO := offset,
              endO := offset + options.windowWidth } : Opening), fb.2))
        (fy.1.take count) fy.2

/-- A compiled line segment of the plan (`type` tells wall from door/window
glyph). -/
inductive SegKind | wall | door | window
deriving DecidableEq, Repr, Inhabited

/-- A final line segment with rational world coordinates. -/
structure Seg where
  x1 : ℚ
  y1 : ℚ
  x2 : ℚ
  y2 : ℚ
  kind : SegKind
deriving DecidableEq, Repr, Inhabited

/-- The opening type as a glyph kind. -/
def OpeningType.toSegKind : OpeningType → SegKind
  | .door => .door
  | .window => .window

/-- The sort-clamp-filter pass opening `createWallSegmentsFromOpenings`. -/
def sortedOpeningsFor (length : ℚ) (openings : List Opening) : List Opening :=
  ((stableSortBy (fun l r => l.startO ≤ r.startO) openings).map
    (fun o =>
      { o with
        startO := Max.max 0 (Min.min length o.startO)
        endO := Max.max 0 (Min.min length o.endO) })).filter
    (fun o => o.endO > o.startO)

/-- The cursor walk of `createWallSegmentsFromOpenings`: the gaps between the
sorted openings, plus the tail piece up to the wall's end. -/
def gapSegments (length : ℚ) (sorted : List Opening) : List (ℚ × ℚ) :=
  let cut :=
    sorted.foldl
      (fun (acc : List (ℚ × ℚ) × ℚ) o =>
        ((if o.startO > acc.2 then acc.1 ++ [(acc.2, o.startO)] else acc.1),
          Max.max acc.2 o.endO))
      ([], 0)
  if cut.2 < length then cut.1 ++ [(cut.2, length)] else cut.1

/-- `createWallSegmentsFromOpenings`: sort and clamp the wall's openings,
cut the complementary solid intervals, drop slivers of at most 0.08 units,
and interpolate endpoints along the wall. -/
def createWallSegmentsFromOpenings (wall : Wall) (openings : List Opening) :
    List Seg :=
  let length := edgeLength wall.edge
  let dx : ℚ := (wall.edge.x2 : ℚ) - (wall.edge.x1 : ℚ)
  let dy : ℚ := (wall.edge.y2 : ℚ) - (wall.edge.y1 : ℚ)
  let invLength := if length = 0 then 0 else 1 / length
  (((gapSegments length (sortedOpeningsFor length openings)).filter
    (fun seg => seg.2 - seg.1 > 0.08)).map
    (fun seg =>
      { x1 := (wall.edge.x1 : ℚ) + dx * seg.1 * invLength
        y1 := (wall.edge.y1 : ℚ) + dy * seg.1 * invLength
        x2 := (wall.edge.x1 : ℚ) + dx * seg.2 * invLength
        y2 := (wall.edge.y1 : ℚ) + dy * seg.2 * invLength
        kind := .wall }))

/-- `createOpeningGlyph`: the opening's own sub-segment, interpolated along
the wall's direction. -/
def createOpeningGlyph (edge : Edge) (opening : Opening) : Option Seg :=
  let length := edgeLength edge
  if length = 0 then none
  else
    let dx : ℚ := (edge.x2 : ℚ) - (edge.x1 : ℚ)
    let dy : ℚ := (edge.y2 : ℚ) - (edge.y1 : ℚ)
    let invLength := 1 / length
    some
      { x1 := (edge.x1 : ℚ) + dx * opening.startO * invLength
        y1 := (edge.y1 : ℚ) + dy * opening.startO * invLength
        x2 := (edge.x1 : ℚ) + dx * opening.endO * invLength
        y2 := (edge.y1 : ℚ) + dy * opening.endO * invLength
        kind := opening.type.toSegKind }

/-- A hallway's output record. -/
structure HallOut where
  id : ℕ
  shape : HallShape
  labelX : ℚ
  labelY : ℚ
  cells : List Cell
deriving DecidableEq, Repr, Inhabited

/-- `buildHallwayMetadata`. -/
def buildHallwayMetadata (hallwayGroups : List HallGroup) : List HallOut :=
  (hallwayGroups.filter (fun g => g.cells.length > 0)).map
    (fun group =>
      let sumX := group.cells.foldl (fun acc c => acc + (c.1 : ℚ) + 0.5) 0
      let sumY := group.cells.foldl (fun acc c => acc + (c.2 : ℚ) + 0.5) 0
      { id := group.id, shape := group.shape,
        labelX := sumX / (group.cells.length : ℚ),
        labelY := sumY / (group.cells.length : ℚ),
        cells := group.cells })

/-- One scale candidate of `generateRoomsWithAdaptiveScale`. -/
structure Candidate where
  rooms : List RoomOut
  roomWalls : List Wall
  connectedDoors : List Opening
  exteriorRoomExits : List Opening
deriving DecidableEq, Repr, Inhabited

/-- The argument record of `generateRoomsWithAdaptiveScale`. -/
structure AdaptiveArgs where
  initialDoorOpenings : List Opening
  hallwayWalls : List Wall
  hallwayGrid : HallGrid
  hallwayCells : List Cell
  bounds : Bounds
  options : Options
  baseRoomSizeScale : ℚ
  roomShapeStyle : ℚ
  attemptSeed : ℤ

/-- The descending scale ladder tried by the adaptive generator. -/
def scaleCandidates (baseRoomSizeScale : ℚ) : List ℚ :=
  [baseRoomSizeScale, baseRoomSizeScale * 0.9, baseRoomSizeScale * 0.8,
   Max.max 1 (baseRoomSizeScale * 0.7)]

/-- The body of iteration `index` of the adaptive loop: rooms from doors at
the indexed scale with a decorrelated sub-seed, then exterior exits. -/
def adaptiveCandidate (picker : Picker) (fuel : ℕ) (args : AdaptiveArgs)
    (index : ℕ) : Candidate :=
  let roomSizeScale := Max.max 1 ((scaleCandidates args.baseRoomSizeScale).getD index 0)
  let variantRng := createRngInit (args.attemptSeed + ((index : ℤ) + 1) * 3571)
  let rfd :=
    generateRoomsFromDoors picker args.initialDoorOpenings args.hallwayWalls
      args.hallwayGrid args.hallwayCells args.bounds variantRng roomSizeScale
      args.roomShapeStyle
  let exits :=
    chooseExteriorExitOpenings fuel rfd.1.roomWalls rfd.1.rooms args.options rfd.2
  { rooms := rfd.1.rooms, roomWalls := rfd.1.roomWalls,
    connectedDoors := rfd.1.connectedDoors, exteriorRoomExits := exits.1 }

/-- The scan of the adaptive loop: update the best candidate (more connected
doors, or newly satisfied exterior exits), return immediately on a candidate
hitting the exact door target with at least two exits. -/
def bestCandidateUpdate (candidate : Candidate) : Option Candidate → Option Candidate
  | none => some candidate
  | some b =>
    if candidate.connectedDoors.length > b.connectedDoors.length ∨
        (candidate.exteriorRoomExits.length ≥ 2 ∧ b.exteriorRoomExits.length < 2) then
      some candidate
    else some b

def adaptiveScan (picker : Picker) (fuel : ℕ) (args : AdaptiveArgs) :
    List ℕ → Option Candidate → Option Candidate
  | [], best => best
  | index :: rest, best =>
    let candidate := adaptiveCandidate picker fuel args index
    if candidate.connectedDoors.length = args.options.doorCount ∧
        candidate.exteriorRoomExits.length ≥ 2 then
      some candidate
    else adaptiveScan picker fuel args rest (bestCandidateUpdate candidate best)

/-- `generateRoomsWithAdaptiveScale`: up to 4 descending scale candidates. -/
def generateRoomsWithAdaptiveScale (picker : Picker) (fuel : ℕ)
    (args : AdaptiveArgs) : Candidate :=
  (adaptiveScan picker fuel args [0, 1, 2, 3] none).getD
    { rooms := [], roomWalls := [], connectedDoors := [], exteriorRoomExits := [] }

/-- One attempt's returned record. -/
structure Attempt where
  rooms : List RoomOut
  hallways : List HallOut
  walls : List Seg
  openings : List Seg
  connectedDoors : List Opening
  hasExteriorExit : Bool
deriving Repr, Inhabited

/-- The locals of the source's `generatePlanAttempt` are embedded as one
named definition each, all keyed by the attempt's inputs
`(options, bounds, seed)`; `deriveCorridorWidthCells` is the constant 3.
First: the carved hallway state (`hallwayCells`, `hallwayGroups`, and the
RNG state after carving). -/
def attemptHall (options : Options) (bounds : Bounds) (seed : ℤ) : HallBuild :=
  buildHallwayGroups bounds options.hallwayCount 3 (createRngInit seed)

/-- The attempt's hallway walls, each tagged with its owning hallway id. -/
def attemptHallwayWalls (options : Options) (bounds : Bounds) (seed : ℤ) :
    List Wall :=
  let hall := attemptHall options bounds seed
  let hallwayGrid := buildHallwayGrid bounds hall.combined
  let hallwayOwnershipGrid := buildHallwayOwnershipGrid bounds hall.groups
  (buildHallwayWalls bounds hall.combined).map
    (fun wall =>
      { wall with
        hallwayId := getHallwayIdForWall wall.edge hallwayGrid hallwayOwnershipGrid })

/-- The attempt's door-opening selection (openings and RNG state after). -/
def attemptCdo (fuel : ℕ) (options : Options) (bounds : Bounds) (seed : ℤ) :
    List Opening × ℕ :=
  chooseDoorOpenings fuel (attemptHallwayWalls options bounds seed)
    (attemptHall options bounds seed).groups options
    (attemptHall options bounds seed).rng

/-- The argument record the attempt passes to the adaptive room generator. -/
def attemptArgs (fuel : ℕ) (options : Options) (bounds : Bounds) (seed : ℤ) :
    AdaptiveArgs :=
  { initialDoorOpenings := (attemptCdo fuel options bounds seed).1
    hallwayWalls := attemptHallwayWalls options bounds seed
    hallwayGrid := buildHallwayGrid bounds (attemptHall options bounds seed).combined
    hallwayCells := (attemptHall options bounds seed).combined
    bounds := bounds
    options := options
    baseRoomSizeScale := deriveLayoutScale options bounds
    roomShapeStyle := options.roomShapeStyle
    attemptSeed := seed }

/-- The attempt's adaptive room generation result. -/
def attemptAdaptive (picker : Picker) (fuel : ℕ) (options : Options)
    (bounds : Bounds) (seed : ℤ) : Candidate :=
  generateRoomsWithAdaptiveScale picker fuel (attemptArgs fuel options bounds seed)

/-- The attempt's window openings. -/
def attemptWindowOpenings (picker : Picker) (fuel : ℕ) (options : Options)
    (bounds : Bounds) (seed : ℤ) : List Opening :=
  (chooseWindowOpenings (attemptAdaptive picker fuel options bounds seed).roomWalls
    (attemptHallwayWalls options bounds seed)
    ((attemptAdaptive picker fuel options bounds seed).connectedDoors ++
      (attemptAdaptive picker fuel options bounds seed).exteriorRoomExits)
    options (attemptCdo fuel options bounds seed).2).1

/-- All openings of the attempt (connected doors, exterior exits, windows). -/
def attemptAllOpenings (picker : Picker) (fuel : ℕ) (options : Options)
    (bounds : Bounds) (seed : ℤ) : List Opening :=
  (attemptAdaptive picker fuel options bounds seed).connectedDoors ++
    (attemptAdaptive picker fuel options bounds seed).exteriorRoomExits ++
    attemptWindowOpenings picker fuel options bounds seed

/-- The attempt's openings grouped by owning wall key. -/
def attemptOpeningsByWall (picker : Picker) (fuel : ℕ) (options : Options)
    (bounds : Bounds) (seed : ℤ) : List (Edge × List Opening) :=
  (attemptAllOpenings picker fuel options bounds seed).foldl
    (fun acc o => mapPush acc o.wallKey o) []

/-- The attempt's wall list before compilation (hallway walls then room
walls). -/
def attemptAllWalls (picker : Picker) (fuel : ℕ) (options : Options)
    (bounds : Bounds) (seed : ℤ) : List Wall :=
  attemptHallwayWalls options bounds seed ++
    (attemptAdaptive picker fuel options bounds seed).roomWalls

/-- The attempt's compiled wall segments and opening glyphs. -/
def attemptCompiled (picker : Picker) (fuel : ℕ) (options : Options)
    (bounds : Bounds) (seed : ℤ) : List Seg × List Seg :=
  (attemptAllWalls picker fuel options bounds seed).foldl
    (fun (acc : List Seg × List Seg) wall =>
      let openings :=
        ((attemptOpeningsByWall picker fuel options bounds seed).lookup wall.edge).getD []
      let walls := acc.1 ++ createWallSegmentsFromOpenings wall openings
      let glyphs :=
        openings.foldl
          (fun glyphs opening =>
            match createOpeningGlyph wall.edge opening with
            | some glyph => glyphs ++ [glyph]
            | none => glyphs)
          acc.2
      (walls, glyphs))
    ([], [])

/-- `generatePlanAttempt` of the source, assembled from the stage
definitions above. -/
def generatePlanAttempt (picker : Picker) (fuel : ℕ) (options : Options)
    (bounds : Bounds) (seed : ℤ) : Attempt :=
  { rooms := (attemptAdaptive picker fuel options bounds seed).rooms
    hallways := buildHallwayMetadata (attemptHall options bounds seed).groups
    walls := (attemptCompiled picker fuel options bounds seed).1
    openings := (attemptCompiled picker fuel options bounds seed).2
    connectedDoors := (attemptAdaptive picker fuel options bounds seed).connectedDoors
    hasExteriorExit := (attemptAdaptive picker fuel options bounds seed).exteriorRoomExits.length ≥ 2 }

/-- The raw user configuration (`userOptions` merged over `DEFAULT_OPTIONS`;
the two strict flags follow the source's `!== false` reading: absent means
`true`). -/
structure Config where
  width : ℚ := 36
  height : ℚ := 24
  hallwayCount : ℚ := 1
  doorCount : ℚ := 6
  roomShapeStyle : ℚ := 45
  doorWidth : ℚ := 1.2
  windowWidth : ℚ := 1.6
  maxWindowCount : ℚ := 8
  seed : ℤ
  strictDoorCount : Bool := true
  requireExteriorExits : Bool := true
deriving DecidableEq, Repr

/-- JS `Number(v) || d`: zero falls back to the default. -/
def orDefault (v d : ℚ) : ℚ := if v = 0 then d else v

/-- The normalization prologue of `generateFloorPlan`: clamp and round every
numeric option. -/
def normalizeOptions (userOptions : Config) : Options :=
  { width := clampNumber (orDefault userOptions.width 36) 12 100
    height := clampNumber (orDefault userOptions.height 24) 12 100
    hallwayCount := (jsRound (clampNumber (orDefault userOptions.hallwayCount 1) 1 12)).toNat
    doorCount := (jsRound (clampNumber userOptions.doorCount 0 40)).toNat
    roomShapeStyle := ((jsRound (clampNumber (orDefault userOptions.roomShapeStyle 45) 0 100)) : ℚ)
    doorWidth := clampNumber (orDefault userOptions.doorWidth 1.2) 0.8 2.5
    maxWindowCount := (jsRound (clampNumber userOptions.maxWindowCount 0 40)).toNat
    windowWidth := clampNumber (orDefault userOptions.windowWidth 1.6) 0.8 2.8
    seed := userOptions.seed }

/-- The plan's metadata record. -/
structure Meta where
  width : ℚ
  height : ℚ
  seed : ℤ
  roomCount : ℕ
  hallwayCount : ℕ
  requestedDoorCount : ℕ
  placedDoorCount : ℕ
  hasExteriorExit : Bool
  windowCount : ℕ
  wallCount : ℕ
deriving DecidableEq, Repr, Inhabited

/-- The returned plan (the constant empty `furniture` array is left out). -/
structure Plan where
  meta : Meta
  rooms : List RoomOut
  hallways : List HallOut
  walls : List Seg
  openings : List Seg
deriving Repr, Inhabited

/-- The two documented user-facing errors, plus the dead `layoutFailed`
guard (`bestAttempt == null` cannot survive a positive attempt budget). -/
inductive GenError
  | layoutFailed
  | doorCountUnmet (requested : ℕ)
  | exteriorExitUnmet
deriving DecidableEq, Repr

/-- The attempt loop of `generateFloorPlan`: keep the best attempt (more
connected doors, or newly satisfied exits) and break on an attempt hitting
the exact door target with exits. -/
def bestAttemptUpdate (attempt : Attempt) : Option Attempt → Option Attempt
  | none => some attempt
  | some b =>
    if attempt.connectedDoors.length > b.connectedDoors.length ∨
        (attempt.hasExteriorExit ∧ ¬ b.hasExteriorExit) then
      some attempt
    else some b

def attemptLoop (picker : Picker) (fuel : ℕ) (options : Options) (bounds : Bounds) :
    ℕ → ℕ → Option Attempt → Option Attempt
  | 0, _, best => best
  | remaining + 1, attemptIndex, best =>
    let attempt :=
      generatePlanAttempt picker fuel options bounds
        (options.seed + (attemptIndex : ℤ) * 7919)
    if attempt.connectedDoors.length = options.doorCount ∧ attempt.hasExteriorExit then
      some attempt
    else
      attemptLoop picker fuel options bounds remaining (attemptIndex + 1)
        (bestAttemptUpdate attempt best)

/-- The tail of `generateFloorPlan`: the dead null guard, the two strict
gates, and the assembly of the returned plan record. -/
def finalizeFloorPlan (options : Options)
    (strictDoorCount requireExteriorExits : Bool) :
    Option Attempt → Except GenError Plan
  | none => .error .layoutFailed
  | some bestAttempt =>
    if strictDoorCount ∧ bestAttempt.connectedDoors.length ≠ options.doorCount then
      .error (.doorCountUnmet options.doorCount)
    else if requireExteriorExits ∧ ¬ bestAttempt.hasExteriorExit then
      .error .exteriorExitUnmet
    else
      .ok
        { meta :=
            { width := options.width, height := options.height, seed := options.seed,
              roomCount := bestAttempt.rooms.length,
              hallwayCount := bestAttempt.hallways.length,
              requestedDoorCount := options.doorCount,
              placedDoorCount := bestAttempt.connectedDoors.length,
              hasExteriorExit := bestAttempt.hasExteriorExit,
              windowCount :=
                (bestAttempt.openings.filter (fun o => o.kind = SegKind.window)).length,
              wallCount := bestAttempt.walls.length }
          rooms := bestAttempt.rooms
          hallways := bestAttempt.hallways
          walls := bestAttempt.walls
          openings := bestAttempt.openings }

/-- The cell-grid bounds derived by `generateFloorPlan` (`GRID_CELL_SIZE` is
1). -/
def deriveBounds (options : Options) : Bounds :=
  { cols := Max.max 12 (jsRound (options.width / 1)).toNat
    rows := Max.max 12 (jsRound (options.height / 1)).toNat }

/-- `generateFloorPlan`: normalize, run the bounded attempt loop, enforce the
strict gates, and assemble the plan record. -/
def generateFloorPlan (picker : Picker) (fuel : ℕ) (userOptions : Config) :
    Except GenError Plan :=
  let options := normalizeOptions userOptions
  let strictDoorCount := userOptions.strictDoorCount
  let requireExteriorExits := userOptions.requireExteriorExits
  let bounds := deriveBounds options
  let maxAttempts := if strictDoorCount ∨ requireExteriorExits then 48 else 12
  finalizeFloorPlan options strictDoorCount requireExteriorExits
    (attemptLoop picker fuel options bounds maxAttempts 0 none)

/-! ## Basic facts about the RNG -/

theorem xor_lt_mod32 {a b : ℕ} (ha : a < 4294967296) (hb : b < 4294967296) :
    a ^^^ b < 4294967296 := by
  have h32 : (4294967296 : ℕ) = 2 ^ 32 := by norm_num
  rw [h32] at ha hb ⊢
  exact Nat.xor_lt_two_pow ha hb

theorem xorshiftStep_lt (s : ℕ) : xorshiftStep s < 4294967296 := by
  have hmod : ∀ n : ℕ, n % 4294967296 < 4294967296 := fun n => Nat.mod_lt _ (by norm_num)
  have hshift : ∀ n k : ℕ, n >>> k ≤ n := by
    intro n k
    rw [Nat.shiftRight_eq_div_pow]
    exact Nat.div_le_self n (2 ^ k)
  unfold xorshiftStep
  have h1 : s % 4294967296 ^^^ (s % 4294967296) <<< 13 % 4294967296 < 4294967296 :=
    xor_lt_mod32 (hmod s) (hmod _)
  have h2 : (s % 4294967296 ^^^ (s % 4294967296) <<< 13 % 4294967296) >>> 17 < 4294967296 :=
    lt_of_le_of_lt (hshift _ _) h1
  exact xor_lt_mod32 (xor_lt_mod32 h1 h2) (hmod _)

theorem rngFloat_nonneg (s : ℕ) : 0 ≤ (rngFloat s).1 := by
  unfold rngFloat
  positivity

theorem rngFloat_lt_one (s : ℕ) : (rngFloat s).1 < 1 := by
  have h := xorshiftStep_lt s
  unfold rngFloat
  rw [div_lt_one (by norm_num)]
  exact_mod_cast h

theorem randomInt_le {lo hi : ℤ} (s : ℕ) (h : lo ≤ hi) :
    lo ≤ (randomInt s lo hi).1 ∧ (randomInt s lo hi).1 ≤ hi := by
  have h' : (lo : ℚ) ≤ (hi : ℚ) := by exact_mod_cast h
  unfold randomInt jsFloor
  constructor
  · have := Int.floor_nonneg.2 (mul_nonneg (rngFloat_nonneg s)
      (by linarith : (0 : ℚ) ≤ (hi : ℚ) - (lo : ℚ) + 1))
    simp only
    omega
  · have hu := rngFloat_lt_one s
    have hbound : (rngFloat s).1 * ((hi : ℚ) - (lo : ℚ) + 1) < ((hi - lo + 1 : ℤ) : ℚ) := by
      push_cast
      nlinarith [rngFloat_nonneg s, hu]
    have := Int.floor_lt.2 hbound
    simp only
    omega

/-! ## C3: determinism

The embedding is a pure function of the picker, the fuel and the
configuration record; the source's only other input, `Date.now()`, is read
only to build the default seed, and the claim fixes the seed.  Repeating a
call with an identical `(seed, options)` record therefore reproduces the
plan identically. -/

/-- A concrete picker used to instantiate witness statements: the source
picker's contract is to return some member of the candidate list, and the
first member is such a choice. -/
def firstCandidatePicker : Picker := fun _ candidates _ s => (candidates.head?, s)

/-- The strict-mode scenario configuration of the spec (all other fields are
the defaults). -/
def cfgStrict : Config :=
  { seed := 1
    width := 36
    height := 24
    hallwayCount := 1
    doorCount := 6
    strictDoorCount := true
    requireExteriorExits := true }

/-- C3: identical `(seed, options)` records yield identical plans — the
generator reads no state besides its arguments, so equal configurations give
byte-identical rooms, hallways, walls and openings. -/
theorem generateFloorPlan_deterministic (picker : Picker) (fuel : ℕ)
    (cfg₁ cfg₂ : Config) (h : cfg₁ = cfg₂) :
    generateFloorPlan picker fuel cfg₁ = generateFloorPlan picker fuel cfg₂ := by
  rw [h]

/-- Witness for C3 at the strict-mode configuration. -/
theorem generateFloorPlan_deterministic_witness :
    generateFloorPlan firstCandidatePicker 1000 cfgStrict =
      generateFloorPlan firstCandidatePicker 1000 cfgStrict :=
  generateFloorPlan_deterministic firstCandidatePicker 1000 cfgStrict cfgStrict rfl

/-! ## C1: the strict-mode scenario -/

theorem bestAttemptUpdate_ne_none (attempt : Attempt) (best : Option Attempt) :
    bestAttemptUpdate attempt best ≠ none := by
  cases best with
  | none => simp [bestAttemptUpdate]
  | some b =>
    simp only [bestAttemptUpdate]
    split <;> simp

theorem attemptLoop_ne_none (picker : Picker) (fuel : ℕ) (options : Options)
    (bounds : Bounds) :
    ∀ (n i : ℕ) (best : Option Attempt), n ≠ 0 ∨ best ≠ none →
      attemptLoop picker fuel options bounds n i best ≠ none := by
  intro n
  induction n with
  | zero =>
    intro i best h
    simpa [attemptLoop] using h
  | succ m ih =>
    intro i best _
    rw [attemptLoop]
    split
    · simp
    · exact ih (i + 1) _ (Or.inr (bestAttemptUpdate_ne_none _ _))

/-- What C1 asserts about a result of the strict-mode run: a returned plan
satisfies both requested constraints, and a raised error is one of the two
documented kinds. -/
def strictScenarioOk : Except GenError Plan → Prop
  | .ok plan => plan.meta.placedDoorCount = 6 ∧ plan.meta.hasExteriorExit = true
  | .error e => e = .doorCountUnmet 6 ∨ e = .exteriorExitUnmet

theorem cfgStrict_doorCount : (normalizeOptions cfgStrict).doorCount = 6 := by
  with_unfolding_all rfl

/-- C1: with seed 1, 36×24, one hallway, six doors and both strict flags set,
`generateFloorPlan` either returns a plan with `placedDoorCount = 6` and
`hasExteriorExit`, or throws the documented door-count or exterior-exit
error; it never returns a plan violating a requested constraint.  The growth
picker and loop fuel are universally quantified, so this covers the source's
sampling picker. -/
theorem finalizeFloorPlan_strict (options : Options) (hdc : options.doorCount = 6)
    (best : Option Attempt) (hne : best ≠ none) :
    strictScenarioOk (finalizeFloorPlan options true true best) := by
  match best with
  | none => exact absurd rfl hne
  | some bestAttempt =>
    by_cases hlen : bestAttempt.connectedDoors.length = 6
    · by_cases hext : bestAttempt.hasExteriorExit
      · simp [finalizeFloorPlan, strictScenarioOk, hdc, hlen, hext]
      · simp [finalizeFloorPlan, strictScenarioOk, hdc, hlen, hext]
    · simp [finalizeFloorPlan, strictScenarioOk, hdc, hlen]

/-- C1: with seed 1, 36×24, one hallway, six doors and both strict flags set,
`generateFloorPlan` either returns a plan with `placedDoorCount = 6` and
`hasExteriorExit = true`, or throws one of the two documented errors; it
never returns a plan violating a requested constraint.  The growth picker
and the loop fuel are universally quantified, so this covers the source's
sampling picker. -/
theorem generateFloorPlan_strictScenario (picker : Picker) (fuel : ℕ) :
    strictScenarioOk (generateFloorPlan picker fuel cfgStrict) := by
  have hgen : generateFloorPlan picker fuel cfgStrict =
      finalizeFloorPlan (normalizeOptions cfgStrict) true true
        (attemptLoop picker fuel (normalizeOptions cfgStrict)
          (deriveBounds (normalizeOptions cfgStrict)) 48 0 none) := rfl
  rw [hgen]
  exact finalizeFloorPlan_strict _ cfgStrict_doorCount _
    (attemptLoop_ne_none picker fuel _ _ 48 0 none (Or.inl (by norm_num)))

/-! ## Propagation lemmas through the best-of selections -/

theorem bestCandidateUpdate_pred (P : Candidate → Prop) (candidate : Candidate)
    (best : Option Candidate) (hc : P candidate)
    (hbest : ∀ b, best = some b → P b) :
    ∀ b, bestCandidateUpdate candidate best = some b → P b := by
  cases best with
  | none =>
    intro b hb
    simp only [bestCandidateUpdate] at hb
    cases hb
    exact hc
  | some b0 =>
    intro b hb
    simp only [bestCandidateUpdate] at hb
    split at hb <;> cases hb
    · exact hc
    · exact hbest b0 rfl

theorem adaptiveScan_pred (picker : Picker) (fuel : ℕ) (args : AdaptiveArgs)
    (P : Candidate → Prop)
    (hP : ∀ i, P (adaptiveCandidate picker fuel args i)) :
    ∀ (l : List ℕ) (best : Option Candidate), (∀ b, best = some b → P b) →
      ∀ r, adaptiveScan picker fuel args l best = some r → P r := by
  intro l
  induction l with
  | nil =>
    intro best hbest r hr
    exact hbest r hr
  | cons index rest ih =>
    intro best hbest r hr
    rw [adaptiveScan] at hr
    split at hr
    · cases hr
      exact hP index
    · exact ih _ (bestCandidateUpdate_pred P _ best (hP index) hbest) r hr

theorem generateRoomsWithAdaptiveScale_pred (picker : Picker) (fuel : ℕ)
    (args : AdaptiveArgs) (P : Candidate → Prop)
    (hP : ∀ i, P (adaptiveCandidate picker fuel args i))
    (hdefault : P { rooms := [], roomWalls := [], connectedDoors := [],
                    exteriorRoomExits := [] }) :
    P (generateRoomsWithAdaptiveScale picker fuel args) := by
  unfold generateRoomsWithAdaptiveScale
  cases hscan : adaptiveScan picker fuel args [0, 1, 2, 3] none with
  | none => simpa using hdefault
  | some r =>
    have := adaptiveScan_pred picker fuel args P hP [0, 1, 2, 3] none
      (by intro b hb; cases hb) r hscan
    simpa using this

theorem bestAttemptUpdate_pred (P : Attempt → Prop) (attempt : Attempt)
    (best : Option Attempt) (hc : P attempt)
    (hbest : ∀ b, best = some b → P b) :
    ∀ b, bestAttemptUpdate attempt best = some b → P b := by
  cases best with
  | none =>
    intro b hb
    simp only [bestAttemptUpdate] at hb
    cases hb
    exact hc
  | some b0 =>
    intro b hb
    simp only [bestAttemptUpdate] at hb
    split at hb <;> cases hb
    · exact hc
    · exact hbest b0 rfl

theorem attemptLoop_pred (picker : Picker) (fuel : ℕ) (options : Options)
    (bounds : Bounds) (P : Attempt → Prop)
    (hP : ∀ seed, P (generatePlanAttempt picker fuel options bounds seed)) :
    ∀ (n i : ℕ) (best : Option Attempt), (∀ b, best = some b → P b) →
      ∀ r, attemptLoop picker fuel options bounds n i best = some r → P r := by
  intro n
  induction n with
  | zero =>
    intro i best hbest r hr
    rw [attemptLoop] at hr
    exact hbest r hr
  | succ m ih =>
    intro i best hbest r hr
    rw [attemptLoop] at hr
    split at hr
    · cases hr
      exact hP _
    · exact ih (i + 1) _ (bestAttemptUpdate_pred P _ best (hP _) hbest) r hr

theorem finalizeFloorPlan_ok (options : Options) (sd re : Bool)
    (best : Option Attempt) (plan : Plan)
    (h : finalizeFloorPlan options sd re best = .ok plan) :
    ∃ a, best = some a ∧ plan.rooms = a.rooms ∧ plan.hallways = a.hallways ∧
      plan.walls = a.walls ∧ plan.openings = a.openings ∧
      plan.meta.roomCount = a.rooms.length ∧
      plan.meta.placedDoorCount = a.connectedDoors.length ∧
      plan.meta.hasExteriorExit = a.hasExteriorExit ∧
      plan.meta.requestedDoorCount = options.doorCount := by
  cases best with
  | none => simp [finalizeFloorPlan] at h
  | some a =>
    refine ⟨a, rfl, ?_⟩
    simp only [finalizeFloorPlan] at h
    split at h
    · cases h
    · split at h
      · cases h
      · cases h
        simp

/-- Every returned plan is built from some attempt satisfying any property
all attempts of its run satisfy. -/
theorem generateFloorPlan_ok_attempt (picker : Picker) (fuel : ℕ) (cfg : Config)
    (P : Attempt → Prop)
    (hP : ∀ seed, P (generatePlanAttempt picker fuel (normalizeOptions cfg)
      (deriveBounds (normalizeOptions cfg)) seed))
    (plan : Plan) (h : generateFloorPlan picker fuel cfg = .ok plan) :
    ∃ a, P a ∧ plan.rooms = a.rooms ∧ plan.hallways = a.hallways ∧
      plan.walls = a.walls ∧ plan.openings = a.openings ∧
      plan.meta.roomCount = a.rooms.length ∧
      plan.meta.placedDoorCount = a.connectedDoors.length ∧
      plan.meta.hasExteriorExit = a.hasExteriorExit ∧
      plan.meta.requestedDoorCount = (normalizeOptions cfg).doorCount := by
  have h' : finalizeFloorPlan (normalizeOptions cfg) cfg.strictDoorCount
      cfg.requireExteriorExits
      (attemptLoop picker fuel (normalizeOptions cfg) (deriveBounds (normalizeOptions cfg))
        (if cfg.strictDoorCount ∨ cfg.requireExteriorExits then 48 else 12) 0 none) =
      .ok plan := h
  obtain ⟨a, ha, rest⟩ := finalizeFloorPlan_ok _ _ _ _ _ h'
  exact ⟨a, attemptLoop_pred picker fuel _ _ P hP _ 0 none (by intro b hb; cases hb) a ha,
    rest⟩

/-! ## C10: one room record per connected door -/

theorem foldl_invariant {σ α : Type _} (P : σ → Prop) (f : σ → α → σ)
    (l : List α) (init : σ) (h0 : P init)
    (hstep : ∀ s a, a ∈ l → P s → P (f s a)) : P (l.foldl f init) := by
  induction l generalizing init with
  | nil => exact h0
  | cons a rest ih =>
    exact ih (f init a) (hstep init a (List.mem_cons_self a rest) h0)
      (fun s b hb hs => hstep s b (List.mem_cons_of_mem a hb) hs)

theorem tryPlaceRoomForDoor_eqlen (wallByKey : List (Edge × Wall))
    (hallwayGrid : HallGrid) (bounds : Bounds) (roomSizeScale : ℚ) (n : ℕ)
    (st : PlaceState) (opening : Opening)
    (h : st.roomRecords.length = st.connectedDoors.length) :
    ((tryPlaceRoomForDoor wallByKey hallwayGrid bounds roomSizeScale n st opening).2).roomRecords.length =
      ((tryPlaceRoomForDoor wallByKey hallwayGrid bounds roomSizeScale n st opening).2).connectedDoors.length := by
  unfold tryPlaceRoomForDoor
  split
  · exact h
  · split
    · exact h
    · dsimp only
      split
      · exact h
      · simp [h]

theorem backfillHallLoop_eqlen (wallByKey : List (Edge × Wall))
    (hallwayGrid : HallGrid) (bounds : Bounds) (roomSizeScale : ℚ) (n : ℕ) :
    ∀ (openings : List Opening) (st : PlaceState),
      st.roomRecords.length = st.connectedDoors.length →
      ((backfillHallLoop wallByKey hallwayGrid bounds roomSizeScale n openings st).2).roomRecords.length =
        ((backfillHallLoop wallByKey hallwayGrid bounds roomSizeScale n openings st).2).connectedDoors.length := by
  intro openings
  induction openings with
  | nil => intro st h; exact h
  | cons o rest ih =>
    intro st h
    rw [backfillHallLoop]
    have hp := tryPlaceRoomForDoor_eqlen wallByKey hallwayGrid bounds roomSizeScale n st o h
    split
    · exact ih st h
    · dsimp only
      split
      · exact hp
      · exact ih _ hp

theorem growRoomTurn_reclen (ctx : GrowCtx) (roomSizeScale : ℚ) (st : GrowState)
    (idx : ℕ) :
    ((growRoomTurn ctx roomSizeScale st idx).1).roomRecords.length =
      st.roomRecords.length := by
  unfold growRoomTurn
  split
  · rfl
  · dsimp only
    split
    · rfl
    · simp only [List.length_set]

theorem growPass_reclen (ctx : GrowCtx) (roomSizeScale : ℚ) (st : GrowState) :
    ((growPass ctx roomSizeScale st).1).roomRecords.length =
      st.roomRecords.length := by
  unfold growPass
  refine foldl_invariant
    (fun acc : GrowState × Bool => acc.1.roomRecords.length = st.roomRecords.length) _ _ _ rfl ?_
  intro s a _ hs
  split
  · exact hs
  · rw [growRoomTurn_reclen]
    exact hs

theorem growPassLoop_reclen (ctx : GrowCtx) (roomSizeScale : ℚ) :
    ∀ (n : ℕ) (st : GrowState),
      (growPassLoop ctx roomSizeScale n st).roomRecords.length =
        st.roomRecords.length := by
  intro n
  induction n with
  | zero => intro st; rfl
  | succ m ih =>
    intro st
    rw [growPassLoop]
    have h := growPass_reclen ctx roomSizeScale st
    split
    · exact h
    · split
      · exact h
      · rw [ih]
        exact h

theorem growRoomCells_reclen (picker : Picker) (roomRecords : List RoomRec)
    (roomIdByCell : List (Cell × ℕ)) (hallwayCells : List Cell) (bounds : Bounds)
    (s : ℕ) (roomSizeScale roomShapeStyle : ℚ) :
    ((growRoomCells picker roomRecords roomIdByCell hallwayCells bounds s
      roomSizeScale roomShapeStyle).1).length = roomRecords.length := by
  unfold growRoomCells
  dsimp only
  split
  · rfl
  · exact growPassLoop_reclen _ _ _ _

theorem placeInitialRooms_eqlen (wallByKey : List (Edge × Wall))
    (hallwayGrid : HallGrid) (bounds : Bounds) (roomSizeScale : ℚ)
    (doorOpenings : List Opening) (st0 : PlaceState)
    (h : st0.roomRecords.length = st0.connectedDoors.length) :
    (placeInitialRooms wallByKey hallwayGrid bounds roomSizeScale doorOpenings st0).roomRecords.length =
      (placeInitialRooms wallByKey hallwayGrid bounds roomSizeScale doorOpenings st0).connectedDoors.length := by
  unfold placeInitialRooms
  refine foldl_invariant
    (fun st : PlaceState => st.roomRecords.length = st.connectedDoors.length)
    _ _ _ h ?_
  intro st o _ hst
  exact tryPlaceRoomForDoor_eqlen _ _ _ _ _ st o hst

theorem backfillStep_eqlen (wallByKey : List (Edge × Wall)) (hallwayGrid : HallGrid)
    (bounds : Bounds) (roomSizeScale : ℚ) (n : ℕ) (acc : List ℕ × PlaceState)
    (entry : ℕ × List Opening)
    (h : acc.2.roomRecords.length = acc.2.connectedDoors.length) :
    ((backfillStep wallByKey hallwayGrid bounds roomSizeScale n acc entry).2).roomRecords.length =
      ((backfillStep wallByKey hallwayGrid bounds roomSizeScale n acc entry).2).connectedDoors.length := by
  unfold backfillStep
  split
  · exact h
  · have hb := backfillHallLoop_eqlen wallByKey hallwayGrid bounds roomSizeScale n
      (fisherYates entry.2 acc.2.rng).1
      { acc.2 with rng := (fisherYates entry.2 acc.2.rng).2 } h
    simp only []
    split <;> exact hb

theorem generateRoomsFromDoors_eqlen (picker : Picker) (doorOpenings : List Opening)
    (hallwayWalls : List Wall) (hallwayGrid : HallGrid) (hallwayCells : List Cell)
    (bounds : Bounds) (s : ℕ) (roomSizeScale roomShapeStyle : ℚ) :
    ((generateRoomsFromDoors picker doorOpenings hallwayWalls hallwayGrid
      hallwayCells bounds s roomSizeScale roomShapeStyle).1).rooms.length =
      ((generateRoomsFromDoors picker doorOpenings hallwayWalls hallwayGrid
        hallwayCells bounds s roomSizeScale roomShapeStyle).1).connectedDoors.length := by
  unfold generateRoomsFromDoors
  simp only [List.length_map]
  rw [growRoomCells_reclen]
  refine foldl_invariant
    (fun acc : List ℕ × PlaceState =>
      acc.2.roomRecords.length = acc.2.connectedDoors.length) _ _ _ ?_ ?_
  · exact placeInitialRooms_eqlen _ _ _ _ _ _ rfl
  · intro acc entry _ hacc
    exact backfillStep_eqlen _ _ _ _ _ acc entry hacc

theorem adaptiveCandidate_eqlen (picker : Picker) (fuel : ℕ) (args : AdaptiveArgs)
    (index : ℕ) :
    (adaptiveCandidate picker fuel args index).rooms.length =
      (adaptiveCandidate picker fuel args index).connectedDoors.length := by
  unfold adaptiveCandidate
  dsimp only
  exact generateRoomsFromDoors_eqlen _ _ _ _ _ _ _ _ _

theorem generatePlanAttempt_eqlen (picker : Picker) (fuel : ℕ) (options : Options)
    (bounds : Bounds) (seed : ℤ) :
    (generatePlanAttempt picker fuel options bounds seed).rooms.length =
      (generatePlanAttempt picker fuel options bounds seed).connectedDoors.length := by
  have h1 : (generatePlanAttempt picker fuel options bounds seed).rooms =
      (attemptAdaptive picker fuel options bounds seed).rooms := by
    unfold generatePlanAttempt
    rfl
  have h2 : (generatePlanAttempt picker fuel options bounds seed).connectedDoors =
      (attemptAdaptive picker fuel options bounds seed).connectedDoors := by
    unfold generatePlanAttempt
    rfl
  rw [h1, h2]
  unfold attemptAdaptive
  exact generateRoomsWithAdaptiveScale_pred picker fuel _
    (fun c => c.rooms.length = c.connectedDoors.length)
    (adaptiveCandidate_eqlen picker fuel _) rfl

/-- What C10 asserts about a run's result. -/
def roomCountMatchesDoors : Except GenError Plan → Prop
  | .ok plan => plan.meta.roomCount = plan.meta.placedDoorCount
  | .error _ => True

/-- C10: in every returned plan, `meta.roomCount = meta.placedDoorCount` —
exactly one room record is created per connected door, through placement,
backfill, growth and both best-of selections. -/
theorem generateFloorPlan_roomCount_eq_placedDoorCount (picker : Picker)
    (fuel : ℕ) (cfg : Config) :
    roomCountMatchesDoors (generateFloorPlan picker fuel cfg) := by
  cases h : generateFloorPlan picker fuel cfg with
  | error e => trivial
  | ok plan =>
    obtain ⟨a, hPa, _, _, _, _, hroom, hplaced, _⟩ :=
      generateFloorPlan_ok_attempt picker fuel cfg
        (fun a => a.rooms.length = a.connectedDoors.length)
        (fun seed => generatePlanAttempt_eqlen picker fuel _ _ seed) plan h
    show plan.meta.roomCount = plan.meta.placedDoorCount
    rw [hroom, hplaced, hPa]

/-! ## C9: the door-opening pick count -/

theorem randomChoice_mem [Inhabited α] (s : ℕ) (values : List α)
    (h : values ≠ []) : (randomChoice s values).1 ∈ values := by
  have hlen : 0 < values.length := List.length_pos.2 h
  have hbounds := randomInt_le s (show (0 : ℤ) ≤ (values.length : ℤ) - 1 by omega)
  unfold randomChoice
  dsimp only
  have hlt : (randomInt s 0 ((values.length : ℤ) - 1)).1.toNat < values.length := by
    omega
  rw [List.getD_eq_getElem values default hlt]
  exact List.getElem_mem hlt

theorem mapRng_length (f : α → ℕ → β × ℕ) :
    ∀ (l : List α) (s : ℕ), ((mapRng f l s).1).length = l.length := by
  intro l
  induction l with
  | nil => intro s; rfl
  | cons a rest ih =>
    intro s
    simp [mapRng, ih]

theorem mapRng_map (f : α → ℕ → β × ℕ) (g : β → γ) (h : α → γ)
    (hfg : ∀ a s, g ((f a s).1) = h a) :
    ∀ (l : List α) (s : ℕ), ((mapRng f l s).1).map g = l.map h := by
  intro l
  induction l with
  | nil => intro s; rfl
  | cons a rest ih =>
    intro s
    simp [mapRng, hfg, ih]

/-- The pick-state invariant of the two door-pick loops: the picked-key set
mirrors the picked walls, the keys are distinct, the cap is respected, and
every picked wall satisfies `P`. -/
def PickInv (P : Wall → Prop) (maxDoors : ℕ) (st : List Wall × List Edge × ℕ) :
    Prop :=
  st.1.map (fun w => w.edge) = st.2.1 ∧ st.2.1.Nodup ∧ st.1.length ≤ maxDoors ∧
    ∀ w ∈ st.1, P w

theorem pickInv_extend (P : Wall → Prop) (maxDoors : ℕ) (picked : List Wall)
    (pickedSet : List Edge) (s : ℕ) (candidate : Wall)
    (hinv : PickInv P maxDoors (picked, pickedSet, s))
    (hfresh : candidate.edge ∉ pickedSet)
    (hroom : picked.length < maxDoors) (hP : P candidate) (s' : ℕ) :
    PickInv P maxDoors (picked ++ [candidate], pickedSet ++ [candidate.edge], s') := by
  obtain ⟨hmap, hnodup, _, hall⟩ := hinv
  refine ⟨by simp [hmap], ?_, by simp; omega, ?_⟩
  · simp only [List.nodup_append, List.nodup_cons]
    exact ⟨hnodup, by simp, by simpa using fun h => hfresh h⟩
  · intro w hw
    rcases List.mem_append.1 hw with hw | hw
    · exact hall w hw
    · have hwc : w = candidate := by simpa using hw
      rw [hwc]
      exact hP

theorem doorSeedLoop_inv (P : Wall → Prop)
    (candidatesByHall : List (ℕ × List Wall)) (maxDoors : ℕ)
    (hP : ∀ hid lst, candidatesByHall.lookup hid = some lst → ∀ w ∈ lst, P w) :
    ∀ (halls : List HallGroup) (st : List Wall × List Edge × ℕ),
      PickInv P maxDoors st →
      PickInv P maxDoors (doorSeedLoop candidatesByHall maxDoors halls st) := by
  intro halls
  induction halls with
  | nil =>
    rintro ⟨picked, pickedSet, s⟩ h
    exact h
  | cons hallway rest ih =>
    rintro ⟨picked, pickedSet, s⟩ hinv
    rw [doorSeedLoop]
    split
    · exact hinv
    · next hstop =>
      dsimp only
      split
      · exact ih _ hinv
      · next hne =>
        split
        · exact ih _ hinv
        · next hfresh =>
          refine ih _ (pickInv_extend P maxDoors picked pickedSet s _ hinv hfresh
            (by omega) ?_ _)
          cases hlook : candidatesByHall.lookup hallway.id with
          | none =>
            rw [hlook] at hne
            simp at hne
          | some lst =>
            have hlstne : lst ≠ [] := by
              intro hcon
              rw [hlook, hcon] at hne
              simp at hne
            simp only [Option.getD_some]
            exact hP hallway.id lst hlook _ (randomChoice_mem s lst hlstne)

theorem doorFillLoop_inv (P : Wall → Prop) (doorCandidates : List Wall)
    (maxDoors : ℕ) (hP : ∀ w ∈ doorCandidates, P w)
    (hne : doorCandidates ≠ []) :
    ∀ (fuel : ℕ) (st : List Wall × List Edge × ℕ),
      PickInv P maxDoors st →
      PickInv P maxDoors (doorFillLoop doorCandidates maxDoors fuel st) := by
  intro fuel
  induction fuel with
  | zero =>
    rintro ⟨picked, pickedSet, s⟩ h
    exact h
  | succ m ih =>
    rintro ⟨picked, pickedSet, s⟩ hinv
    rw [doorFillLoop]
    split
    · exact hinv
    · next hstop =>
      dsimp only
      split
      · exact ih _ hinv
      · next hfresh =>
        exact ih _ (pickInv_extend P maxDoors picked pickedSet s _ hinv hfresh
          (by omega) (hP _ (randomChoice_mem s doorCandidates hne)) _)

theorem mapPush_lookup_mem [DecidableEq κ] :
    ∀ (acc : List (κ × List ν)) (k : κ) (v : ν) (q : κ) (lst : List ν),
      (mapPush acc k v).lookup q = some lst →
      ∀ x ∈ lst, (∃ lst₀, acc.lookup q = some lst₀ ∧ x ∈ lst₀) ∨ x = v := by
  intro acc
  induction acc with
  | nil =>
    intro k v q lst hl x hx
    simp only [mapPush, List.lookup] at hl
    split at hl
    · cases hl
      right
      simpa using hx
    · cases hl
  | cons e es ih =>
    obtain ⟨ek, evs⟩ := e
    intro k v q lst hl x hx
    simp only [mapPush] at hl
    split at hl
    · next hekk =>
      simp only [List.lookup] at hl
      split at hl
      · next hq =>
        cases hl
        rcases List.mem_append.1 hx with hx | hx
        · left
          refine ⟨evs, ?_, hx⟩
          simp only [List.lookup, hq]
        · right
          simpa using hx
      · next hq =>
        left
        refine ⟨lst, ?_, hx⟩
        simp only [List.lookup, hq]
        exact hl
    · next hekk =>
      simp only [List.lookup] at hl
      split at hl
      · next hq =>
        cases hl
        left
        refine ⟨evs, ?_, hx⟩
        simp only [List.lookup, hq]
      · next hq =>
        rcases ih k v q lst hl x hx with ⟨lst₀, hl₀, hx₀⟩ | hx₀
        · left
          refine ⟨lst₀, ?_, hx₀⟩
          simp only [List.lookup, hq]
          exact hl₀
        · right
          exact hx₀

theorem doorPicksFor_inv (fuel : ℕ) (walls : List Wall)
    (hallwayGroups : List HallGroup) (options : Options) (s : ℕ)
    (hne : doorCandidatesFor walls options ≠ []) :
    PickInv (fun w => w ∈ doorCandidatesFor walls options)
      (maxDoorsFor walls hallwayGroups options)
      (doorPicksFor fuel walls hallwayGroups options s) := by
  have hbuckets : ∀ (src : List Wall) (acc : List (ℕ × List Wall)),
      (∀ c ∈ src, c ∈ doorCandidatesFor walls options) →
      (∀ hid lst, acc.lookup hid = some lst → ∀ w ∈ lst,
        w ∈ doorCandidatesFor walls options) →
      ∀ hid lst,
        (src.foldl
          (fun acc c => match c.hallwayId with
            | none => acc
            | some hid => mapPush acc hid c) acc).lookup hid = some lst →
        ∀ w ∈ lst, w ∈ doorCandidatesFor walls options := by
    intro src
    induction src with
    | nil =>
      intro acc _ hacc hid lst hl w hw
      exact hacc hid lst hl w hw
    | cons c rest ihs =>
      intro acc hsrc hacc hid lst hl w hw
      rw [List.foldl_cons] at hl
      refine ihs _ (fun d hd => hsrc d (List.mem_cons_of_mem c hd)) ?_ hid lst hl w hw
      intro hid' lst' hl' w' hw'
      cases hc : c.hallwayId with
      | none =>
        simp only [hc] at hl'
        exact hacc hid' lst' hl' w' hw'
      | some ch =>
        simp only [hc] at hl'
        rcases mapPush_lookup_mem acc ch c hid' lst' hl' w' hw' with ⟨lst₀, hl₀, hx₀⟩ | hx₀
        · exact hacc hid' lst₀ hl₀ w' hx₀
        · rw [hx₀]
          exact hsrc c (List.mem_cons_self c rest)
  unfold doorPicksFor
  dsimp only
  refine doorFillLoop_inv _ _ _ (fun w hw => hw) hne fuel _
    (doorSeedLoop_inv _ _ _
      (hbuckets (doorCandidatesFor walls options) [] (fun c hc => hc)
        (fun hid lst h => by cases h)) _ _
      ⟨rfl, List.nodup_nil, by simp, by simp⟩)

/-- C9 (corrected): with at least one candidate wall and a positive target
door count, `chooseDoorOpenings` picks distinct candidate walls (first round
one per hallway group, then uniform rejection sampling); when the fueled fill
loop reaches the cap, the number of openings is
`min(max(2 × doorCount, hallwayGroupCount), candidateCount)` — the claim's
`min(2 × doorCount, candidateCount)` omits the hallway-group lower bound of
the code's `maxDoors`. -/
theorem chooseDoorOpenings_picks_distinct_to_cap (fuel : ℕ) (walls : List Wall)
    (hallwayGroups : List HallGroup) (options : Options) (s : ℕ)
    (hne : doorCandidatesFor walls options ≠ [])
    (hdc : options.doorCount ≠ 0)
    (hfill : (doorPicksFor fuel walls hallwayGroups options s).1.length =
      maxDoorsFor walls hallwayGroups options) :
    (((chooseDoorOpenings fuel walls hallwayGroups options s).1).map
      (fun o => o.wallKey)).Nodup ∧
    (∀ o ∈ (chooseDoorOpenings fuel walls hallwayGroups options s).1,
      ∃ w ∈ doorCandidatesFor walls options, o.wallKey = w.edge) ∧
    ((chooseDoorOpenings fuel walls hallwayGroups options s).1).length =
      Min.min (Max.max (options.doorCount * 2) hallwayGroups.length)
        (doorCandidatesFor walls options).length := by
  obtain ⟨hmap, hnodup, hle, hall⟩ :=
    doorPicksFor_inv fuel walls hallwayGroups options s hne
  have hcond : ¬((doorCandidatesFor walls options).length = 0 ∨
      options.doorCount = 0) := by
    push_neg
    refine ⟨fun h => hne (List.length_eq_zero.mp h), hdc⟩
  have hopen : (chooseDoorOpenings fuel walls hallwayGroups options s).1 =
      (mapRng (fun (wall : Wall) s =>
        let ow := doorOffsetWindow (edgeLength wall.edge) options.doorWidth s
        (({ wallKey := wall.edge, hallwayId := wall.hallwayId, type := .door,
            startO := ow.1, endO := ow.2.1 } : Opening), ow.2.2))
        (doorPicksFor fuel walls hallwayGroups options s).1
        (doorPicksFor fuel walls hallwayGroups options s).2.2).1 := by
    unfold chooseDoorOpenings
    rw [if_neg hcond]
  have hmapwk : ((chooseDoorOpenings fuel walls hallwayGroups options s).1).map
      (fun o => o.wallKey) =
      ((doorPicksFor fuel walls hallwayGroups options s).1).map (fun w => w.edge) := by
    rw [hopen]
    exact mapRng_map
      (fun (wall : Wall) s =>
        let ow := doorOffsetWindow (edgeLength wall.edge) options.doorWidth s
        (({ wallKey := wall.edge, hallwayId := wall.hallwayId, type := .door,
            startO := ow.1, endO := ow.2.1 } : Opening), ow.2.2))
      (fun o => o.wallKey) (fun w => w.edge) (fun wall s => rfl) _ _
  refine ⟨?_, ?_, ?_⟩
  · rw [hmapwk, hmap]
    exact hnodup
  · intro o ho
    have hk : o.wallKey ∈
        ((chooseDoorOpenings fuel walls hallwayGroups options s).1).map
          (fun o => o.wallKey) := List.mem_map_of_mem _ ho
    rw [hmapwk] at hk
    obtain ⟨w, hwmem, hwe⟩ := List.mem_map.1 hk
    exact ⟨w, hall w hwmem, hwe.symm⟩
  · rw [hopen, mapRng_length, hfill]
    rfl

/-- Three hallway walls, each long enough to host a door, one per hallway
group. -/
def c9Walls : List Wall :=
  [ { edge := { x1 := 0, y1 := 0, x2 := 4, y2 := 0 }, hallwayId := some 1 },
    { edge := { x1 := 0, y1 := 2, x2 := 4, y2 := 2 }, hallwayId := some 2 },
    { edge := { x1 := 0, y1 := 4, x2 := 4, y2 := 4 }, hallwayId := some 3 } ]

/-- Three hallway groups feeding the one-pick-per-group seeding round. -/
def c9Groups : List HallGroup :=
  [ { id := 1, shape := .L, cells := [(0, 0)] },
    { id := 2, shape := .L, cells := [(0, 2)] },
    { id := 3, shape := .L, cells := [(0, 4)] } ]

/-- Selector options with a single requested door. -/
def c9Options : Options :=
  { width := 36
    height := 24
    hallwayCount := 3
    doorCount := 1
    roomShapeStyle := 0
    doorWidth := 1.2
    windowWidth := 1.4
    maxWindowCount := 2
    seed := 1 }

/-- C9 counterexample: at three one-wall hallway groups with `doorCount = 1`,
the selector returns three door openings, not
`min(2 × doorCount, candidateCount) = 2` as claimed — the code's cap is
`min(max(2 × doorCount, hallwayGroupCount), candidateCount)`, and the
seeding round alone reaches it. -/
theorem chooseDoorOpenings_count_cex :
    ((chooseDoorOpenings 100 c9Walls c9Groups c9Options 1).1).length ≠
      Min.min (2 * c9Options.doorCount)
        (doorCandidatesFor c9Walls c9Options).length := by
  with_unfolding_all decide

/-- Witness for the corrected C9 theorem at the three-hallway-group input:
the fill loop completes and the selector hands back three distinct candidate
walls, `min(max(2, 3), 3) = 3`. -/
theorem chooseDoorOpenings_picks_distinct_to_cap_witness :
    doorCandidatesFor c9Walls c9Options ≠ [] ∧ c9Options.doorCount ≠ 0 ∧
    ((((chooseDoorOpenings 100 c9Walls c9Groups c9Options 1).1).map
      (fun o => o.wallKey)).Nodup ∧
    (∀ o ∈ (chooseDoorOpenings 100 c9Walls c9Groups c9Options 1).1,
      ∃ w ∈ doorCandidatesFor c9Walls c9Options, o.wallKey = w.edge) ∧
    ((chooseDoorOpenings 100 c9Walls c9Groups c9Options 1).1).length =
      Min.min (Max.max (c9Options.doorCount * 2) c9Groups.length)
        (doorCandidatesFor c9Walls c9Options).length) :=
  ⟨by with_unfolding_all decide, by decide,
    chooseDoorOpenings_picks_distinct_to_cap 100 c9Walls c9Groups c9Options 1
      (by with_unfolding_all decide) (by decide) (by with_unfolding_all decide)⟩

/-! ## C5: compiled wall segments are short-sliver-free and axis-aligned -/

theorem normalizeEdge_horiz (x1 c x2 : ℤ) :
    (normalizeEdge x1 c x2 c).y1 = (normalizeEdge x1 c x2 c).y2 := by
  unfold normalizeEdge
  split <;> rfl

theorem normalizeEdge_vert (c y1 y2 : ℤ) :
    (normalizeEdge c y1 c y2).x1 = (normalizeEdge c y1 c y2).x2 := by
  unfold normalizeEdge
  split <;> rfl

theorem foldl_append_mem (f : α → List β) :
    ∀ (l : List α) (init : List β) (x : β),
      x ∈ l.foldl (fun acc a => acc ++ f a) init →
      x ∈ init ∨ ∃ a ∈ l, x ∈ f a := by
  intro l
  induction l with
  | nil =>
    intro init x hx
    exact Or.inl hx
  | cons a rest ih =>
    intro init x hx
    rw [List.foldl_cons] at hx
    rcases ih _ x hx with hx | ⟨b, hb, hxb⟩
    · rcases List.mem_append.1 hx with h | h
      · exact Or.inl h
      · exact Or.inr ⟨a, List.mem_cons_self a rest, h⟩
    · exact Or.inr ⟨b, List.mem_cons_of_mem a hb, hxb⟩

theorem mergeCollinearWalls_axis (rawWalls : List Wall) :
    ∀ w ∈ mergeCollinearWalls rawWalls,
      w.edge.x1 = w.edge.x2 ∨ w.edge.y1 = w.edge.y2 := by
  intro w hw
  unfold mergeCollinearWalls at hw
  dsimp only at hw
  obtain ⟨entry, hmem, rfl⟩ := List.mem_map.1 hw
  dsimp only
  split
  · right
    exact normalizeEdge_horiz _ _ _
  · left
    exact normalizeEdge_vert _ _ _

theorem mergeCollinearWallsWithRoomId_axis (rawWalls : List Wall) :
    ∀ w ∈ mergeCollinearWallsWithRoomId rawWalls,
      w.edge.x1 = w.edge.x2 ∨ w.edge.y1 = w.edge.y2 := by
  intro w hw
  unfold mergeCollinearWallsWithRoomId at hw
  dsimp only at hw
  rcases foldl_append_mem
      (fun (entry : Option ℕ × List Wall) =>
        (mergeCollinearWalls entry.2).map
          (fun wall => { edge := wall.edge, roomId := entry.1 }))
      _ [] w hw with h | ⟨entry, hentry, hmem⟩
  · cases h
  · obtain ⟨w0, hw0, rfl⟩ := List.mem_map.1 hmem
    exact mergeCollinearWalls_axis _ w0 hw0

theorem edgeLength_nonneg (e : Edge) : 0 ≤ edgeLength e := by
  unfold edgeLength
  split
  · positivity
  · split
    · positivity
    · exact le_refl 0

theorem sortedOpeningsFor_zero (openings : List Opening) :
    sortedOpeningsFor 0 openings = [] := by
  unfold sortedOpeningsFor
  rw [List.filter_eq_nil_iff]
  intro o ho
  obtain ⟨o0, hmem, rfl⟩ := List.mem_map.1 ho
  have h1 : Max.max (0 : ℚ) (Min.min 0 o0.startO) = 0 := max_eq_left (min_le_left 0 _)
  have h2 : Max.max (0 : ℚ) (Min.min 0 o0.endO) = 0 := max_eq_left (min_le_left 0 _)
  simp only [decide_eq_true_eq, not_lt]
  rw [h1, h2]

theorem gapSegments_zero : gapSegments 0 [] = [] := by
  unfold gapSegments
  simp

/-- C5's per-segment property: axis-aligned, and its Euclidean length — for an
axis-aligned segment the absolute coordinate difference `|Δx| + |Δy|` with one
summand zero — above 0.08. -/
def segValid (seg : Seg) : Prop :=
  (seg.x1 = seg.x2 ∨ seg.y1 = seg.y2) ∧
    0.08 < |seg.x2 - seg.x1| + |seg.y2 - seg.y1|

theorem createWallSegmentsFromOpenings_valid (wall : Wall)
    (openings : List Opening)
    (haxis : wall.edge.x1 = wall.edge.x2 ∨ wall.edge.y1 = wall.edge.y2) :
    ∀ seg ∈ createWallSegmentsFromOpenings wall openings, segValid seg := by
  intro seg hseg
  unfold createWallSegmentsFromOpenings at hseg
  dsimp only at hseg
  by_cases hlen : edgeLength wall.edge = 0
  · rw [hlen, sortedOpeningsFor_zero, gapSegments_zero] at hseg
    simp at hseg
  · obtain ⟨ab, habmem, rfl⟩ := List.mem_map.1 hseg
    have hab : 0.08 < ab.2 - ab.1 := by
      have h := List.mem_filter.1 habmem
      simpa using h.2
    have hpos : 0 < edgeLength wall.edge :=
      lt_of_le_of_ne (edgeLength_nonneg _) (Ne.symm hlen)
    rw [if_neg hlen]
    rcases haxis with hx | hy
    · have hLy : edgeLength wall.edge = ((wall.edge.y2 - wall.edge.y1).natAbs : ℚ) := by
        unfold edgeLength
        rw [if_pos hx]
      have hdy : |(wall.edge.y2 : ℚ) - (wall.edge.y1 : ℚ)| = edgeLength wall.edge := by
        rw [hLy, Int.cast_natAbs]
        push_cast
        ring_nf
      have hdx : (wall.edge.x2 : ℚ) - (wall.edge.x1 : ℚ) = 0 := by
        rw [hx]
        ring
      refine ⟨Or.inl ?_, ?_⟩
      · dsimp only
        rw [hdx]
        ring
      · dsimp only
        have e1 : ((wall.edge.x1 : ℚ) +
              ((wall.edge.x2 : ℚ) - (wall.edge.x1 : ℚ)) * ab.2 * (1 / edgeLength wall.edge)) -
              ((wall.edge.x1 : ℚ) +
              ((wall.edge.x2 : ℚ) - (wall.edge.x1 : ℚ)) * ab.1 * (1 / edgeLength wall.edge)) = 0 := by
          rw [hdx]
          ring
        have e2 : ((wall.edge.y1 : ℚ) +
              ((wall.edge.y2 : ℚ) - (wall.edge.y1 : ℚ)) * ab.2 * (1 / edgeLength wall.edge)) -
              ((wall.edge.y1 : ℚ) +
              ((wall.edge.y2 : ℚ) - (wall.edge.y1 : ℚ)) * ab.1 * (1 / edgeLength wall.edge)) =
              ((wall.edge.y2 : ℚ) - (wall.edge.y1 : ℚ)) * (ab.2 - ab.1) / edgeLength wall.edge := by
          ring
        rw [e1, e2, abs_div, abs_mul, hdy, abs_of_pos hpos,
          abs_of_pos (show (0 : ℚ) < ab.2 - ab.1 by linarith)]
        rw [abs_zero]
        rw [mul_comm, mul_div_assoc, div_self hlen, mul_one]
        linarith
    · by_cases hx : wall.edge.x1 = wall.edge.x2
      · exfalso
        apply hlen
        unfold edgeLength
        rw [if_pos hx, hy]
        simp
      · have hLx : edgeLength wall.edge = ((wall.edge.x2 - wall.edge.x1).natAbs : ℚ) := by
          unfold edgeLength
          rw [if_neg hx, if_pos hy]
        have hdx : |(wall.edge.x2 : ℚ) - (wall.edge.x1 : ℚ)| = edgeLength wall.edge := by
          rw [hLx, Int.cast_natAbs]
          push_cast
          ring_nf
        have hdy : (wall.edge.y2 : ℚ) - (wall.edge.y1 : ℚ) = 0 := by
          rw [hy]
          ring
        refine ⟨Or.inr ?_, ?_⟩
        · dsimp only
          rw [hdy]
          ring
        · dsimp only
          have e1 : ((wall.edge.y1 : ℚ) +
                ((wall.edge.y2 : ℚ) - (wall.edge.y1 : ℚ)) * ab.2 * (1 / edgeLength wall.edge)) -
                ((wall.edge.y1 : ℚ) +
                ((wall.edge.y2 : ℚ) - (wall.edge.y1 : ℚ)) * ab.1 * (1 / edgeLength wall.edge)) = 0 := by
            rw [hdy]
            ring
          have e2 : ((wall.edge.x1 : ℚ) +
                ((wall.edge.x2 : ℚ) - (wall.edge.x1 : ℚ)) * ab.2 * (1 / edgeLength wall.edge)) -
                ((wall.edge.x1 : ℚ) +
                ((wall.edge.x2 : ℚ) - (wall.edge.x1 : ℚ)) * ab.1 * (1 / edgeLength wall.edge)) =
                ((wall.edge.x2 : ℚ) - (wall.edge.x1 : ℚ)) * (ab.2 - ab.1) / edgeLength wall.edge := by
            ring
          rw [e1, e2, abs_div, abs_mul, hdx, abs_of_pos hpos,
            abs_of_pos (show (0 : ℚ) < ab.2 - ab.1 by linarith)]
          rw [abs_zero]
          rw [mul_comm, mul_div_assoc, div_self hlen, mul_one]
          linarith

theorem compiledScan_fst_mem (owb : List (Edge × List Opening)) :
    ∀ (ws : List Wall) (acc : List Seg × List Seg) (x : Seg),
      x ∈ (ws.foldl
        (fun (acc : List Seg × List Seg) wall =>
          let openings := (owb.lookup wall.edge).getD []
          let walls := acc.1 ++ createWallSegmentsFromOpenings wall openings
          let glyphs :=
            openings.foldl
              (fun glyphs opening =>
                match createOpeningGlyph wall.edge opening with
                | some glyph => glyphs ++ [glyph]
                | none => glyphs)
              acc.2
          (walls, glyphs)) acc).1 →
      x ∈ acc.1 ∨ ∃ w ∈ ws,
        x ∈ createWallSegmentsFromOpenings w ((owb.lookup w.edge).getD []) := by
  intro ws
  induction ws with
  | nil =>
    intro acc x hx
    exact Or.inl hx
  | cons w rest ih =>
    intro acc x hx
    rw [List.foldl_cons] at hx
    rcases ih _ x hx with hx | ⟨w', hw', hx'⟩
    · have hx2 : x ∈ acc.1 ++
          createWallSegmentsFromOpenings w ((owb.lookup w.edge).getD []) := hx
      rcases List.mem_append.1 hx2 with h | h
      · exact Or.inl h
      · exact Or.inr ⟨w, List.mem_cons_self w rest, h⟩
    · exact Or.inr ⟨w', List.mem_cons_of_mem w hw', hx'⟩

theorem attemptCompiled_fst_mem (picker : Picker) (fuel : ℕ) (options : Options)
    (bounds : Bounds) (seed : ℤ) :
    ∀ x ∈ (attemptCompiled picker fuel options bounds seed).1,
      ∃ w ∈ attemptAllWalls picker fuel options bounds seed,
        x ∈ createWallSegmentsFromOpenings w
          (((attemptOpeningsByWall picker fuel options bounds seed).lookup
            w.edge).getD []) := by
  intro x hx
  unfold attemptCompiled at hx
  rcases compiledScan_fst_mem (attemptOpeningsByWall picker fuel options bounds seed)
      (attemptAllWalls picker fuel options bounds seed) ([], []) x hx with h | h
  · cases h
  · exact h

theorem attemptHallwayWalls_axis (options : Options) (bounds : Bounds) (seed : ℤ) :
    ∀ w ∈ attemptHallwayWalls options bounds seed,
      w.edge.x1 = w.edge.x2 ∨ w.edge.y1 = w.edge.y2 := by
  intro w hw
  unfold attemptHallwayWalls at hw
  dsimp only at hw
  obtain ⟨w0, hw0, rfl⟩ := List.mem_map.1 hw
  unfold buildHallwayWalls at hw0
  dsimp only at hw0
  exact mergeCollinearWalls_axis _ w0 hw0

theorem generateRoomsFromDoors_roomWalls_axis (p : Picker) (dO : List Opening)
    (hW : List Wall) (hG : HallGrid) (hC : List Cell) (b : Bounds) (s : ℕ)
    (sc sh : ℚ) :
    ∀ w ∈ (generateRoomsFromDoors p dO hW hG hC b s sc sh).1.roomWalls,
      w.edge.x1 = w.edge.x2 ∨ w.edge.y1 = w.edge.y2 := by
  intro w hw
  unfold generateRoomsFromDoors at hw
  dsimp only at hw
  unfold buildRoomPerimeterWallsFromCells at hw
  dsimp only at hw
  exact mergeCollinearWallsWithRoomId_axis _ w hw

theorem attemptRoomWalls_axis (picker : Picker) (fuel : ℕ) (options : Options)
    (bounds : Bounds) (seed : ℤ) :
    ∀ w ∈ (attemptAdaptive picker fuel options bounds seed).roomWalls,
      w.edge.x1 = w.edge.x2 ∨ w.edge.y1 = w.edge.y2 := by
  unfold attemptAdaptive
  refine generateRoomsWithAdaptiveScale_pred picker fuel _
    (fun c => ∀ w ∈ c.roomWalls, w.edge.x1 = w.edge.x2 ∨ w.edge.y1 = w.edge.y2)
    ?_ ?_
  · intro i w hw
    have hrw : (adaptiveCandidate picker fuel (attemptArgs fuel options bounds seed) i).roomWalls =
        (generateRoomsFromDoors picker
          (attemptArgs fuel options bounds seed).initialDoorOpenings
          (attemptArgs fuel options bounds seed).hallwayWalls
          (attemptArgs fuel options bounds seed).hallwayGrid
          (attemptArgs fuel options bounds seed).hallwayCells
          (attemptArgs fuel options bounds seed).bounds
          (createRngInit ((attemptArgs fuel options bounds seed).attemptSeed +
            ((i : ℤ) + 1) * 3571))
          (Max.max 1 ((scaleCandidates
            (attemptArgs fuel options bounds seed).baseRoomSizeScale).getD i 0))
          (attemptArgs fuel options bounds seed).roomShapeStyle).1.roomWalls := by
      unfold adaptiveCandidate
      rfl
    rw [hrw] at hw
    exact generateRoomsFromDoors_roomWalls_axis _ _ _ _ _ _ _ _ _ w hw
  · intro w hw
    cases hw

theorem attemptAllWalls_axis (picker : Picker) (fuel : ℕ) (options : Options)
    (bounds : Bounds) (seed : ℤ) :
    ∀ w ∈ attemptAllWalls picker fuel options bounds seed,
      w.edge.x1 = w.edge.x2 ∨ w.edge.y1 = w.edge.y2 := by
  intro w hw
  unfold attemptAllWalls at hw
  rcases List.mem_append.1 hw with h | h
  · exact attemptHallwayWalls_axis options bounds seed w h
  · exact attemptRoomWalls_axis picker fuel options bounds seed w h

theorem generatePlanAttempt_walls_valid (picker : Picker) (fuel : ℕ)
    (options : Options) (bounds : Bounds) (seed : ℤ) :
    ∀ seg ∈ (generatePlanAttempt picker fuel options bounds seed).walls,
      segValid seg := by
  intro seg hseg
  have hw : (generatePlanAttempt picker fuel options bounds seed).walls =
      (attemptCompiled picker fuel options bounds seed).1 := by
    unfold generatePlanAttempt
    rfl
  rw [hw] at hseg
  obtain ⟨w, hwmem, hwseg⟩ :=
    attemptCompiled_fst_mem picker fuel options bounds seed seg hseg
  exact createWallSegmentsFromOpenings_valid w _
    (attemptAllWalls_axis picker fuel options bounds seed w hwmem) seg hwseg

/-- What C5 asserts about a run's result. -/
def wallsValid : Except GenError Plan → Prop
  | .ok plan => ∀ seg ∈ plan.walls, segValid seg
  | .error _ => True

/-- C5: every element of a returned plan's walls array is axis-aligned
(`x1 = x2` or `y1 = y2`) and its Euclidean length — the absolute coordinate
difference of an axis-aligned segment — exceeds 0.08 units: the compile step
drops any sliver of at most 0.08, and interpolation along an axis-aligned
wall scales offsets one-to-one into coordinates. -/
theorem generateFloorPlan_walls_valid (picker : Picker) (fuel : ℕ)
    (cfg : Config) : wallsValid (generateFloorPlan picker fuel cfg) := by
  cases h : generateFloorPlan picker fuel cfg with
  | error e => trivial
  | ok plan =>
    obtain ⟨a, hPa, _, _, hwalls, _⟩ :=
      generateFloorPlan_ok_attempt picker fuel cfg
        (fun a => ∀ seg ∈ a.walls, segValid seg)
        (fun seed => generatePlanAttempt_walls_valid picker fuel _ _ seed)
        plan h
    show ∀ seg ∈ plan.walls, segValid seg
    rw [hwalls]
    exact hPa

/-! ## C8: the adaptive best-candidate rule -/

/-- The claim's best-candidate rule read literally: connected-door count
descending, with exterior-exit satisfaction only as a tie-break between equal
door counts. -/
def claimedBestCandidateUpdate (candidate : Candidate) :
    Option Candidate → Option Candidate
  | none => some candidate
  | some b =>
    if candidate.connectedDoors.length > b.connectedDoors.length ∨
        (candidate.connectedDoors.length = b.connectedDoors.length ∧
          candidate.exteriorRoomExits.length ≥ 2 ∧ b.exteriorRoomExits.length < 2) then
      some candidate
    else some b

/-- The corrected flow of `generateRoomsWithAdaptiveScale` in one expression:
produce the four scale candidates in order, return the first that hits the
exact door target with at least two exterior exits, otherwise keep the
running best, replaced whenever a later candidate has strictly more
connected doors or is the first to reach two exterior exits (no equal-door
tie-break). -/
def adaptiveResultSpec (picker : Picker) (fuel : ℕ) (args : AdaptiveArgs) :
    Candidate :=
  let cands := [0, 1, 2, 3].map (adaptiveCandidate picker fuel args)
  match cands.find? (fun c =>
      decide (c.connectedDoors.length = args.options.doorCount ∧
        c.exteriorRoomExits.length ≥ 2)) with
  | some c => c
  | none =>
    (cands.foldl
      (fun best cand =>
        match best with
        | none => some cand
        | some b =>
          if cand.connectedDoors.length > b.connectedDoors.length ∨
              (cand.exteriorRoomExits.length ≥ 2 ∧ b.exteriorRoomExits.length < 2) then
            some cand
          else some b)
      none).getD
      { rooms := [], roomWalls := [], connectedDoors := [], exteriorRoomExits := [] }

theorem adaptiveScan_eq_spec (picker : Picker) (fuel : ℕ) (args : AdaptiveArgs) :
    ∀ (l : List ℕ) (best : Option Candidate),
      adaptiveScan picker fuel args l best =
        match (l.map (adaptiveCandidate picker fuel args)).find? (fun c =>
            decide (c.connectedDoors.length = args.options.doorCount ∧
              c.exteriorRoomExits.length ≥ 2)) with
        | some c => some c
        | none =>
          (l.map (adaptiveCandidate picker fuel args)).foldl
            (fun best cand =>
              match best with
              | none => some cand
              | some b =>
                if cand.connectedDoors.length > b.connectedDoors.length ∨
                    (cand.exteriorRoomExits.length ≥ 2 ∧
                      b.exteriorRoomExits.length < 2) then
                  some cand
                else some b)
            best := by
  intro l
  induction l with
  | nil =>
    intro best
    rfl
  | cons i rest ih =>
    intro best
    rw [adaptiveScan]
    by_cases h : (adaptiveCandidate picker fuel args i).connectedDoors.length =
        args.options.doorCount ∧
        (adaptiveCandidate picker fuel args i).exteriorRoomExits.length ≥ 2
    · rw [if_pos h, List.map_cons, List.find?_cons_of_pos _ (by simpa using h)]
    · rw [if_neg h, ih, List.map_cons,
        List.find?_cons_of_neg _ (by simpa using h), List.foldl_cons]
      cases hfind : (rest.map (adaptiveCandidate picker fuel args)).find? (fun c =>
          decide (c.connectedDoors.length = args.options.doorCount ∧
            c.exteriorRoomExits.length ≥ 2)) with
      | some c => rfl
      | none => congr 1

/-- C8 (corrected): the adaptive room generator tries up to four scale
candidates in order and returns the first whose connected-door count equals
the target with at least two exterior exits; short of that it keeps a best
candidate, replaced when a later candidate has strictly more connected doors
or is the first to reach two exterior exits — an or-rule, not the claimed
door-count ordering with exterior exits as a tie-break. -/
theorem generateRoomsWithAdaptiveScale_eq_spec (picker : Picker) (fuel : ℕ)
    (args : AdaptiveArgs) :
    generateRoomsWithAdaptiveScale picker fuel args =
      adaptiveResultSpec picker fuel args := by
  unfold generateRoomsWithAdaptiveScale adaptiveResultSpec
  rw [adaptiveScan_eq_spec]
  dsimp only
  cases hfind : (([0, 1, 2, 3].map (adaptiveCandidate picker fuel args)).find?
      (fun c => decide (c.connectedDoors.length = args.options.doorCount ∧
        c.exteriorRoomExits.length ≥ 2))) with
  | some c => rfl
  | none => rfl

/-- A door-sized opening populating the C8 counterexample candidates. -/
def c8Opening : Opening :=
  { wallKey := { x1 := 0, y1 := 0, x2 := 4, y2 := 0 }, type := .door,
    startO := 0.1, endO := 1.3 }

/-- Three connected doors, no exterior exit. -/
def c8MoreDoors : Candidate :=
  { rooms := [], roomWalls := [],
    connectedDoors := [c8Opening, c8Opening, c8Opening], exteriorRoomExits := [] }

/-- Two connected doors, two exterior exits. -/
def c8TwoExits : Candidate :=
  { rooms := [], roomWalls := [],
    connectedDoors := [c8Opening, c8Opening],
    exteriorRoomExits := [c8Opening, c8Opening] }

/-- C8 counterexample: against a best candidate holding three doors and no
exit, a later candidate with only two doors but two exterior exits replaces
it under the code's rule, while the claimed door-count-descending order with
exit tie-break would keep the three-door best. -/
theorem bestCandidateUpdate_not_lexicographic :
    bestCandidateUpdate c8TwoExits (some c8MoreDoors) ≠
      claimedBestCandidateUpdate c8TwoExits (some c8MoreDoors) := by
  with_unfolding_all decide

/-! ## Shared room-cell accounting for C4 and C7 -/

theorem insertUniq_not_mem [DecidableEq α] {l : List α} {a : α} (h : a ∉ l) :
    insertUniq l a = l ++ [a] := if_neg h

theorem foldl_add_map (f : α → ℤ) :
    ∀ (l : List α) (n : ℤ),
      l.foldl (fun acc c => acc + f c) n = n + (l.map f).sum := by
  intro l
  induction l with
  | nil =>
    intro n
    simp
  | cons a rest ih =>
    intro n
    rw [List.foldl_cons, ih, List.map_cons, List.sum_cons]
    ring

theorem sum_map_add (f g : α → ℤ) :
    ∀ l : List α,
      (l.map (fun a => f a + g a)).sum = (l.map f).sum + (l.map g).sum := by
  intro l
  induction l with
  | nil => simp
  | cons a rest ih =>
    simp only [List.map_cons, List.sum_cons, ih]
    ring

theorem sum_map_sub (f g : α → ℤ) :
    ∀ l : List α,
      (l.map (fun a => f a - g a)).sum = (l.map f).sum - (l.map g).sum := by
  intro l
  induction l with
  | nil => simp
  | cons a rest ih =>
    simp only [List.map_cons, List.sum_cons, ih]
    ring

theorem sum_indicator_nodup [DecidableEq α] (n : α) :
    ∀ (l : List α), l.Nodup →
      (l.map (fun d => if d = n then (1 : ℤ) else 0)).sum =
        if n ∈ l then 1 else 0 := by
  intro l
  induction l with
  | nil =>
    intro _
    simp
  | cons a rest ih =>
    intro hnd
    obtain ⟨hna, hrest⟩ := List.nodup_cons.1 hnd
    rw [List.map_cons, List.sum_cons, ih hrest]
    by_cases ha : a = n
    · subst ha
      rw [if_pos rfl, if_neg hna, if_pos (List.mem_cons_self a rest)]
      omega
    · rw [if_neg ha]
      by_cases hn : n ∈ rest
      · rw [if_pos hn, if_pos (List.mem_cons_of_mem a hn)]
        omega
      · rw [if_neg hn, if_neg (by simp [ha, hn, Ne.symm])]
        simp

/-- The four-way orthogonal adjacency indicator between two cells. -/
def adjCount (c d : Cell) : ℕ :=
  (if ((d.1, d.2 - 1) : Cell) = c then 1 else 0) +
  (if ((d.1 + 1, d.2) : Cell) = c then 1 else 0) +
  (if ((d.1, d.2 + 1) : Cell) = c then 1 else 0) +
  (if ((d.1 - 1, d.2) : Cell) = c then 1 else 0)

theorem mem_append_indicator (S : List Cell) (c n : Cell) (hc : c ∉ S) :
    (if n ∈ S ++ [c] then (1 : ℕ) else 0) =
      (if n ∈ S then 1 else 0) + (if n = c then 1 else 0) := by
  by_cases hn : n ∈ S
  · have hnc : ¬ n = c := fun h => hc (h ▸ hn)
    rw [if_pos (List.mem_append_left _ hn), if_pos hn, if_neg hnc]
  · by_cases hnc : n = c
    · rw [if_pos (List.mem_append_right _ (by simp [hnc])), if_neg hn, if_pos hnc]
    · rw [if_neg (by simp [hn, hnc]), if_neg hn, if_neg hnc]

theorem orth_append (S : List Cell) (c d : Cell) (hc : c ∉ S) :
    countOrthogonalRoomNeighbors (S ++ [c]) d.1 d.2 =
      countOrthogonalRoomNeighbors S d.1 d.2 + adjCount c d := by
  unfold countOrthogonalRoomNeighbors adjCount
  rw [mem_append_indicator S c _ hc, mem_append_indicator S c _ hc,
    mem_append_indicator S c _ hc, mem_append_indicator S c _ hc]
  ring

theorem adjCount_self (c : Cell) : adjCount c c = 0 := by
  obtain ⟨cx, cy⟩ := c
  unfold adjCount
  simp only [Prod.mk.injEq]
  rw [if_neg (by omega), if_neg (by omega), if_neg (by omega), if_neg (by omega)]

theorem sum_adjCount (c : Cell) :
    ∀ (S : List Cell), S.Nodup →
      (S.map (fun d => (adjCount c d : ℤ))).sum =
        (countOrthogonalRoomNeighbors S c.1 c.2 : ℤ) := by
  obtain ⟨cx, cy⟩ := c
  have hterm : ∀ d : Cell, ((adjCount (cx, cy) d : ℕ) : ℤ) =
      (if d = ((cx, cy + 1) : Cell) then (1 : ℤ) else 0) +
      ((if d = ((cx - 1, cy) : Cell) then (1 : ℤ) else 0) +
      ((if d = ((cx, cy - 1) : Cell) then (1 : ℤ) else 0) +
      (if d = ((cx + 1, cy) : Cell) then (1 : ℤ) else 0))) := by
    intro d
    obtain ⟨dx, dy⟩ := d
    unfold adjCount
    simp only [Prod.mk.injEq]
    have e1 : (dx = cx ∧ dy - 1 = cy) ↔ (dx = cx ∧ dy = cy + 1) := by omega
    have e2 : (dx + 1 = cx ∧ dy = cy) ↔ (dx = cx - 1 ∧ dy = cy) := by omega
    have e3 : (dx = cx ∧ dy + 1 = cy) ↔ (dx = cx ∧ dy = cy - 1) := by omega
    have e4 : (dx - 1 = cx ∧ dy = cy) ↔ (dx = cx + 1 ∧ dy = cy) := by omega
    rw [if_congr e1 rfl rfl, if_congr e2 rfl rfl, if_congr e3 rfl rfl,
      if_congr e4 rfl rfl]
    push_cast
    ring
  intro S hS
  simp only [hterm]
  rw [sum_map_add, sum_map_add, sum_map_add,
    sum_indicator_nodup _ S hS, sum_indicator_nodup _ S hS,
    sum_indicator_nodup _ S hS, sum_indicator_nodup _ S hS]
  unfold countOrthogonalRoomNeighbors
  push_cast
  ring

theorem computeRoomPerimeterFromCells_sum (S : List Cell) (T : List Cell) :
    T.foldl (fun acc c => acc + (4 - (countOrthogonalRoomNeighbors S c.1 c.2 : ℤ))) 0 =
      (T.map (fun c => 4 - (countOrthogonalRoomNeighbors S c.1 c.2 : ℤ))).sum := by
  rw [foldl_add_map (fun c => 4 - (countOrthogonalRoomNeighbors S c.1 c.2 : ℤ)) T 0,
    zero_add]

/-- Claiming a fresh cell adds `4 - 2·orth` to the recomputed perimeter. -/
theorem perimeter_append (S : List Cell) (c : Cell) (hS : S.Nodup) (hc : c ∉ S) :
    computeRoomPerimeterFromCells (S ++ [c]) =
      computeRoomPerimeterFromCells S +
        (4 - (countOrthogonalRoomNeighbors S c.1 c.2 : ℤ) * 2) := by
  unfold computeRoomPerimeterFromCells
  rw [computeRoomPerimeterFromCells_sum (S ++ [c]) (S ++ [c]),
    computeRoomPerimeterFromCells_sum S S]
  rw [List.map_append, List.sum_append]
  have hmap : (S.map (fun d => 4 - (countOrthogonalRoomNeighbors (S ++ [c]) d.1 d.2 : ℤ))).sum =
      (S.map (fun d => (4 - (countOrthogonalRoomNeighbors S d.1 d.2 : ℤ)) -
        (adjCount c d : ℤ))).sum := by
    congr 1
    apply List.map_congr_left
    intro d hd
    rw [orth_append S c d hc]
    push_cast
    ring
  rw [hmap, sum_map_sub (fun d => 4 - (countOrthogonalRoomNeighbors S d.1 d.2 : ℤ))
    (fun d => (adjCount c d : ℤ)) S, sum_adjCount c S hS]
  have htail : ((([c] : List Cell)).map
      (fun d => 4 - (countOrthogonalRoomNeighbors (S ++ [c]) d.1 d.2 : ℤ))).sum =
      4 - (countOrthogonalRoomNeighbors S c.1 c.2 : ℤ) := by
    simp only [List.map_cons, List.map_nil, List.sum_cons, List.sum_nil, add_zero]
    rw [orth_append S c c hc, adjCount_self]
    push_cast
    ring
  rw [htail]
  ring

theorem foldl_append_singleton_mem_iff (f : α → β) :
    ∀ (l : List α) (init : List β) (x : β),
      x ∈ l.foldl (fun acc a => acc ++ [f a]) init ↔
        x ∈ init ∨ ∃ a ∈ l, x = f a := by
  intro l
  induction l with
  | nil =>
    intro init x
    simp
  | cons a rest ih =>
    intro init x
    rw [List.foldl_cons, ih]
    simp only [List.mem_append, List.mem_cons, List.not_mem_nil, or_false]
    constructor
    · rintro ((h | rfl) | ⟨d, hd, rfl⟩)
      · exact Or.inl h
      · exact Or.inr ⟨a, Or.inl rfl, rfl⟩
      · exact Or.inr ⟨d, Or.inr hd, rfl⟩
    · rintro (h | ⟨d, (rfl | hd), rfl⟩)
      · exact Or.inl (Or.inl h)
      · exact Or.inl (Or.inr rfl)
      · exact Or.inr ⟨d, hd, rfl⟩

theorem rect_fold_mem (w : ℕ) (cellf : ℕ → ℕ → Cell) :
    ∀ (l : List ℕ) (init : List Cell) (x : Cell),
      x ∈ l.foldl
        (fun acc dy =>
          (List.range w).foldl (fun acc dx => acc ++ [cellf dx dy]) acc) init ↔
        x ∈ init ∨ ∃ dy ∈ l, ∃ dx ∈ List.range w, x = cellf dx dy := by
  intro l
  induction l with
  | nil =>
    intro init x
    simp
  | cons a rest ih =>
    intro init x
    rw [List.foldl_cons, ih, foldl_append_singleton_mem_iff]
    simp only [List.mem_cons]
    constructor
    · rintro ((h | ⟨dx, hdx, rfl⟩) | ⟨dy, hdy, dx, hdx, rfl⟩)
      · exact Or.inl h
      · exact Or.inr ⟨a, Or.inl rfl, dx, hdx, rfl⟩
      · exact Or.inr ⟨dy, Or.inr hdy, dx, hdx, rfl⟩
    · rintro (h | ⟨dy, (rfl | hdy), dx, hdx, rfl⟩)
      · exact Or.inl (Or.inl h)
      · exact Or.inl (Or.inr ⟨dx, hdx, rfl⟩)
      · exact Or.inr ⟨dy, hdy, dx, hdx, rfl⟩

theorem rectCellList_mem (rect : RoomRect) (a b : ℤ) :
    ((a, b) : Cell) ∈ rectCellList rect ↔
      rect.x ≤ a ∧ a < rect.x + (rect.width.toNat : ℤ) ∧
      rect.y ≤ b ∧ b < rect.y + (rect.height.toNat : ℤ) := by
  unfold rectCellList
  rw [rect_fold_mem rect.width.toNat
    (fun dx dy => ((rect.x + (dx : ℤ), rect.y + (dy : ℤ)) : Cell))
    (List.range rect.height.toNat) [] ((a, b) : Cell)]
  simp only [List.mem_range, List.not_mem_nil, false_or, Prod.mk.injEq]
  constructor
  · rintro ⟨dy, hdy, dx, hdx, ha, hb⟩
    omega
  · rintro ⟨h1, h2, h3, h4⟩
    exact ⟨(b - rect.y).toNat, by omega, (a - rect.x).toNat, by omega, by omega, by omega⟩

theorem mem_foldl_insertUniq [DecidableEq α] :
    ∀ (l acc : List α) (x : α),
      x ∈ l.foldl insertUniq acc ↔ x ∈ acc ∨ x ∈ l := by
  intro l
  induction l with
  | nil =>
    intro acc x
    simp
  | cons a rest ih =>
    intro acc x
    rw [List.foldl_cons, ih]
    unfold insertUniq
    by_cases ha : a ∈ acc
    · rw [if_pos ha]
      constructor
      · rintro (h | h)
        · exact Or.inl h
        · exact Or.inr (List.mem_cons_of_mem a h)
      · rintro (h | h)
        · exact Or.inl h
        · rcases List.mem_cons.1 h with rfl | h
          · exact Or.inl ha
          · exact Or.inr h
    · rw [if_neg ha]
      constructor
      · rintro (h | h)
        · rcases List.mem_append.1 h with h | h
          · exact Or.inl h
          · exact Or.inr (by simpa using Or.inl (by simpa using h))
        · exact Or.inr (List.mem_cons_of_mem a h)
      · rintro (h | h)
        · exact Or.inl (List.mem_append_left _ h)
        · rcases List.mem_cons.1 h with rfl | h
          · exact Or.inl (List.mem_append_right _ (by simp))
          · exact Or.inr h

theorem nodup_foldl_insertUniq [DecidableEq α] :
    ∀ (l acc : List α), acc.Nodup → (l.foldl insertUniq acc).Nodup := by
  intro l
  induction l with
  | nil =>
    intro acc h
    exact h
  | cons a rest ih =>
    intro acc h
    rw [List.foldl_cons]
    refine ih _ ?_
    unfold insertUniq
    by_cases ha : a ∈ acc
    · rw [if_pos ha]
      exact h
    · rw [if_neg ha]
      simp [List.nodup_append, h, ha]

theorem createRoomCellKeySet_mem (rect : RoomRect) (a b : ℤ) :
    ((a, b) : Cell) ∈ createRoomCellKeySet rect ↔
      rect.x ≤ a ∧ a < rect.x + (rect.width.toNat : ℤ) ∧
      rect.y ≤ b ∧ b < rect.y + (rect.height.toNat : ℤ) := by
  unfold createRoomCellKeySet
  rw [mem_foldl_insertUniq, rectCellList_mem]
  simp

theorem createRoomCellKeySet_nodup (rect : RoomRect) :
    (createRoomCellKeySet rect).Nodup :=
  nodup_foldl_insertUniq _ _ List.nodup_nil

theorem rect_orth_ge_two (rect : RoomRect) (hw : 2 ≤ rect.width)
    (hh : 2 ≤ rect.height) :
    ∀ c ∈ createRoomCellKeySet rect,
      2 ≤ countOrthogonalRoomNeighbors (createRoomCellKeySet rect) c.1 c.2 := by
  intro c hc
  obtain ⟨a, b⟩ := c
  rw [createRoomCellKeySet_mem] at hc
  obtain ⟨h1, h2, h3, h4⟩ := hc
  show 2 ≤ countOrthogonalRoomNeighbors (createRoomCellKeySet rect) a b
  unfold countOrthogonalRoomNeighbors
  have hhoriz : 1 ≤ (if ((a + 1, b) : Cell) ∈ createRoomCellKeySet rect then 1 else 0) +
      (if ((a - 1, b) : Cell) ∈ createRoomCellKeySet rect then 1 else 0) := by
    by_cases hxa : rect.x < a
    · have hm : ((a - 1, b) : Cell) ∈ createRoomCellKeySet rect := by
        rw [createRoomCellKeySet_mem]
        omega
      rw [if_pos hm]
      omega
    · have hm : ((a + 1, b) : Cell) ∈ createRoomCellKeySet rect := by
        rw [createRoomCellKeySet_mem]
        omega
      rw [if_pos hm]
      omega
  have hvert : 1 ≤ (if ((a, b - 1) : Cell) ∈ createRoomCellKeySet rect then 1 else 0) +
      (if ((a, b + 1) : Cell) ∈ createRoomCellKeySet rect then 1 else 0) := by
    by_cases hyb : rect.y < b
    · have hm : ((a, b - 1) : Cell) ∈ createRoomCellKeySet rect := by
        rw [createRoomCellKeySet_mem]
        omega
      rw [if_pos hm]
      omega
    · have hm : ((a, b + 1) : Cell) ∈ createRoomCellKeySet rect := by
        rw [createRoomCellKeySet_mem]
        omega
      rw [if_pos hm]
      omega
  omega

theorem computeRoomPerimeterFromCells_le (S : List Cell)
    (h : ∀ c ∈ S, 2 ≤ countOrthogonalRoomNeighbors S c.1 c.2) :
    computeRoomPerimeterFromCells S ≤ 2 * S.length := by
  unfold computeRoomPerimeterFromCells
  have key : ∀ (l : List Cell), (∀ c ∈ l, 2 ≤ countOrthogonalRoomNeighbors S c.1 c.2) →
      ∀ (n : ℤ),
        l.foldl (fun acc c => acc + (4 - (countOrthogonalRoomNeighbors S c.1 c.2 : ℤ))) n ≤
          n + 2 * l.length := by
    intro l
    induction l with
    | nil =>
      intro _ n
      simp
    | cons d rest ih =>
      intro hl n
      rw [List.foldl_cons]
      have hd := hl d (List.mem_cons_self d rest)
      calc (rest.foldl (fun acc c =>
              acc + (4 - (countOrthogonalRoomNeighbors S c.1 c.2 : ℤ)))
              (n + (4 - (countOrthogonalRoomNeighbors S d.1 d.2 : ℤ)))) ≤
            (n + (4 - (countOrthogonalRoomNeighbors S d.1 d.2 : ℤ))) + 2 * rest.length :=
          ih (fun c hc => hl c (List.mem_cons_of_mem d hc)) _
        _ ≤ n + 2 * (d :: rest).length := by
          simp only [List.length_cons]
          push_cast
          omega
  exact le_trans (key S h 0) (by omega)

theorem mapSet_lookup_self :
    ∀ (m : List (Cell × ℕ)) (k : Cell) (v : ℕ), (mapSet m k v).lookup k = some v := by
  intro m
  induction m with
  | nil =>
    intro k v
    simp [mapSet, List.lookup]
  | cons e es ih =>
    intro k v
    obtain ⟨ek, ev⟩ := e
    unfold mapSet
    by_cases he : ek = k
    · rw [if_pos he]
      simp [List.lookup, he]
    · rw [if_neg he]
      have hbeq : (k == ek) = false := by
        simp only [beq_eq_false_iff_ne]
        exact fun h => he h.symm
      simp only [List.lookup, hbeq]
      exact ih k v

theorem mapSet_lookup_ne :
    ∀ (m : List (Cell × ℕ)) (k : Cell) (v : ℕ) (q : Cell), q ≠ k →
      (mapSet m k v).lookup q = m.lookup q := by
  intro m
  induction m with
  | nil =>
    intro k v q hq
    have hbeq : (q == k) = false := by
      simp only [beq_eq_false_iff_ne]
      exact hq
    simp [mapSet, List.lookup, hbeq]
  | cons e es ih =>
    intro k v q hq
    obtain ⟨ek, ev⟩ := e
    unfold mapSet
    by_cases he : ek = k
    · rw [if_pos he]
      have hbeq : (q == ek) = false := by
        simp only [beq_eq_false_iff_ne]
        intro h
        exact hq (h.trans he)
      simp only [List.lookup, hbeq]
    · rw [if_neg he]
      simp only [List.lookup]
      cases hbeq : (q == ek) with
      | true => rfl
      | false => exact ih k v q hq

theorem randomInt_ge_two (s' : ℕ) (lo hi : ℤ) (hle : ¬ hi < lo) (h2 : 2 ≤ lo) :
    2 ≤ (randomInt s' lo hi).1 :=
  le_trans h2 ((randomInt_le s' (le_of_not_lt hle)).1)

theorem roomMinFrontage_ge_two (mode : SizeMode) (doorSpan : ℤ) (scaled : ℚ) :
    2 ≤ roomMinFrontage mode doorSpan scaled := by
  unfold roomMinFrontage
  split
  · exact le_trans (by norm_num) (le_max_left _ _)
  · exact le_trans (by norm_num) (le_max_left _ _)

theorem roomMinDepth_ge_two (mode : SizeMode) (scaled : ℚ) :
    2 ≤ roomMinDepth mode scaled := by
  unfold roomMinDepth
  split
  · norm_num
  · exact le_trans (by norm_num) (le_max_left _ _)

/-- Every accepted rectangle is at least 2×2: frontage is drawn at or above
`max(4, …)`/`max(6, …)` and depth at or above `5`/`max(9, …)`. -/
theorem buildRoomFromDoor_dims (doorOpening : Opening) (hallwayWall : Wall)
    (hallwaySide : HallSide) (bounds : Bounds) (s : ℕ) (roomSizeScale : ℚ)
    (rect : RoomRect)
    (h : (buildRoomFromDoor doorOpening hallwayWall hallwaySide bounds s
      roomSizeScale).1 = some rect) :
    2 ≤ rect.width ∧ 2 ≤ rect.height := by
  unfold buildRoomFromDoor at h
  dsimp only at h
  split at h
  · simp at h
  · next hC1 =>
    split at h
    · simp at h
    · next hC2 =>
      split at h
      · -- horizontal wall: width = frontage, height = depth
        split at h
        · simp at h
        · next hC4 =>
          split at h
          · split at h
            · simp at h
            · rw [Option.some.injEq] at h
              subst h
              exact ⟨randomInt_ge_two _ _ _ hC1 (roomMinFrontage_ge_two _ _ _),
                randomInt_ge_two _ _ _ hC2 (roomMinDepth_ge_two _ _)⟩
          · split at h
            · simp at h
            · rw [Option.some.injEq] at h
              subst h
              exact ⟨randomInt_ge_two _ _ _ hC1 (roomMinFrontage_ge_two _ _ _),
                randomInt_ge_two _ _ _ hC2 (roomMinDepth_ge_two _ _)⟩
      · -- vertical wall: width = depth, height = frontage
        split at h
        · simp at h
        · next hC4 =>
          split at h
          · split at h
            · simp at h
            · rw [Option.some.injEq] at h
              subst h
              exact ⟨randomInt_ge_two _ _ _ hC2 (roomMinDepth_ge_two _ _),
                randomInt_ge_two _ _ _ hC1 (roomMinFrontage_ge_two _ _ _)⟩
          · split at h
            · simp at h
            · rw [Option.some.injEq] at h
              subst h
              exact ⟨randomInt_ge_two _ _ _ hC2 (roomMinDepth_ge_two _ _),
                randomInt_ge_two _ _ _ hC1 (roomMinFrontage_ge_two _ _ _)⟩

theorem foldl_mapSet_lookup (v : ℕ) :
    ∀ (cells : List Cell) (m : List (Cell × ℕ)) (k : Cell),
      (cells.foldl (fun m c => mapSet m c v) m).lookup k =
        if k ∈ cells then some v else m.lookup k := by
  intro cells
  induction cells with
  | nil =>
    intro m k
    simp
  | cons c rest ih =>
    intro m k
    rw [List.foldl_cons, ih]
    by_cases hk : k ∈ rest
    · rw [if_pos hk, if_pos (List.mem_cons_of_mem c hk)]
    · rw [if_neg hk]
      by_cases hkc : k = c
      · subst hkc
        rw [if_pos (List.mem_cons_self _ _), mapSet_lookup_self]
      · rw [if_neg (by simp [hkc, hk]), mapSet_lookup_ne _ _ _ _ hkc]

theorem clampNumber_nonneg (v hi : ℚ) : 0 ≤ clampNumber v 0 hi :=
  le_max_left 0 _

theorem maxPerimeterAreaRatioForRoom_ge (area : ℕ) :
    2 ≤ maxPerimeterAreaRatioForRoom area := by
  unfold maxPerimeterAreaRatioForRoom
  split
  · norm_num
  · split
    · norm_num
    · split
      · norm_num
      · norm_num

/-- C7's per-room bound: the recomputed perimeter stays within the size-tiered
ceiling plus the style allowance, scaled by the cell count. -/
def roomRatioOk (shapeStyle : ℚ) (cells : List Cell) : Prop :=
  (computeRoomPerimeterFromCells cells : ℚ) ≤
    (maxPerimeterAreaRatioForRoom cells.length + shapeStyle * 0.3) * (cells.length : ℚ)

/-- The bookkeeping invariant of one room record against the cell-ownership
map: distinct cells, every cell owned by this room in the map, the tracked
perimeter equal to the recomputed one, and the ratio bound. -/
def RoomRecInv (m : List (Cell × ℕ)) (shapeStyle : ℚ) (room : RoomRec) : Prop :=
  room.cells.Nodup ∧
  (∀ c ∈ room.cells, m.lookup c = some room.id) ∧
  room.perimeter = computeRoomPerimeterFromCells room.cells ∧
  roomRatioOk shapeStyle room.cells

/-- The plan-wide bookkeeping invariant: every record is consistent, ids are
`1..n` in order, and no owned cell is a hallway cell. -/
def RecordsInv (m : List (Cell × ℕ)) (hallwayCells : List Cell) (shapeStyle : ℚ)
    (records : List RoomRec) : Prop :=
  (∀ room ∈ records, RoomRecInv m shapeStyle room) ∧
  (∀ i : ℕ, ∀ hi : i < records.length, (records.get ⟨i, hi⟩).id = i + 1) ∧
  (∀ c v, m.lookup c = some v → c ∉ hallwayCells)

/-- The placement-phase invariant: records are consistent and the occupied
set covers the hallway and every owned cell. -/
def PlaceInv (hallwayCells : List Cell) (shapeStyle : ℚ) (st : PlaceState) : Prop :=
  RecordsInv st.roomIdByCell hallwayCells shapeStyle st.roomRecords ∧
  (∀ c ∈ hallwayCells, c ∈ st.occupiedCells) ∧
  (∀ c v, st.roomIdByCell.lookup c = some v → c ∈ st.occupiedCells)

/-- A ratio bound from nothing but `perimeter ≤ 2·area`: every tier ceiling is
at least 2 and the allowance is nonnegative. -/
theorem roomRatioOk_of_le (shapeStyle : ℚ) (hs : 0 ≤ shapeStyle)
    (cells : List Cell) (h : computeRoomPerimeterFromCells cells ≤ 2 * cells.length) :
    roomRatioOk shapeStyle cells := by
  unfold roomRatioOk
  have h2 : (computeRoomPerimeterFromCells cells : ℚ) ≤ 2 * (cells.length : ℚ) := by
    exact_mod_cast h
  refine le_trans h2 ?_
  have hb : (2 : ℚ) ≤ maxPerimeterAreaRatioForRoom cells.length + shapeStyle * 0.3 := by
    have := maxPerimeterAreaRatioForRoom_ge cells.length
    nlinarith
  have hlen : (0 : ℚ) ≤ (cells.length : ℚ) := by positivity
  nlinarith

theorem roomCellsOverlap_false (occ : List Cell) (rect : RoomRect)
    (h : roomCellsOverlap occ rect = false) :
    ∀ c ∈ rectCellList rect, c ∉ occ := by
  intro c hc hocc
  unfold roomCellsOverlap at h
  rw [List.any_eq_false] at h
  exact absurd (by simpa using hocc) (h c hc)

theorem tryRoomModes_ok (hallwayWall : Wall) (hallwaySide : HallSide)
    (bounds : Bounds) (roomSizeScale : ℚ) (occupiedCells : List Cell) :
    ∀ (attempts : List Opening) (s : ℕ) (c : RoomRect),
      (tryRoomModes hallwayWall hallwaySide bounds roomSizeScale occupiedCells
        attempts s).1 = some c →
      (2 ≤ c.width ∧ 2 ≤ c.height) ∧
        roomCellsOverlap occupiedCells c = false := by
  intro attempts
  induction attempts with
  | nil =>
    intro s c h
    simp [tryRoomModes] at h
  | cons a rest ih =>
    intro s c h
    rw [tryRoomModes] at h
    cases hbr : (buildRoomFromDoor a hallwayWall hallwaySide bounds s roomSizeScale).1 with
    | none =>
      rw [hbr] at h
      exact ih _ c h
    | some c0 =>
      rw [hbr] at h
      have h' : (if roomCellsOverlap occupiedCells c0 then
          tryRoomModes hallwayWall hallwaySide bounds roomSizeScale occupiedCells rest
            (buildRoomFromDoor a hallwayWall hallwaySide bounds s roomSizeScale).2
          else (some c0,
            (buildRoomFromDoor a hallwayWall hallwaySide bounds s roomSizeScale).2)).1 =
          some c := h
      split at h'
      · exact ih _ c h'
      · next hov =>
        rw [Option.some.injEq] at h'
        subst h'
        exact ⟨buildRoomFromDoor_dims a hallwayWall hallwaySide bounds s roomSizeScale c0 hbr,
          Bool.eq_false_iff.mpr hov⟩

theorem isCellClaimable_facts (x y : ℤ) (roomId : ℕ) (m : List (Cell × ℕ))
    (hallway : List Cell) (bounds : Bounds)
    (h : isCellClaimableByRoom x y roomId m hallway bounds = true) :
    ((x, y) : Cell) ∉ hallway ∧ m.lookup ((x, y) : Cell) = none := by
  unfold isCellClaimableByRoom at h
  split at h
  · cases h
  · split at h
    · cases h
    · next hhall =>
      split at h
      · cases h
      · next hlook =>
        exact ⟨hhall, Option.not_isSome_iff_eq_none.1 hlook⟩

theorem tryPlaceRoomForDoor_inv (wallByKey : List (Edge × Wall))
    (hallwayGrid : HallGrid) (bounds : Bounds) (roomSizeScale : ℚ)
    (dol : ℕ) (hallwayCells : List Cell) (shapeStyle : ℚ) (hs : 0 ≤ shapeStyle)
    (st : PlaceState) (opening : Opening)
    (hinv : PlaceInv hallwayCells shapeStyle st) :
    PlaceInv hallwayCells shapeStyle
      (tryPlaceRoomForDoor wallByKey hallwayGrid bounds roomSizeScale dol
        st opening).2 := by
  unfold tryPlaceRoomForDoor
  split
  · exact hinv
  · next hallwayWall hlw =>
    split
    · exact hinv
    · next hallwaySide hcs =>
      dsimp only
      split
      · exact hinv
      · next roomRect htm =>
        obtain ⟨⟨hrooms, hids, hhallfree⟩, hhallocc, hdomocc⟩ := hinv
        obtain ⟨hdims, hov⟩ := tryRoomModes_ok hallwayWall hallwaySide bounds
          roomSizeScale st.occupiedCells _ st.rng roomRect htm
        have fresh : ∀ c ∈ createRoomCellKeySet roomRect, c ∉ st.occupiedCells := by
          intro c hc
          have hrc : c ∈ rectCellList roomRect := by
            have := (mem_foldl_insertUniq (rectCellList roomRect) [] c).1 hc
            simpa using this
          exact roomCellsOverlap_false _ _ hov c hrc
        have hnotin_m : ∀ c ∈ createRoomCellKeySet roomRect,
            st.roomIdByCell.lookup c = none := by
          intro c hc
          cases hl : st.roomIdByCell.lookup c with
          | none => rfl
          | some v => exact absurd (hdomocc c v hl) (fresh c hc)
        have hnothall : ∀ c ∈ createRoomCellKeySet roomRect, c ∉ hallwayCells :=
          fun c hc hh => fresh c hc (hhallocc c hh)
        refine ⟨⟨?_, ?_, ?_⟩, ?_, ?_⟩ <;> dsimp only
        · intro room hroom
          rcases List.mem_append.1 hroom with hold | hnew
          · obtain ⟨hnd, hown, hperim, hratio⟩ := hrooms room hold
            refine ⟨hnd, ?_, hperim, hratio⟩
            intro c hc
            rw [foldl_mapSet_lookup]
            have hcn : c ∉ createRoomCellKeySet roomRect := by
              intro hcc
              have h1 := hown c hc
              rw [hnotin_m c hcc] at h1
              cases h1
            rw [if_neg hcn]
            exact hown c hc
          · obtain rfl := List.mem_singleton.1 hnew
            refine ⟨createRoomCellKeySet_nodup _, ?_, rfl, ?_⟩
            · intro c hc
              rw [foldl_mapSet_lookup, if_pos hc]
            · exact roomRatioOk_of_le shapeStyle hs _
                (computeRoomPerimeterFromCells_le _
                  (rect_orth_ge_two roomRect hdims.1 hdims.2))
        · intro i hi
          simp only [List.length_append, List.length_cons, List.length_nil] at hi
          by_cases hilt : i < st.roomRecords.length
          · rw [List.get_eq_getElem, List.getElem_append_left hilt]
            exact hids i hilt
          · have hieq : i = st.roomRecords.length := by omega
            subst hieq
            rw [List.get_eq_getElem, List.getElem_append_right (le_refl _)]
            simp
        · intro c v hl
          rw [foldl_mapSet_lookup] at hl
          split at hl
          · next hcc => exact hnothall c hcc
          · exact hhallfree c v hl
        · intro c hc
          rw [mem_foldl_insertUniq]
          exact Or.inl (hhallocc c hc)
        · intro c v hl
          rw [foldl_mapSet_lookup] at hl
          rw [mem_foldl_insertUniq]
          split at hl
          · next hcc => exact Or.inr hcc
          · exact Or.inl (hdomocc c v hl)

theorem placeInitialRooms_inv (wallByKey : List (Edge × Wall))
    (hallwayGrid : HallGrid) (bounds : Bounds) (roomSizeScale : ℚ)
    (doorOpenings : List Opening) (hallwayCells : List Cell)
    (shapeStyle : ℚ) (hs : 0 ≤ shapeStyle) (st0 : PlaceState)
    (hinv : PlaceInv hallwayCells shapeStyle st0) :
    PlaceInv hallwayCells shapeStyle
      (placeInitialRooms wallByKey hallwayGrid bounds roomSizeScale doorOpenings st0) := by
  unfold placeInitialRooms
  have key : ∀ (l : List Opening) (st : PlaceState),
      PlaceInv hallwayCells shapeStyle st →
      PlaceInv hallwayCells shapeStyle
        (l.foldl (fun st opening =>
          (tryPlaceRoomForDoor wallByKey hallwayGrid bounds roomSizeScale
            doorOpenings.length st opening).2) st) := by
    intro l
    induction l with
    | nil =>
      intro st h
      exact h
    | cons o rest ih =>
      intro st h
      rw [List.foldl_cons]
      exact ih _ (tryPlaceRoomForDoor_inv _ _ _ _ _ _ _ hs _ _ h)
  exact key doorOpenings st0 hinv

theorem backfillHallLoop_inv (wallByKey : List (Edge × Wall))
    (hallwayGrid : HallGrid) (bounds : Bounds) (roomSizeScale : ℚ)
    (dol : ℕ) (hallwayCells : List Cell) (shapeStyle : ℚ) (hs : 0 ≤ shapeStyle) :
    ∀ (openings : List Opening) (st : PlaceState),
      PlaceInv hallwayCells shapeStyle st →
      PlaceInv hallwayCells shapeStyle
        (backfillHallLoop wallByKey hallwayGrid bounds roomSizeScale dol
          openings st).2 := by
  intro openings
  induction openings with
  | nil =>
    intro st h
    exact h
  | cons o rest ih =>
    intro st h
    rw [backfillHallLoop]
    split
    · exact ih _ h
    · dsimp only
      split
      · exact tryPlaceRoomForDoor_inv _ _ _ _ _ _ _ hs _ _ h
      · exact ih _ (tryPlaceRoomForDoor_inv _ _ _ _ _ _ _ hs _ _ h)

theorem backfillStep_inv (wallByKey : List (Edge × Wall))
    (hallwayGrid : HallGrid) (bounds : Bounds) (roomSizeScale : ℚ)
    (dol : ℕ) (hallwayCells : List Cell) (shapeStyle : ℚ) (hs : 0 ≤ shapeStyle)
    (acc : List ℕ × PlaceState) (entry : ℕ × List Opening)
    (hinv : PlaceInv hallwayCells shapeStyle acc.2) :
    PlaceInv hallwayCells shapeStyle
      (backfillStep wallByKey hallwayGrid bounds roomSizeScale dol acc entry).2 := by
  unfold backfillStep
  split
  · exact hinv
  · dsimp only
    have hmid : PlaceInv hallwayCells shapeStyle
        ({ acc.2 with rng := (fisherYates entry.2 acc.2.rng).2 } : PlaceState) := hinv
    split
    · exact backfillHallLoop_inv _ _ _ _ _ _ _ hs _ _ hmid
    · exact backfillHallLoop_inv _ _ _ _ _ _ _ hs _ _ hmid

/-- The growth-phase invariant: the records stay consistent with the claim
state's ownership map. -/
def GrowInv (ctx : GrowCtx) (st : GrowState) : Prop :=
  RecordsInv st.claim.roomIdByCell ctx.hallwayCells ctx.shapeStyle st.roomRecords

theorem growClaimLoop_inv (ctx : GrowCtx) :
    ∀ (fuel : ℕ) (room : RoomRec) (candidates : List Cell) (st : ClaimState),
      RoomRecInv st.roomIdByCell ctx.shapeStyle room →
      (∀ c v, st.roomIdByCell.lookup c = some v → c ∉ ctx.hallwayCells) →
      RoomRecInv (growClaimLoop ctx fuel room candidates st).2.roomIdByCell
          ctx.shapeStyle (growClaimLoop ctx fuel room candidates st).1 ∧
        (growClaimLoop ctx fuel room candidates st).1.id = room.id ∧
        (∀ c v, st.roomIdByCell.lookup c = some v →
          (growClaimLoop ctx fuel room candidates st).2.roomIdByCell.lookup c = some v) ∧
        (∀ c v,
          (growClaimLoop ctx fuel room candidates st).2.roomIdByCell.lookup c = some v →
          c ∉ ctx.hallwayCells) := by
  intro fuel
  induction fuel with
  | zero =>
    intro room candidates st hroom hhall
    exact ⟨hroom, rfl, fun c v h => h, hhall⟩
  | succ m ih =>
    intro room candidates st hroom hhall
    have key : ∀ (room' : RoomRec) (cands' : List Cell) (st' : ClaimState),
        RoomRecInv st'.roomIdByCell ctx.shapeStyle room' →
        room'.id = room.id →
        (∀ c v, st.roomIdByCell.lookup c = some v →
          st'.roomIdByCell.lookup c = some v) →
        (∀ c v, st'.roomIdByCell.lookup c = some v → c ∉ ctx.hallwayCells) →
        RoomRecInv (growClaimLoop ctx m room' cands' st').2.roomIdByCell
            ctx.shapeStyle (growClaimLoop ctx m room' cands' st').1 ∧
          (growClaimLoop ctx m room' cands' st').1.id = room.id ∧
          (∀ c v, st.roomIdByCell.lookup c = some v →
            (growClaimLoop ctx m room' cands' st').2.roomIdByCell.lookup c = some v) ∧
          (∀ c v,
            (growClaimLoop ctx m room' cands' st').2.roomIdByCell.lookup c = some v →
            c ∉ ctx.hallwayCells) := by
      intro room' cands' st' h1 h2 h3 h4
      obtain ⟨g1, g2, g3, g4⟩ := ih room' cands' st' h1 h4
      exact ⟨g1, g2.trans h2, fun c v h => g3 c v (h3 c v h), g4⟩
    rw [growClaimLoop]
    split
    · exact ⟨hroom, rfl, fun c v h => h, hhall⟩
    · dsimp only
      split
      · exact ⟨hroom, rfl, fun c v h => h, hhall⟩
      · next picked hpr =>
        split
        · refine key _ _ _ ?_ rfl ?_ ?_
          · exact hroom
          · exact fun c v h => h
          · exact hhall
        · next pickIndex hfind =>
          split
          · refine key _ _ _ ?_ rfl ?_ ?_
            · exact hroom
            · exact fun c v h => h
            · exact hhall
          · next hclaim =>
            split
            · refine key _ _ _ ?_ rfl ?_ ?_
              · exact hroom
              · exact fun c v h => h
              · exact hhall
            · next hsupp =>
              split
              · refine key _ _ _ ?_ rfl ?_ ?_
                · exact hroom
                · exact fun c v h => h
                · exact hhall
              · next hratio =>
                have hclaimT : isCellClaimableByRoom picked.1 picked.2 room.id
                    st.roomIdByCell ctx.hallwayCells ctx.bounds = true :=
                  of_not_not hclaim
                obtain ⟨hphall, hpnone⟩ :=
                  isCellClaimable_facts _ _ _ _ _ _ hclaimT
                obtain ⟨hnd, hown, hperim, hratio0⟩ := hroom
                have hpfresh : picked ∉ room.cells := by
                  intro hmem
                  have h1 := hown picked hmem
                  rw [hpnone] at h1
                  cases h1
                have hins : insertUniq room.cells picked = room.cells ++ [picked] :=
                  insertUniq_not_mem hpfresh
                refine key _ _ _ ?_ ?_ ?_ ?_
                · refine ⟨?_, ?_, ?_, ?_⟩ <;> dsimp only
                  · rw [hins]
                    simp only [List.nodup_append, List.nodup_cons, List.not_mem_nil,
                      not_false_iff, List.nodup_nil, and_true, true_and]
                    exact ⟨hnd, by simpa using fun h => hpfresh h⟩
                  · intro c hc
                    rw [hins] at hc
                    rcases List.mem_append.1 hc with hc | hc
                    · have hcp : c ≠ picked := fun hcc => hpfresh (hcc ▸ hc)
                      rw [mapSet_lookup_ne _ _ _ _ hcp]
                      exact hown c hc
                    · obtain rfl := List.mem_singleton.1 hc
                      exact mapSet_lookup_self _ _ _
                  · rw [hins, perimeter_append _ _ hnd hpfresh, ← hperim]
                  · rw [hins]
                    unfold roomRatioOk
                    rw [perimeter_append _ _ hnd hpfresh, ← hperim]
                    simp only [List.length_append, List.length_cons, List.length_nil,
                      zero_add]
                    have hle := not_lt.1 hratio
                    have harea : (0 : ℚ) < ((room.cells.length + 1 : ℕ) : ℚ) := by
                      positivity
                    rw [div_le_iff harea] at hle
                    have hpen : (0 : ℚ) ≤ singleEdgePenaltyFor
                        (countOrthogonalRoomNeighbors room.cells picked.1 picked.2) := by
                      unfold singleEdgePenaltyFor
                      split
                      · norm_num
                      · norm_num
                    nlinarith [hle, hpen, harea.le]
                · exact rfl
                · intro c v h
                  have hcp : c ≠ picked := by
                    intro hcc
                    subst hcc
                    rw [hpnone] at h
                    cases h
                  dsimp only
                  rw [mapSet_lookup_ne _ _ _ _ hcp]
                  exact h
                · intro c v h
                  dsimp only at h
                  by_cases hcp : c = picked
                  · subst hcp
                    exact hphall
                  · rw [mapSet_lookup_ne _ _ _ _ hcp] at h
                    exact hhall c v h

theorem growRoomTurn_inv (ctx : GrowCtx) (roomSizeScale : ℚ) (st : GrowState)
    (idx : ℕ) (hinv : GrowInv ctx st) :
    GrowInv ctx (growRoomTurn ctx roomSizeScale st idx).1 := by
  unfold growRoomTurn
  split
  · exact hinv
  · dsimp only
    split
    · exact hinv
    · obtain ⟨hrooms, hids, hhall⟩ := hinv
      have hdefault : ∀ (mm : List (Cell × ℕ)) (ss : ℚ),
          RoomRecInv mm ss (default : RoomRec) := by
        intro mm ss
        refine ⟨List.nodup_nil, fun c hc => absurd hc (List.not_mem_nil c), rfl, ?_⟩
        show (computeRoomPerimeterFromCells ([] : List Cell) : ℚ) ≤
          (maxPerimeterAreaRatioForRoom ([] : List Cell).length + ss * 0.3) *
            ((([] : List Cell)).length : ℚ)
        simp [computeRoomPerimeterFromCells]
      have hroomInv : RoomRecInv st.claim.roomIdByCell ctx.shapeStyle
          (st.roomRecords.getD idx default) := by
        by_cases hidx : idx < st.roomRecords.length
        · rw [List.getD_eq_getElem _ _ hidx]
          exact hrooms _ (List.getElem_mem hidx)
        · rw [List.getD_eq_default _ _ (by omega)]
          exact hdefault _ _
      obtain ⟨g1, g2, g3, g4⟩ :=
        growClaimLoop_inv ctx _ _ _ _ hroomInv hhall
      refine ⟨?_, ?_, g4⟩
      · intro room hroom
        dsimp only at hroom
        rcases List.mem_or_eq_of_mem_set hroom with hold | hnew
        · obtain ⟨hnd, hown, hperim, hratio⟩ := hrooms room hold
          exact ⟨hnd, fun c hc => g3 c room.id (hown c hc), hperim, hratio⟩
        · rw [hnew]
          exact g1
      · intro i hi
        dsimp only at hi ⊢
        rw [List.length_set] at hi
        rw [List.get_eq_getElem]
        by_cases hij : idx = i
        · subst hij
          rw [List.getElem_set_self]
          rw [g2, List.getD_eq_getElem _ _ hi]
          have := hids idx hi
          rw [List.get_eq_getElem] at this
          exact this
        · rw [List.getElem_set_ne hij]
          have := hids i hi
          rw [List.get_eq_getElem] at this
          exact this

theorem growPass_inv (ctx : GrowCtx) (roomSizeScale : ℚ) (st : GrowState)
    (hinv : GrowInv ctx st) :
    GrowInv ctx (growPass ctx roomSizeScale st).1 := by
  unfold growPass
  dsimp only
  have key : ∀ (l : List ℕ) (acc : GrowState × Bool), GrowInv ctx acc.1 →
      GrowInv ctx (l.foldl (fun acc idx => if acc.2 then acc
        else growRoomTurn ctx roomSizeScale acc.1 idx) acc).1 := by
    intro l
    induction l with
    | nil =>
      intro acc h
      exact h
    | cons i rest ihl =>
      intro acc h
      rw [List.foldl_cons]
      refine ihl _ ?_
      split
      · exact h
      · exact growRoomTurn_inv ctx roomSizeScale acc.1 i h
  exact key _ _ hinv

theorem growPassLoop_inv (ctx : GrowCtx) (roomSizeScale : ℚ) :
    ∀ (n : ℕ) (st : GrowState), GrowInv ctx st →
      GrowInv ctx (growPassLoop ctx roomSizeScale n st) := by
  intro n
  induction n with
  | zero =>
    intro st h
    exact h
  | succ m ih =>
    intro st h
    rw [growPassLoop]
    split
    · exact growPass_inv ctx roomSizeScale st h
    · split
      · exact growPass_inv ctx roomSizeScale st h
      · exact ih _ (growPass_inv ctx roomSizeScale st h)

theorem growRoomCells_inv (picker : Picker) (roomRecords : List RoomRec)
    (roomIdByCell : List (Cell × ℕ)) (hallwayCells : List Cell) (bounds : Bounds)
    (s : ℕ) (roomSizeScale roomShapeStyle : ℚ)
    (hinv : RecordsInv roomIdByCell hallwayCells
      (normalizeShapeStyle roomShapeStyle) roomRecords) :
    RecordsInv (growRoomCells picker roomRecords roomIdByCell hallwayCells bounds
        s roomSizeScale roomShapeStyle).2.1 hallwayCells
      (normalizeShapeStyle roomShapeStyle)
      (growRoomCells picker roomRecords roomIdByCell hallwayCells bounds
        s roomSizeScale roomShapeStyle).1 := by
  unfold growRoomCells
  dsimp only
  split
  · exact hinv
  · exact growPassLoop_inv _ _ _ _ hinv

theorem backfillFold_inv (wallByKey : List (Edge × Wall)) (hallwayGrid : HallGrid)
    (bounds : Bounds) (roomSizeScale : ℚ) (dol : ℕ) (hallwayCells : List Cell)
    (shapeStyle : ℚ) (hs : 0 ≤ shapeStyle) :
    ∀ (entries : List (ℕ × List Opening)) (acc : List ℕ × PlaceState),
      PlaceInv hallwayCells shapeStyle acc.2 →
      PlaceInv hallwayCells shapeStyle
        ((entries.foldl (backfillStep wallByKey hallwayGrid bounds roomSizeScale dol)
          acc)).2 := by
  intro entries
  induction entries with
  | nil =>
    intro acc h
    exact h
  | cons e rest ih =>
    intro acc h
    rw [List.foldl_cons]
    exact ih _ (backfillStep_inv _ _ _ _ _ _ _ hs _ _ h)

/-- The records behind `generateRoomsFromDoors`' rooms output satisfy the
bookkeeping invariant. -/
theorem generateRoomsFromDoors_records (p : Picker) (dO : List Opening)
    (hW : List Wall) (hG : HallGrid) (hC : List Cell) (b : Bounds) (s : ℕ)
    (sc sh : ℚ) :
    ∃ records : List RoomRec, ∃ m : List (Cell × ℕ),
      (generateRoomsFromDoors p dO hW hG hC b s sc sh).1.rooms =
        records.map (fun r => buildRoomDataFromCells r.id r.cells) ∧
      RecordsInv m hC (normalizeShapeStyle sh) records := by
  have hs : 0 ≤ normalizeShapeStyle sh := by
    unfold normalizeShapeStyle
    exact clampNumber_nonneg _ _
  have h0 : PlaceInv hC (normalizeShapeStyle sh)
      { occupiedCells := hC.foldl insertUniq []
        roomIdByCell := []
        roomRecords := []
        connectedDoors := []
        connectedDoorKeys := []
        rng := s } := by
    refine ⟨⟨?_, ?_, ?_⟩, ?_, ?_⟩ <;> dsimp only
    · intro room hroom
      cases hroom
    · intro i hi
      simp at hi
    · intro c v h
      simp [List.lookup] at h
    · intro c hc
      rw [mem_foldl_insertUniq]
      exact Or.inr hc
    · intro c v h
      simp [List.lookup] at h
  have h1 := placeInitialRooms_inv (hW.foldl (fun m w => mapSet m w.edge w) [])
    hG b sc dO hC (normalizeShapeStyle sh) hs _ h0
  have h2 := backfillFold_inv (hW.foldl (fun m w => mapSet m w.edge w) [])
    hG b sc dO.length hC (normalizeShapeStyle sh) hs
    (dO.foldl
      (fun acc o => match o.hallwayId with | none => acc | some hid => mapPush acc hid o)
      [])
    ((placeInitialRooms (hW.foldl (fun m w => mapSet m w.edge w) []) hG b sc dO
        { occupiedCells := hC.foldl insertUniq []
          roomIdByCell := [], roomRecords := [], connectedDoors := [],
          connectedDoorKeys := [], rng := s }).connectedDoors.foldl
        (fun acc d =>
          match d.hallwayId with | some hid => insertUniq acc hid | none => acc)
        [],
      placeInitialRooms (hW.foldl (fun m w => mapSet m w.edge w) []) hG b sc dO
        { occupiedCells := hC.foldl insertUniq []
          roomIdByCell := [], roomRecords := [], connectedDoors := [],
          connectedDoorKeys := [], rng := s })
    h1
  have key : ∀ st2 : PlaceState, PlaceInv hC (normalizeShapeStyle sh) st2 →
      ∃ records : List RoomRec, ∃ m : List (Cell × ℕ),
        (growRoomCells p st2.roomRecords st2.roomIdByCell hC b st2.rng sc sh).1.map
            (fun r => buildRoomDataFromCells r.id r.cells) =
          records.map (fun r => buildRoomDataFromCells r.id r.cells) ∧
        RecordsInv m hC (normalizeShapeStyle sh) records :=
    fun st2 h =>
      ⟨_, _, rfl,
        growRoomCells_inv p st2.roomRecords st2.roomIdByCell hC b st2.rng sc sh h.1⟩
  obtain ⟨records, m, heq, hinv⟩ := key _ h2
  refine ⟨records, m, ?_, hinv⟩
  exact heq

theorem recordsInv_conclusions (m : List (Cell × ℕ)) (hallway : List Cell)
    (shapeStyle : ℚ) (records : List RoomRec)
    (hinv : RecordsInv m hallway shapeStyle records) :
    (∀ room ∈ records, roomRatioOk shapeStyle room.cells ∧
      ∀ c ∈ room.cells, c ∉ hallway) ∧
    (∀ i j : ℕ, ∀ hi : i < records.length, ∀ hj : j < records.length, i ≠ j →
      ∀ c, c ∈ (records.get ⟨i, hi⟩).cells → c ∉ (records.get ⟨j, hj⟩).cells) := by
  obtain ⟨hrooms, hids, hhall⟩ := hinv
  constructor
  · intro room hroom
    obtain ⟨_, hown, _, hratio⟩ := hrooms room hroom
    exact ⟨hratio, fun c hc => hhall c room.id (hown c hc)⟩
  · intro i j hi hj hij c hci hcj
    have hmi : records.get ⟨i, hi⟩ ∈ records := records.get_mem i hi
    have hmj : records.get ⟨j, hj⟩ ∈ records := records.get_mem j hj
    have h1 := (hrooms _ hmi).2.1 c hci
    have h2 := (hrooms _ hmj).2.1 c hcj
    rw [h1] at h2
    rw [Option.some.injEq] at h2
    rw [hids i hi, hids j hj] at h2
    omega

/-- Every hallway group's cells lie inside the combined hallway footprint. -/
theorem hallwayAttemptLoop_sub (bounds : Bounds) (corridorWidthCells : ℕ) :
    ∀ (n : ℕ) (st : HallBuild),
      (∀ g ∈ st.groups, ∀ c ∈ g.cells, c ∈ st.combined) →
      ∀ g ∈ (hallwayAttemptLoop bounds corridorWidthCells n st).2.groups,
        ∀ c ∈ g.cells,
          c ∈ (hallwayAttemptLoop bounds corridorWidthCells n st).2.combined := by
  intro n
  induction n with
  | zero =>
    intro st h
    exact h
  | succ k ih =>
    intro st h
    rw [hallwayAttemptLoop]
    split
    · exact ih _ h
    · dsimp only
      intro g hg c hc
      rcases List.mem_append.1 hg with hold | hnew
      · rw [mem_foldl_insertUniq]
        exact Or.inl (h g hold c hc)
      · obtain rfl := List.mem_singleton.1 hnew
        rw [mem_foldl_insertUniq]
        exact Or.inr hc

theorem buildHallwayGroups_sub (bounds : Bounds) (hallwayCount : ℕ)
    (corridorWidthCells : ℕ) (s : ℕ) :
    ∀ g ∈ (buildHallwayGroups bounds hallwayCount corridorWidthCells s).groups,
      ∀ c ∈ g.cells,
        c ∈ (buildHallwayGroups bounds hallwayCount corridorWidthCells s).combined := by
  unfold buildHallwayGroups
  have key : ∀ (l : List ℕ) (st : HallBuild),
      (∀ g ∈ st.groups, ∀ c ∈ g.cells, c ∈ st.combined) →
      ∀ g ∈ (l.foldl (fun st _ =>
          let pr := hallwayAttemptLoop bounds corridorWidthCells 12 st
          if ¬ pr.1 ∧ pr.2.groups.length = 0 then
            let fs := randomChoice pr.2.rng [HallShape.L, .U, .S, .T]
            let fb := generateHallwayCells bounds fs.1 corridorWidthCells fs.2
            { combined := fb.1.foldl insertUniq pr.2.combined
              groups := [{ id := 1, shape := fs.1, cells := fb.1 }]
              rng := fb.2 }
          else pr.2) st).groups,
        ∀ c ∈ g.cells, c ∈ (l.foldl (fun st _ =>
          let pr := hallwayAttemptLoop bounds corridorWidthCells 12 st
          if ¬ pr.1 ∧ pr.2.groups.length = 0 then
            let fs := randomChoice pr.2.rng [HallShape.L, .U, .S, .T]
            let fb := generateHallwayCells bounds fs.1 corridorWidthCells fs.2
            { combined := fb.1.foldl insertUniq pr.2.combined
              groups := [{ id := 1, shape := fs.1, cells := fb.1 }]
              rng := fb.2 }
          else pr.2) st).combined := by
    intro l
    induction l with
    | nil =>
      intro st h
      exact h
    | cons a rest ih =>
      intro st h
      rw [List.foldl_cons]
      refine ih _ ?_
      dsimp only
      split
      · intro g hg c hc
        obtain rfl := List.mem_singleton.1 hg
        rw [mem_foldl_insertUniq]
        exact Or.inr hc
      · exact hallwayAttemptLoop_sub bounds corridorWidthCells 12 st h
  refine key _ _ ?_
  intro g hg
  cases hg

theorem buildRoomDataFromCells_cells (roomId : ℕ) (roomCells : List Cell) :
    (buildRoomDataFromCells roomId roomCells).cells = roomCells := by
  unfold buildRoomDataFromCells
  cases roomCells <;> rfl

theorem generateRoomsFromDoors_rooms_ok (p : Picker) (dO : List Opening)
    (hW : List Wall) (hG : HallGrid) (hC : List Cell) (b : Bounds) (s : ℕ)
    (sc sh : ℚ) :
    (∀ ro ∈ (generateRoomsFromDoors p dO hW hG hC b s sc sh).1.rooms,
        roomRatioOk (normalizeShapeStyle sh) ro.cells ∧ ∀ c ∈ ro.cells, c ∉ hC) ∧
    (∀ i j : ℕ,
      ∀ hi : i < (generateRoomsFromDoors p dO hW hG hC b s sc sh).1.rooms.length,
      ∀ hj : j < (generateRoomsFromDoors p dO hW hG hC b s sc sh).1.rooms.length,
      i ≠ j → ∀ c,
        c ∈ ((generateRoomsFromDoors p dO hW hG hC b s sc sh).1.rooms.get ⟨i, hi⟩).cells →
        c ∉ ((generateRoomsFromDoors p dO hW hG hC b s sc sh).1.rooms.get ⟨j, hj⟩).cells) := by
  obtain ⟨records, m, heq, hinv⟩ := generateRoomsFromDoors_records p dO hW hG hC b s sc sh
  obtain ⟨hmem, hpair⟩ := recordsInv_conclusions m hC _ records hinv
  constructor
  · rw [heq]
    intro ro hro
    obtain ⟨r, hr, rfl⟩ := List.mem_map.1 hro
    rw [buildRoomDataFromCells_cells]
    exact hmem r hr
  · rw [heq]
    intro i j hi hj hij c hci hcj
    have hi' : i < records.length := by
      rw [List.length_map] at hi
      exact hi
    have hj' : j < records.length := by
      rw [List.length_map] at hj
      exact hj
    rw [List.get_eq_getElem, List.getElem_map, buildRoomDataFromCells_cells] at hci hcj
    exact hpair i j hi' hj' hij c hci hcj

theorem adaptiveCandidate_rooms_ok (picker : Picker) (fuel : ℕ)
    (args : AdaptiveArgs) (n : ℕ) :
    (∀ ro ∈ (adaptiveCandidate picker fuel args n).rooms,
        roomRatioOk (normalizeShapeStyle args.roomShapeStyle) ro.cells ∧
        ∀ c ∈ ro.cells, c ∉ args.hallwayCells) ∧
    (∀ i j : ℕ,
      ∀ hi : i < (adaptiveCandidate picker fuel args n).rooms.length,
      ∀ hj : j < (adaptiveCandidate picker fuel args n).rooms.length,
      i ≠ j → ∀ c,
        c ∈ ((adaptiveCandidate picker fuel args n).rooms.get ⟨i, hi⟩).cells →
        c ∉ ((adaptiveCandidate picker fuel args n).rooms.get ⟨j, hj⟩).cells) := by
  have hre : (adaptiveCandidate picker fuel args n).rooms =
      (generateRoomsFromDoors picker args.initialDoorOpenings args.hallwayWalls
        args.hallwayGrid args.hallwayCells args.bounds
        (createRngInit (args.attemptSeed + ((n : ℤ) + 1) * 3571))
        (Max.max 1 ((scaleCandidates args.baseRoomSizeScale).getD n 0))
        args.roomShapeStyle).1.rooms := by
    unfold adaptiveCandidate
    rfl
  rw [hre]
  exact generateRoomsFromDoors_rooms_ok picker _ _ _ _ _ _ _ _

theorem buildHallwayMetadata_cells (groups : List HallGroup) :
    ∀ hall ∈ buildHallwayMetadata groups, ∃ g ∈ groups, hall.cells = g.cells := by
  intro hall hm
  unfold buildHallwayMetadata at hm
  obtain ⟨g, hg, rfl⟩ := List.mem_map.1 hm
  exact ⟨g, (List.mem_filter.1 hg).1, rfl⟩

theorem generatePlanAttempt_cells_ok (picker : Picker) (fuel : ℕ)
    (options : Options) (bounds : Bounds) (seed : ℤ) :
    (∀ ro ∈ (generatePlanAttempt picker fuel options bounds seed).rooms,
        roomRatioOk (normalizeShapeStyle options.roomShapeStyle) ro.cells ∧
        ∀ c ∈ ro.cells, c ∉ (attemptHall options bounds seed).combined) ∧
    (∀ i j : ℕ,
      ∀ hi : i < (generatePlanAttempt picker fuel options bounds seed).rooms.length,
      ∀ hj : j < (generatePlanAttempt picker fuel options bounds seed).rooms.length,
      i ≠ j → ∀ c,
        c ∈ ((generatePlanAttempt picker fuel options bounds seed).rooms.get ⟨i, hi⟩).cells →
        c ∉ ((generatePlanAttempt picker fuel options bounds seed).rooms.get ⟨j, hj⟩).cells) ∧
    (∀ hall ∈ (generatePlanAttempt picker fuel options bounds seed).hallways,
      ∀ c ∈ hall.cells, c ∈ (attemptHall options bounds seed).combined) := by
  have hrooms : (generatePlanAttempt picker fuel options bounds seed).rooms =
      (attemptAdaptive picker fuel options bounds seed).rooms := by
    unfold generatePlanAttempt
    rfl
  have hhalls : (generatePlanAttempt picker fuel options bounds seed).hallways =
      buildHallwayMetadata (attemptHall options bounds seed).groups := by
    unfold generatePlanAttempt
    rfl
  refine ⟨?_, ?_, ?_⟩
  · rw [hrooms]
    unfold attemptAdaptive
    refine generateRoomsWithAdaptiveScale_pred picker fuel _ (fun cand =>
      ∀ ro ∈ cand.rooms,
        roomRatioOk (normalizeShapeStyle options.roomShapeStyle) ro.cells ∧
        ∀ c ∈ ro.cells, c ∉ (attemptHall options bounds seed).combined) ?_ ?_
    · intro i
      exact (adaptiveCandidate_rooms_ok picker fuel
        (attemptArgs fuel options bounds seed) i).1
    · intro ro hro
      cases hro
  · rw [hrooms]
    unfold attemptAdaptive
    refine generateRoomsWithAdaptiveScale_pred picker fuel _ (fun cand =>
      ∀ i j : ℕ, ∀ hi : i < cand.rooms.length, ∀ hj : j < cand.rooms.length,
        i ≠ j → ∀ c, c ∈ (cand.rooms.get ⟨i, hi⟩).cells →
          c ∉ (cand.rooms.get ⟨j, hj⟩).cells) ?_ ?_
    · intro i
      exact (adaptiveCandidate_rooms_ok picker fuel
        (attemptArgs fuel options bounds seed) i).2
    · intro i j hi hj hij
      simp at hi
  · rw [hhalls]
    intro hall hm c hc
    obtain ⟨g, hg, hcells⟩ := buildHallwayMetadata_cells _ hall hm
    rw [hcells] at hc
    exact buildHallwayGroups_sub bounds options.hallwayCount 3 (createRngInit seed) g hg c hc

/-- What C4 asserts about a run's result: distinct rooms own disjoint cell
sets, and no room cell lies in any hallway's cell set. -/
def cellsPartition : Except GenError Plan → Prop
  | .ok plan =>
    (∀ i j : ℕ, ∀ hi : i < plan.rooms.length, ∀ hj : j < plan.rooms.length,
      i ≠ j → ∀ c, c ∈ (plan.rooms.get ⟨i, hi⟩).cells →
        c ∉ (plan.rooms.get ⟨j, hj⟩).cells) ∧
    (∀ room ∈ plan.rooms, ∀ hall ∈ plan.hallways, ∀ c ∈ room.cells, c ∉ hall.cells)
  | .error _ => True

/-- C4: in every plan returned by `generateFloorPlan`, cell ownership is a
partition: the cell sets of two distinct rooms are disjoint, and every room's
cell set is disjoint from every hallway's cell set (hence from their union).
Room placement claims only cells absent from the ownership map, growth claims
only cells that are unowned and not hallway cells, and every hallway's cells
lie inside the combined hallway footprint. -/
theorem generateFloorPlan_cells_partition (picker : Picker) (fuel : ℕ)
    (cfg : Config) : cellsPartition (generateFloorPlan picker fuel cfg) := by
  cases h : generateFloorPlan picker fuel cfg with
  | error e => trivial
  | ok plan =>
    obtain ⟨a, hPa, hrooms, hhalls, _⟩ :=
      generateFloorPlan_ok_attempt picker fuel cfg
        (fun a =>
          (∀ i j : ℕ, ∀ hi : i < a.rooms.length, ∀ hj : j < a.rooms.length,
            i ≠ j → ∀ c, c ∈ (a.rooms.get ⟨i, hi⟩).cells →
              c ∉ (a.rooms.get ⟨j, hj⟩).cells) ∧
          (∀ room ∈ a.rooms, ∀ hall ∈ a.hallways, ∀ c ∈ room.cells, c ∉ hall.cells))
        (fun seed => by
          obtain ⟨h1, h2, h3⟩ := generatePlanAttempt_cells_ok picker fuel _ _ seed
          exact ⟨h2, fun room hroom hall hhall c hc hc' =>
            (h1 room hroom).2 c hc (h3 hall hhall c hc')⟩)
        plan h
    refine ⟨?_, ?_⟩
    · rw [hrooms]
      exact hPa.1
    · rw [hrooms, hhalls]
      exact hPa.2

theorem roomRatioOk_div (shapeStyle : ℚ) (cells : List Cell) (hs : 0 ≤ shapeStyle)
    (h : roomRatioOk shapeStyle cells) :
    (computeRoomPerimeterFromCells cells : ℚ) / (cells.length : ℚ) ≤
      maxPerimeterAreaRatioForRoom cells.length + shapeStyle * 0.3 := by
  have h03 : (0 : ℚ) ≤ shapeStyle * 0.3 := mul_nonneg hs (by norm_num)
  rcases Nat.eq_zero_or_pos cells.length with h0 | hpos
  · obtain rfl : cells = [] := List.length_eq_zero.1 h0
    have hge := maxPerimeterAreaRatioForRoom_ge 0
    have hP : computeRoomPerimeterFromCells ([] : List Cell) = 0 := rfl
    rw [hP]
    norm_num
    linarith
  · have hpos' : (0 : ℚ) < (cells.length : ℚ) := by exact_mod_cast hpos
    rw [div_le_iff hpos']
    exact h

/-- What C7 asserts about a run's result: every room's recomputed
perimeter-to-area ratio stays within the size-tiered ceiling plus the style
allowance `shapeStyle * 0.3`. -/
def perimeterRatiosWithin (shapeStyle : ℚ) : Except GenError Plan → Prop
  | .ok plan => ∀ room ∈ plan.rooms,
      (computeRoomPerimeterFromCells room.cells : ℚ) / (room.cells.length : ℚ) ≤
        maxPerimeterAreaRatioForRoom room.cells.length + shapeStyle * 0.3
  | .error _ => True

/-- C7: growth only accepts a cell when the projected perimeter-to-area ratio
stays within `maxPerimeterAreaRatioForRoom` (3.2 below area 20, 2.8 below 40,
2.55 below 80, else 2.35) plus the allowance `shapeStyle * 0.3`, and placement
starts every room as a rectangle well within the bound; consequently, in every
returned plan, recomputing each room's perimeter over its cells and dividing
by its area never exceeds that size-tiered ceiling plus the allowance. -/
theorem generateFloorPlan_ratio_within (picker : Picker) (fuel : ℕ)
    (cfg : Config) :
    perimeterRatiosWithin
      (normalizeShapeStyle (normalizeOptions cfg).roomShapeStyle)
      (generateFloorPlan picker fuel cfg) := by
  cases h : generateFloorPlan picker fuel cfg with
  | error e => trivial
  | ok plan =>
    obtain ⟨a, hPa, hrooms, _⟩ :=
      generateFloorPlan_ok_attempt picker fuel cfg
        (fun a => ∀ ro ∈ a.rooms,
          roomRatioOk
            (normalizeShapeStyle (normalizeOptions cfg).roomShapeStyle) ro.cells)
        (fun seed => fun ro hro =>
          ((generatePlanAttempt_cells_ok picker fuel _ _ seed).1 ro hro).1)
        plan h
    intro room hroom
    rw [hrooms] at hroom
    have hs : 0 ≤ normalizeShapeStyle (normalizeOptions cfg).roomShapeStyle := by
      unfold normalizeShapeStyle
      exact clampNumber_nonneg _ _
    exact roomRatioOk_div _ _ hs (hPa room hroom)

/-! ## C6: opening containment on the owning wall -/

/-- What holds of every opening the selectors emit: a nonnegative offset
interval that ends within the owning wall's length. -/
def openingWithin (o : Opening) : Prop :=
  0 ≤ o.startO ∧ o.startO ≤ o.endO ∧ o.endO ≤ edgeLength o.wallKey

theorem mapRng_mem (f : α → ℕ → β × ℕ) :
    ∀ (l : List α) (s : ℕ), ∀ b ∈ (mapRng f l s).1,
      ∃ a, a ∈ l ∧ ∃ s', b = (f a s').1 := by
  intro l
  induction l with
  | nil =>
    intro s b hb
    cases hb
  | cons a rest ih =>
    intro s b hb
    rw [mapRng] at hb
    rcases List.mem_cons.1 hb with hb | hb
    · exact ⟨a, List.mem_cons_self a rest, s, hb⟩
    · obtain ⟨a', ha', s', hb'⟩ := ih _ b hb
      exact ⟨a', List.mem_cons_of_mem a ha', s', hb'⟩

theorem fyAux_mem [Inhabited α] :
    ∀ (n : ℕ) (arr : List α) (s : ℕ), n < arr.length →
      ∀ x ∈ (fyAux n arr s).1, x ∈ arr := by
  intro n
  induction n with
  | zero =>
    intro arr s _ x hx
    exact hx
  | succ k ih =>
    intro arr s hlt x hx
    rw [fyAux] at hx
    have hbounds := randomInt_le s (show (0 : ℤ) ≤ ((k + 1 : ℕ) : ℤ) by omega)
    have hjn : (randomInt s 0 ((k + 1 : ℕ) : ℤ)).1.toNat < arr.length := by omega
    have hk1 : k + 1 < arr.length := hlt
    have hlen : ((arr.set (k + 1) (arr.getD (randomInt s 0 ((k + 1 : ℕ) : ℤ)).1.toNat
        default)).set (randomInt s 0 ((k + 1 : ℕ) : ℤ)).1.toNat
        (arr.getD (k + 1) default)).length = arr.length := by
      rw [List.length_set, List.length_set]
    have hx' := ih _ _ (by rw [hlen]; omega) x hx
    have ha : arr.getD (k + 1) default ∈ arr := by
      rw [List.getD_eq_getElem arr default hk1]
      exact List.getElem_mem hk1
    have hb : arr.getD (randomInt s 0 ((k + 1 : ℕ) : ℤ)).1.toNat default ∈ arr := by
      rw [List.getD_eq_getElem arr default hjn]
      exact List.getElem_mem hjn
    rcases List.mem_or_eq_of_mem_set hx' with hx'' | hx''
    · rcases List.mem_or_eq_of_mem_set hx'' with hx3 | hx3
      · exact hx3
      · rw [hx3]
        exact hb
    · rw [hx'']
      exact ha

theorem fisherYates_mem [Inhabited α] (l : List α) (s : ℕ) :
    ∀ x ∈ (fisherYates l s).1, x ∈ l := by
  unfold fisherYates
  cases l with
  | nil =>
    intro x hx
    exact hx
  | cons a t =>
    refine fyAux_mem _ _ _ ?_
    simp

theorem doorOffsetWindow_bounds (L dW : ℚ) (s : ℕ) (h : dW + 0.2 ≤ L) :
    0 ≤ (doorOffsetWindow L dW s).1 ∧
    (doorOffsetWindow L dW s).2.1 = (doorOffsetWindow L dW s).1 + dW ∧
    (doorOffsetWindow L dW s).2.1 ≤ L := by
  have hu0 := rngFloat_nonneg s
  have hu1 := rngFloat_lt_one s
  have hrem : Max.max (0.2 : ℚ) (L - dW) = L - dW := max_eq_right (by linarith)
  unfold doorOffsetWindow
  dsimp only
  rw [hrem]
  have hmax : Max.max (0.1 : ℚ) (L - dW - 0.1) = L - dW - 0.1 :=
    max_eq_right (by linarith)
  rw [hmax]
  refine ⟨?_, rfl, ?_⟩
  · nlinarith
  · nlinarith

theorem mapPush_entry_cases [DecidableEq κ] :
    ∀ (acc : List (κ × List ν)) (k : κ) (v : ν), ∀ e ∈ mapPush acc k v,
      ∀ x ∈ e.2, (∃ e0, e0 ∈ acc ∧ e0.1 = e.1 ∧ x ∈ e0.2) ∨ (x = v ∧ e.1 = k) := by
  intro acc
  induction acc with
  | nil =>
    intro k v e he x hx
    rw [mapPush] at he
    obtain rfl := List.mem_singleton.1 he
    right
    exact ⟨List.mem_singleton.1 hx, rfl⟩
  | cons hd rest ih =>
    obtain ⟨k', vs⟩ := hd
    intro k v e he x hx
    rw [mapPush] at he
    split at he
    · next hk =>
      rcases List.mem_cons.1 he with rfl | he
      · rcases List.mem_append.1 hx with hx | hx
        · exact Or.inl ⟨(k', vs), List.mem_cons_self _ _, rfl, hx⟩
        · exact Or.inr ⟨List.mem_singleton.1 hx, hk⟩
      · exact Or.inl ⟨e, List.mem_cons_of_mem _ he, rfl, hx⟩
    · rcases List.mem_cons.1 he with rfl | he
      · exact Or.inl ⟨(k', vs), List.mem_cons_self _ _, rfl, hx⟩
      · rcases ih k v e he x hx with ⟨e0, he0, hke, hxe⟩ | hr
        · exact Or.inl ⟨e0, List.mem_cons_of_mem _ he0, hke, hxe⟩
        · exact Or.inr hr

theorem foldl_mapPushKey_inv [DecidableEq κ] (gk : ν → κ) (Q : κ → ν → Prop) :
    ∀ (src : List ν) (acc : List (κ × List ν)),
      (∀ e ∈ acc, ∀ x ∈ e.2, Q e.1 x) → (∀ x ∈ src, Q (gk x) x) →
      ∀ e ∈ src.foldl (fun a o => mapPush a (gk o) o) acc, ∀ x ∈ e.2, Q e.1 x := by
  intro src
  induction src with
  | nil =>
    intro acc hacc _ e he x hx
    exact hacc e he x hx
  | cons a rest ih =>
    intro acc hacc hsrc e he x hx
    rw [List.foldl_cons] at he
    refine ih _ ?_ (fun y hy => hsrc y (List.mem_cons_of_mem a hy)) e he x hx
    intro e' he' x' hx'
    rcases mapPush_entry_cases acc (gk a) a e' he' x' hx' with ⟨e0, he0, hke, hxe⟩ | ⟨rfl, hk⟩
    · rw [← hke]
      exact hacc e0 he0 x' hxe
    · rw [hk]
      exact hsrc x' (List.mem_cons_self _ _)

theorem foldl_openingsByHall_inv (P : Opening → Prop) :
    ∀ (src : List Opening) (acc : List (ℕ × List Opening)),
      (∀ e ∈ acc, ∀ x ∈ e.2, P x) → (∀ x ∈ src, P x) →
      ∀ e ∈ src.foldl
        (fun acc o => match o.hallwayId with | none => acc | some hid => mapPush acc hid o)
        acc,
        ∀ x ∈ e.2, P x := by
  intro src
  induction src with
  | nil =>
    intro acc hacc _ e he x hx
    exact hacc e he x hx
  | cons a rest ih =>
    intro acc hacc hsrc e he x hx
    rw [List.foldl_cons] at he
    refine ih _ ?_ (fun y hy => hsrc y (List.mem_cons_of_mem a hy)) e he x hx
    cases hga : a.hallwayId with
    | none =>
      rw [hga] at he
      intro e' he' x' hx'
      exact hacc e' he' x' hx'
    | some k =>
      rw [hga] at he
      intro e' he' x' hx'
      rcases mapPush_entry_cases acc k a e' he' x' hx' with ⟨e0, he0, hke, hxe⟩ | ⟨rfl, hk⟩
      · exact hacc e0 he0 x' hxe
      · exact hsrc x' (List.mem_cons_self _ _)

theorem foldl_candidatesByRoom_inv (P : WallCand → Prop) :
    ∀ (src : List WallCand) (acc : List (ℕ × List WallCand)),
      (∀ e ∈ acc, ∀ x ∈ e.2, P x) → (∀ x ∈ src, P x) →
      ∀ e ∈ src.foldl
        (fun acc c => match c.roomId with | none => acc | some rid => mapPush acc rid c)
        acc,
        ∀ x ∈ e.2, P x := by
  intro src
  induction src with
  | nil =>
    intro acc hacc _ e he x hx
    exact hacc e he x hx
  | cons a rest ih =>
    intro acc hacc hsrc e he x hx
    rw [List.foldl_cons] at he
    refine ih _ ?_ (fun y hy => hsrc y (List.mem_cons_of_mem a hy)) e he x hx
    cases hga : a.roomId with
    | none =>
      rw [hga] at he
      intro e' he' x' hx'
      exact hacc e' he' x' hx'
    | some k =>
      rw [hga] at he
      intro e' he' x' hx'
      rcases mapPush_entry_cases acc k a e' he' x' hx' with ⟨e0, he0, hke, hxe⟩ | ⟨rfl, hk⟩
      · exact hacc e0 he0 x' hxe
      · exact hsrc x' (List.mem_cons_self _ _)

theorem lookup_mem_pair :
    ∀ (l : List (ℕ × α)) (k : ℕ) (v : α), l.lookup k = some v → (k, v) ∈ l := by
  intro l
  induction l with
  | nil =>
    intro k v h
    cases h
  | cons e rest ih =>
    obtain ⟨ek, ev⟩ := e
    intro k v h
    cases hbeq : (k == ek) with
    | true =>
      obtain rfl : k = ek := beq_iff_eq.1 hbeq
      simp only [List.lookup, beq_self_eq_true] at h
      cases h
      exact List.mem_cons_self _ _
    | false =>
      simp only [List.lookup, hbeq] at h
      exact List.mem_cons_of_mem _ (ih k v h)

theorem tryPlaceRoomForDoor_cd (P : Opening → Prop) (wallByKey : List (Edge × Wall))
    (hallwayGrid : HallGrid) (bounds : Bounds) (roomSizeScale : ℚ) (n : ℕ)
    (st : PlaceState) (opening : Opening)
    (h : ∀ d ∈ st.connectedDoors, P d) (ho : P opening) :
    ∀ d ∈ (tryPlaceRoomForDoor wallByKey hallwayGrid bounds roomSizeScale n
      st opening).2.connectedDoors, P d := by
  unfold tryPlaceRoomForDoor
  split
  · exact h
  · split
    · exact h
    · dsimp only
      split
      · exact h
      · dsimp only
        intro d hd
        rcases List.mem_append.1 hd with hd | hd
        · exact h d hd
        · obtain rfl := List.mem_singleton.1 hd
          exact ho

theorem placeInitialRooms_cd (P : Opening → Prop) (wallByKey : List (Edge × Wall))
    (hallwayGrid : HallGrid) (bounds : Bounds) (roomSizeScale : ℚ)
    (doorOpenings : List Opening) (st0 : PlaceState)
    (hall : ∀ o ∈ doorOpenings, P o) (h0 : ∀ d ∈ st0.connectedDoors, P d) :
    ∀ d ∈ (placeInitialRooms wallByKey hallwayGrid bounds roomSizeScale
      doorOpenings st0).connectedDoors, P d := by
  unfold placeInitialRooms
  refine foldl_invariant (fun (st : PlaceState) => ∀ d ∈ st.connectedDoors, P d)
    _ _ _ h0 ?_
  intro st opening hmem hst
  exact tryPlaceRoomForDoor_cd P _ _ _ _ _ _ _ hst (hall opening hmem)

theorem backfillHallLoop_cd (P : Opening → Prop) (wallByKey : List (Edge × Wall))
    (hallwayGrid : HallGrid) (bounds : Bounds) (roomSizeScale : ℚ) (n : ℕ) :
    ∀ (openings : List Opening) (st : PlaceState),
      (∀ o ∈ openings, P o) → (∀ d ∈ st.connectedDoors, P d) →
      ∀ d ∈ (backfillHallLoop wallByKey hallwayGrid bounds roomSizeScale n
        openings st).2.connectedDoors, P d := by
  intro openings
  induction openings with
  | nil =>
    intro st _ hst
    exact hst
  | cons o rest ih =>
    intro st hos hst
    rw [backfillHallLoop]
    split
    · exact ih st (fun x hx => hos x (List.mem_cons_of_mem o hx)) hst
    · dsimp only
      split
      · exact tryPlaceRoomForDoor_cd P _ _ _ _ _ _ _ hst
          (hos o (List.mem_cons_self o rest))
      · exact ih _ (fun x hx => hos x (List.mem_cons_of_mem o hx))
          (tryPlaceRoomForDoor_cd P _ _ _ _ _ _ _ hst
            (hos o (List.mem_cons_self o rest)))

theorem backfillStep_cd (P : Opening → Prop) (wallByKey : List (Edge × Wall))
    (hallwayGrid : HallGrid) (bounds : Bounds) (roomSizeScale : ℚ) (n : ℕ)
    (acc : List ℕ × PlaceState) (entry : ℕ × List Opening)
    (hentry : ∀ o ∈ entry.2, P o) (h : ∀ d ∈ acc.2.connectedDoors, P d) :
    ∀ d ∈ (backfillStep wallByKey hallwayGrid bounds roomSizeScale n
      acc entry).2.connectedDoors, P d := by
  unfold backfillStep
  split
  · exact h
  · dsimp only
    have hfy : ∀ o ∈ (fisherYates entry.2 acc.2.rng).1, P o :=
      fun o ho => hentry o (fisherYates_mem _ _ o ho)
    split
    · exact backfillHallLoop_cd P _ _ _ _ _ _ _ hfy h
    · exact backfillHallLoop_cd P _ _ _ _ _ _ _ hfy h

theorem backfillFold_cd (P : Opening → Prop) (wallByKey : List (Edge × Wall))
    (hallwayGrid : HallGrid) (bounds : Bounds) (roomSizeScale : ℚ) (n : ℕ) :
    ∀ (entries : List (ℕ × List Opening)) (acc : List ℕ × PlaceState),
      (∀ e ∈ entries, ∀ o ∈ e.2, P o) → (∀ d ∈ acc.2.connectedDoors, P d) →
      ∀ d ∈ ((entries.foldl (backfillStep wallByKey hallwayGrid bounds roomSizeScale n)
        acc)).2.connectedDoors, P d := by
  intro entries
  induction entries with
  | nil =>
    intro acc _ h
    exact h
  | cons e rest ih =>
    intro acc hentries h
    rw [List.foldl_cons]
    exact ih _ (fun x hx => hentries x (List.mem_cons_of_mem e hx))
      (backfillStep_cd P _ _ _ _ _ _ _ (hentries e (List.mem_cons_self e rest)) h)

theorem generateRoomsFromDoors_cd (P : Opening → Prop) (p : Picker)
    (dO : List Opening) (hW : List Wall) (hG : HallGrid) (hC : List Cell)
    (b : Bounds) (s : ℕ) (sc sh : ℚ) (hdo : ∀ o ∈ dO, P o) :
    ∀ d ∈ (generateRoomsFromDoors p dO hW hG hC b s sc sh).1.connectedDoors,
      P d := by
  have h1 := placeInitialRooms_cd P (hW.foldl (fun m w => mapSet m w.edge w) [])
    hG b sc dO
    { occupiedCells := hC.foldl insertUniq []
      roomIdByCell := [], roomRecords := [], connectedDoors := [],
      connectedDoorKeys := [], rng := s }
    hdo (by intro d hd; cases hd)
  have hentries : ∀ e ∈ dO.foldl
      (fun acc o => match o.hallwayId with | none => acc | some hid => mapPush acc hid o)
      ([] : List (ℕ × List Opening)), ∀ o ∈ e.2, P o := by
    exact foldl_openingsByHall_inv P dO [] (by intro e he; cases he) hdo
  have h2 := backfillFold_cd P (hW.foldl (fun m w => mapSet m w.edge w) [])
    hG b sc dO.length
    (dO.foldl
      (fun acc o => match o.hallwayId with | none => acc | some hid => mapPush acc hid o)
      [])
    ((placeInitialRooms (hW.foldl (fun m w => mapSet m w.edge w) []) hG b sc dO
        { occupiedCells := hC.foldl insertUniq []
          roomIdByCell := [], roomRecords := [], connectedDoors := [],
          connectedDoorKeys := [], rng := s }).connectedDoors.foldl
        (fun acc d =>
          match d.hallwayId with | some hid => insertUniq acc hid | none => acc)
        [],
      placeInitialRooms (hW.foldl (fun m w => mapSet m w.edge w) []) hG b sc dO
        { occupiedCells := hC.foldl insertUniq []
          roomIdByCell := [], roomRecords := [], connectedDoors := [],
          connectedDoorKeys := [], rng := s })
    hentries h1
  intro d hd
  exact h2 d hd

theorem chooseDoorOpenings_ok (fuel : ℕ) (walls : List Wall)
    (hallwayGroups : List HallGroup) (options : Options) (s : ℕ)
    (hdw : 0 ≤ options.doorWidth) :
    ∀ o ∈ (chooseDoorOpenings fuel walls hallwayGroups options s).1,
      openingWithin o := by
  unfold chooseDoorOpenings
  split
  · intro o ho
    cases ho
  · next hguard =>
    intro o ho
    dsimp only at ho
    obtain ⟨wall, hwall, s', heq⟩ := mapRng_mem _ _ _ o ho
    have hne : doorCandidatesFor walls options ≠ [] := by
      rcases not_or.1 hguard with ⟨h1, _⟩
      intro hnil
      exact h1 (by rw [hnil]; rfl)
    have hpick := (doorPicksFor_inv fuel walls hallwayGroups options s hne).2.2.2
      wall hwall
    unfold doorCandidatesFor at hpick
    have hlen : options.doorWidth + 0.8 ≤ edgeLength wall.edge :=
      of_decide_eq_true (List.mem_filter.1 hpick).2
    have hob := doorOffsetWindow_bounds (edgeLength wall.edge) options.doorWidth s'
      (by linarith)
    rw [heq]
    refine ⟨?_, ?_, ?_⟩ <;> dsimp only
    · exact hob.1
    · rw [hob.2.1]
      linarith
    · exact hob.2.2

theorem chooseExteriorExitOpenings_ok (fuel : ℕ) (roomWalls : List Wall)
    (rooms : List RoomOut) (options : Options) (s : ℕ)
    (hdw : 0 ≤ options.doorWidth) :
    ∀ o ∈ (chooseExteriorExitOpenings fuel roomWalls rooms options s).1,
      openingWithin o := by
  have key : ∀ (cbr : List (ℕ × List WallCand)),
      (∀ e ∈ cbr, ∀ c ∈ e.2,
        c.length = edgeLength c.wallKey ∧ options.doorWidth + 0.5 ≤ c.length) →
      ∀ (ids : List ℕ) (acc : List Opening × ℕ),
        (∀ o ∈ acc.1, openingWithin o) →
        ∀ o ∈ (ids.foldl
          (fun (acc : List Opening × ℕ) roomId =>
            let roomCandidates := (cbr.lookup roomId).getD []
            if roomCandidates.length = 0 then acc
            else
              let rc := randomChoice acc.2 roomCandidates
              let ow := doorOffsetWindow rc.1.length options.doorWidth rc.2
              (acc.1 ++ [{ wallKey := rc.1.wallKey, type := .door, startO := ow.1,
                           endO := ow.2.1, roomId := some roomId }], ow.2.2)) acc).1,
          openingWithin o := by
    intro cbr hcbr ids
    induction ids with
    | nil =>
      intro acc hacc o ho
      exact hacc o ho
    | cons rid rest ih =>
      intro acc hacc o ho
      rw [List.foldl_cons] at ho
      refine ih _ ?_ o ho
      dsimp only
      split
      · exact hacc
      · next hlen0 =>
        intro o' ho'
        rcases List.mem_append.1 ho' with hold | hnew
        · exact hacc o' hold
        · obtain rfl := List.mem_singleton.1 hnew
          cases hlk : cbr.lookup rid with
          | none =>
            rw [hlk] at hlen0
            simp at hlen0
          | some lst =>
            have hne : ((cbr.lookup rid).getD []).length ≠ 0 := hlen0
            rw [hlk] at hne
            have hnil : lst ≠ [] := by
              intro h0
              rw [h0] at hne
              simp at hne
            have hchosen : (randomChoice acc.2 lst).1 ∈ lst :=
              randomChoice_mem acc.2 lst hnil
            have hfacts := hcbr (rid, lst) (lookup_mem_pair cbr rid lst hlk) _ hchosen
            have hob := doorOffsetWindow_bounds
              ((randomChoice acc.2 lst).1.length) options.doorWidth
              ((randomChoice acc.2 lst).2) (by linarith [hfacts.2])
            refine ⟨?_, ?_, ?_⟩
            · exact hob.1
            · show (doorOffsetWindow (randomChoice acc.2 lst).1.length
                  options.doorWidth (randomChoice acc.2 lst).2).1 ≤
                (doorOffsetWindow (randomChoice acc.2 lst).1.length
                  options.doorWidth (randomChoice acc.2 lst).2).2.1
              rw [hob.2.1]
              linarith
            · show (doorOffsetWindow (randomChoice acc.2 lst).1.length
                  options.doorWidth (randomChoice acc.2 lst).2).2.1 ≤
                edgeLength (randomChoice acc.2 lst).1.wallKey
              rw [← hfacts.1]
              exact hob.2.2
  unfold chooseExteriorExitOpenings
  dsimp only
  split
  · intro o ho
    cases ho
  · split
    · intro o ho
      cases ho
    · intro o ho
      refine key _ ?_ _ _ ?_ o ho
      · refine foldl_candidatesByRoom_inv _ _ [] (by intro e he; cases he) ?_
        intro c hc
        obtain ⟨hmap, hpred⟩ := List.mem_filter.1 hc
        obtain ⟨w, _, rfl⟩ := List.mem_map.1 hmap
        have hp := of_decide_eq_true hpred
        exact ⟨rfl, by linarith [hp.1]⟩
      · intro o' ho'
        cases ho'

theorem chooseWindowOpenings_ok (roomWalls hallwayWalls : List Wall)
    (doorOpenings : List Opening) (options : Options) (s : ℕ)
    (hww : 0 ≤ options.windowWidth) :
    ∀ o ∈ (chooseWindowOpenings roomWalls hallwayWalls doorOpenings options s).1,
      openingWithin o := by
  unfold chooseWindowOpenings
  dsimp only
  split
  · intro o ho
    cases ho
  · split
    · intro o ho
      cases ho
    · intro o ho
      obtain ⟨wall, hwall, s', heq⟩ := mapRng_mem _ _ _ o ho
      have hw2 := fisherYates_mem _ _ wall (List.take_subset _ _ hwall)
      obtain ⟨hmap, hpred⟩ := List.mem_filter.1 hw2
      obtain ⟨w0, _, rfl⟩ := List.mem_map.1 hmap
      have hp := of_decide_eq_true hpred
      have hLw : options.windowWidth + 0.8 ≤ edgeLength w0.edge := by
        have := hp.1
        dsimp only at this
        linarith [this]
      have hu0 := rngFloat_nonneg s'
      have hu1 := rngFloat_lt_one s'
      have hrem : Max.max (0.2 : ℚ) (edgeLength w0.edge - options.windowWidth) =
          edgeLength w0.edge - options.windowWidth := max_eq_right (by linarith)
      have hmax : Max.max (0.15 : ℚ)
          (edgeLength w0.edge - options.windowWidth - 0.15) =
          edgeLength w0.edge - options.windowWidth - 0.15 :=
        max_eq_right (by linarith)
      rw [heq]
      refine ⟨?_, ?_, ?_⟩ <;> dsimp only
      · rw [hrem, hmax]
        nlinarith
      · linarith
      · rw [hrem, hmax]
        nlinarith

theorem adaptiveCandidate_openings_ok (picker : Picker) (fuel : ℕ)
    (args : AdaptiveArgs) (n : ℕ) (hdw : 0 ≤ args.options.doorWidth)
    (hdo : ∀ o ∈ args.initialDoorOpenings, openingWithin o) :
    (∀ o ∈ (adaptiveCandidate picker fuel args n).connectedDoors, openingWithin o) ∧
    (∀ o ∈ (adaptiveCandidate picker fuel args n).exteriorRoomExits, openingWithin o) := by
  have hcd : (adaptiveCandidate picker fuel args n).connectedDoors =
      (generateRoomsFromDoors picker args.initialDoorOpenings args.hallwayWalls
        args.hallwayGrid args.hallwayCells args.bounds
        (createRngInit (args.attemptSeed + ((n : ℤ) + 1) * 3571))
        (Max.max 1 ((scaleCandidates args.baseRoomSizeScale).getD n 0))
        args.roomShapeStyle).1.connectedDoors := by
    unfold adaptiveCandidate
    rfl
  have hex : (adaptiveCandidate picker fuel args n).exteriorRoomExits =
      (chooseExteriorExitOpenings fuel
        (generateRoomsFromDoors picker args.initialDoorOpenings args.hallwayWalls
          args.hallwayGrid args.hallwayCells args.bounds
          (createRngInit (args.attemptSeed + ((n : ℤ) + 1) * 3571))
          (Max.max 1 ((scaleCandidates args.baseRoomSizeScale).getD n 0))
          args.roomShapeStyle).1.roomWalls
        (generateRoomsFromDoors picker args.initialDoorOpenings args.hallwayWalls
          args.hallwayGrid args.hallwayCells args.bounds
          (createRngInit (args.attemptSeed + ((n : ℤ) + 1) * 3571))
          (Max.max 1 ((scaleCandidates args.baseRoomSizeScale).getD n 0))
          args.roomShapeStyle).1.rooms
        args.options
        (generateRoomsFromDoors picker args.initialDoorOpenings args.hallwayWalls
          args.hallwayGrid args.hallwayCells args.bounds
          (createRngInit (args.attemptSeed + ((n : ℤ) + 1) * 3571))
          (Max.max 1 ((scaleCandidates args.baseRoomSizeScale).getD n 0))
          args.roomShapeStyle).2).1 := by
    unfold adaptiveCandidate
    rfl
  constructor
  · rw [hcd]
    exact generateRoomsFromDoors_cd openingWithin picker _ _ _ _ _ _ _ _ hdo
  · rw [hex]
    exact chooseExteriorExitOpenings_ok fuel _ _ args.options _ hdw

theorem attemptAllOpenings_within (picker : Picker) (fuel : ℕ) (options : Options)
    (bounds : Bounds) (seed : ℤ) (hdw : 0 ≤ options.doorWidth)
    (hww : 0 ≤ options.windowWidth) :
    ∀ o ∈ attemptAllOpenings picker fuel options bounds seed, openingWithin o := by
  have hdo : ∀ o ∈ (attemptCdo fuel options bounds seed).1, openingWithin o :=
    chooseDoorOpenings_ok fuel _ _ options _ hdw
  have hP := generateRoomsWithAdaptiveScale_pred picker fuel
    (attemptArgs fuel options bounds seed)
    (fun cand => (∀ o ∈ cand.connectedDoors, openingWithin o) ∧
      (∀ o ∈ cand.exteriorRoomExits, openingWithin o))
    (fun i => adaptiveCandidate_openings_ok picker fuel
      (attemptArgs fuel options bounds seed) i hdw hdo)
    ⟨(by intro o ho; cases ho), (by intro o ho; cases ho)⟩
  have hwin : ∀ o ∈ attemptWindowOpenings picker fuel options bounds seed,
      openingWithin o := by
    unfold attemptWindowOpenings
    exact chooseWindowOpenings_ok _ _ _ options _ hww
  intro o ho
  unfold attemptAllOpenings at ho
  rcases List.mem_append.1 ho with h12 | hw
  · rcases List.mem_append.1 h12 with hcd | hex
    · exact hP.1 o hcd
    · exact hP.2 o hex
  · exact hwin o hw

/-- What C6's containment half asserts of every generation attempt: in the
per-wall grouping that compiles walls and opening glyphs, every opening sits
on the wall key it is grouped under, with `0 ≤ start ≤ end ≤` the owning
edge's length. -/
def openingsWithinWalls (picker : Picker) (fuel : ℕ) (cfg : Config) (seed : ℤ) :
    Prop :=
  ∀ entry ∈ attemptOpeningsByWall picker fuel (normalizeOptions cfg)
      (deriveBounds (normalizeOptions cfg)) seed,
    ∀ o ∈ entry.2, o.wallKey = entry.1 ∧ 0 ≤ o.startO ∧ o.startO ≤ o.endO ∧
      o.endO ≤ edgeLength entry.1

/-- C6 (containment half, corrected): for every normalized configuration and
attempt seed, every opening the generator groups on a wall has its offset
interval inside `[0, L]` of that wall's edge — doors and exits keep a `0.1`
margin, windows `0.15`, on walls long enough by the selectors' filters.  The
claim's no-overlap half is refuted separately: walls of two adjacent rooms
can coincide on the same edge key, and the openings picked independently for
them land on the same wall group with overlapping intervals. -/
theorem chooseOpenings_contained (picker : Picker) (fuel : ℕ) (cfg : Config)
    (seed : ℤ) : openingsWithinWalls picker fuel cfg seed := by
  have hdw : 0 ≤ (normalizeOptions cfg).doorWidth := by
    show 0 ≤ clampNumber (orDefault cfg.doorWidth 1.2) 0.8 2.5
    unfold clampNumber
    have := le_max_left (0.8 : ℚ) (Min.min 2.5 (orDefault cfg.doorWidth 1.2))
    linarith
  have hww : 0 ≤ (normalizeOptions cfg).windowWidth := by
    show 0 ≤ clampNumber (orDefault cfg.windowWidth 1.6) 0.8 2.8
    unfold clampNumber
    have := le_max_left (0.8 : ℚ) (Min.min 2.8 (orDefault cfg.windowWidth 1.6))
    linarith
  have hopen := attemptAllOpenings_within picker fuel (normalizeOptions cfg)
    (deriveBounds (normalizeOptions cfg)) seed hdw hww
  intro entry hentry o ho
  have hQ := foldl_mapPushKey_inv (fun o : Opening => o.wallKey)
    (fun k o => o.wallKey = k ∧ openingWithin o)
    (attemptAllOpenings picker fuel (normalizeOptions cfg)
      (deriveBounds (normalizeOptions cfg)) seed)
    [] (by intro e he; cases he) (fun o h => ⟨rfl, hopen o h⟩) entry
    (by unfold attemptOpeningsByWall at hentry; exact hentry) o ho
  obtain ⟨hk, h1, h2, h3⟩ := hQ
  rw [hk] at h3
  exact ⟨hk, h1, h2, h3⟩

/-- Two coincident room walls, the shape the room-wall builder emits when two
adjacent rooms share a boundary run: deduplication is per room id, so the
shared edge appears once for each room, under one and the same edge key. -/
def c6RoomWalls : List Wall :=
  [{ edge := { x1 := 0, y1 := 0, x2 := 0, y2 := 4 }, roomId := some 1 },
   { edge := { x1 := 0, y1 := 0, x2 := 0, y2 := 4 }, roomId := some 2 }]

/-- A normalized option record (`windowWidth` at its clamp ceiling 2.8,
`maxWindowCount` at its ceiling 40, the rest at the defaults). -/
def c6Options : Options :=
  { width := 36, height := 24, hallwayCount := 1, doorCount := 6,
    roomShapeStyle := 45, doorWidth := 1.2, maxWindowCount := 40,
    windowWidth := 2.8, seed := 1 }

/-- C6 counterexample to the no-overlap half: the window selector treats the
two coincident walls as distinct candidates (it filters only door-owned
keys), puts one window on each, and grouping the resulting openings by wall
key — exactly as the attempt's compile step does — yields one group with two
overlapping intervals: on a length-4 edge, two width-2.8 windows starting in
`[0.15, 1.05]` always overlap. -/
theorem windowOpenings_overlap_cex :
    ¬ (∀ entry ∈ (chooseWindowOpenings c6RoomWalls [] [] c6Options 1).1.foldl
          (fun acc o => mapPush acc o.wallKey o) [],
        entry.2.Pairwise (fun a b => a.endO ≤ b.startO ∨ b.endO ≤ a.startO)) := by
  with_unfolding_all decide

end FloorPlan
